import Mathlib

/-!
Verification development for a VRPTW metaheuristic solver.

This file gives a shallow embedding of the solver's core data model
(`core/data_structures.py`), its construction heuristic
(`algorithms/mih.py`), the LNS destroy/repair operator
(`operators/lns_destroy_repair.py`) and the ejection-chain victim
ranking (`operators/ejection_chain.py`), and proves or refutes the
specification claims about them.

Modelling conventions:
* Python floats are modelled by rationals (`ℚ`); the IEEE value
  `float('inf')` (used by the code as an infeasibility sentinel) is
  modelled by the `none` constructor of `Cost := Option ℚ`.
* The Euclidean metric `distance` of `core/data_structures.py` computes
  a square root, which is not rational.  The embedding therefore takes
  the metric as an explicit function parameter `D : Customer → Customer →
  ℚ`; every theorem is uniform in `D`, and concrete witnesses use
  collinear instances (all points on the x-axis), for which the source's
  Euclidean distance is exactly `|x₁ - x₂|` and hence rational.
* The mutable `Route` / `Solution` objects become records, and every
  mutating method becomes a function returning the updated record
  (together with its Python return value where there is one).
* The per-route distance cache (a Python dict keyed by id pairs) is
  modelled as an association list in insertion order.
-/

set_option maxHeartbeats 1000000
set_option linter.unusedVariables false

namespace VRPTW

/-- Customer record of `core/data_structures.py` (`@dataclass Customer`).
Coordinates and the time fields are modelled as rationals, demand and
capacity as integers (they are `int` in the source and only ever added
and compared). -/
structure Customer where
  id : Nat
  x : ℚ
  y : ℚ
  demand : Int
  ready_time : ℚ
  due_date : ℚ
  service_time : ℚ
deriving DecidableEq, Repr

/-- The metric abstracting `distance` of `core/data_structures.py`. -/
abbrev DistFn := Customer → Customer → ℚ

/-- Customer table abstracting the shared `customers_lookup` dict. -/
abbrev Lookup := Nat → Customer

/-- The per-route `_dist_cache` dict: key/value pairs in insertion order. -/
abbrev Cache := List ((Nat × Nat) × ℚ)

/-- Costs: `some q` is a finite float, `none` is the non-finite sentinel
(`float('inf')`, and in one analysed corner `nan`; both compare as
"never smaller" in every comparison the modelled code performs). -/
abbrev Cost := Option ℚ

/-- Addition on costs; a non-finite operand absorbs (IEEE `inf + x`). -/
def cadd : Cost → Cost → Cost
  | some a, some b => some (a + b)
  | _, _ => none

/-- Strict float comparison as used by the modelled code.  The left
operand may be the non-finite sentinel (`inf < x` and `nan < x` are both
false); the right operand is only ever `none` when it is the initial
`float('inf')` of a running minimum, and `finite < inf` is true. -/
def cltB : Cost → Cost → Bool
  | none, _ => false
  | some _, none => true
  | some a, some b => decide (a < b)

/-- Association-list lookup for the distance cache (`key in dict`). -/
def cacheFind : Cache → Nat × Nat → Option ℚ
  | [], _ => none
  | (k, v) :: rest, key => if k = key then some v else cacheFind rest key

/-- `Route._get_distance`: return the cached distance for the ordered id
pair, populating the cache on a miss. -/
def getDist (D : DistFn) (cache : Cache) (c1 c2 : Customer) : Cache × ℚ :=
  match cacheFind cache (c1.id, c2.id) with
  | some v => (cache, v)
  | none => (cache ++ [((c1.id, c2.id), D c1 c2)], D c1 c2)

/-- Route record of `core/data_structures.py` (`class Route`). -/
structure Route where
  customer_ids : List Nat
  arrival_times : List ℚ
  departure_time : ℚ
  current_load : Int
  total_cost : Cost
  depot : Customer
  customers_lookup : Lookup
  vehicle_capacity : Int
  dcache : Cache

/-- `Route.__init__ (depot, vehicle_capacity, customers_lookup)`. -/
def Route.init (depot : Customer) (cap : Int) (lookup : Lookup) : Route :=
  { customer_ids := [], arrival_times := [], departure_time := 0,
    current_load := 0, total_cost := some 0, depot := depot,
    customers_lookup := lookup, vehicle_capacity := cap, dcache := [] }

/-! ### Pure reference schedule

These are the reference-side definitions used to state claims: the
schedule recursion of spec section 4.2 ("raw arrival", waiting, final
arrival) written as a pure function of the id sequence. -/

/-- Pure schedule: the list of `(raw_arrival, final_arrival)` pairs for
an id sequence, starting at time `t` from location `prev`. -/
def schedList (D : DistFn) (lookup : Lookup) : ℚ → Customer → List Nat → List (ℚ × ℚ)
  | _, _, [] => []
  | t, prev, cid :: rest =>
      let c := lookup cid
      let raw := t + D prev c
      let fin := max raw c.ready_time
      (raw, fin) :: schedList D lookup (fin + c.service_time) c rest

/-- Final arrival times (after waiting) of the pure schedule. -/
def schedFinals (D : DistFn) (lookup : Lookup) (t : ℚ) (prev : Customer) (ids : List Nat) : List ℚ :=
  (schedList D lookup t prev ids).map Prod.snd

/-- State (current time, previous location) after serving a prefix. -/
def schedState (D : DistFn) (lookup : Lookup) : ℚ → Customer → List Nat → ℚ × Customer
  | t, prev, [] => (t, prev)
  | t, prev, cid :: rest =>
      let c := lookup cid
      let fin := max (t + D prev c) c.ready_time
      schedState D lookup (fin + c.service_time) c rest

/-- Sum of the per-stop waiting times `max 0 (ready − raw_arrival)`. -/
def waitSum (D : DistFn) (lookup : Lookup) : ℚ → Customer → List Nat → ℚ
  | _, _, [] => 0
  | t, prev, cid :: rest =>
      let c := lookup cid
      let raw := t + D prev c
      max 0 (c.ready_time - raw) + waitSum D lookup (max raw c.ready_time + c.service_time) c rest

/-- Edge distances from `prev` through the customer sequence and back to
the depot. -/
def legsSum (D : DistFn) (lookup : Lookup) (depot : Customer) : Customer → List Nat → ℚ
  | prev, [] => D prev depot
  | prev, cid :: rest => D prev (lookup cid) + legsSum D lookup depot (lookup cid) rest

/-- Travel distance of all edges of a route: depot to first customer,
consecutive customers, last customer back to the depot.  Zero for an
empty sequence. -/
def travelSum (D : DistFn) (lookup : Lookup) (depot : Customer) (ids : List Nat) : ℚ :=
  match ids with
  | [] => 0
  | _ => legsSum D lookup depot depot ids

/-- The reference cost formula of spec section 4.2:
`dist(depot,c₁) + Σ dist(cᵢ,cᵢ₊₁) + dist(cₙ,depot) + 1.1 · Σ waiting`. -/
def refCost (D : DistFn) (lookup : Lookup) (depot : Customer) (dep : ℚ) (ids : List Nat) : ℚ :=
  travelSum D lookup depot ids + 11/10 * waitSum D lookup dep depot ids

/-- Time-window feasibility of the pure schedule: every final arrival is
at most its customer's due date. -/
def schedOk (D : DistFn) (lookup : Lookup) (t : ℚ) (prev : Customer) (ids : List Nat) : Prop :=
  ∀ p ∈ (schedList D lookup t prev ids).zip ids, p.1.2 ≤ (lookup p.2).due_date

instance (D : DistFn) (lookup : Lookup) (t : ℚ) (prev : Customer) (ids : List Nat) :
    Decidable (schedOk D lookup t prev ids) := by
  unfold schedOk; infer_instance

/-! ### Route methods -/

/-- Loop body of `Route._recalculate_from`: process the remaining ids,
returning the updated cache and the recomputed arrival times. -/
def recalcAux (D : DistFn) (lookup : Lookup) : Cache → ℚ → Customer → List Nat → Cache × List ℚ
  | cache, _, _, [] => (cache, [])
  | cache, t, prev, cid :: rest =>
      let c := lookup cid
      let (cache1, travel) := getDist D cache prev c
      let arr := max (t + travel) c.ready_time
      let (cache2, arrs) := recalcAux D lookup cache1 (arr + c.service_time) c rest
      (cache2, arr :: arrs)

/-- `Route._recalculate_from(start_idx)`: recompute arrival times from
`start` onwards, in place.  Positions before `start` keep their stored
values; the seed time/location comes from the depot (when `start = 0`)
or from the stored arrival of the previous stop. -/
def recalculateFrom (D : DistFn) (r : Route) (start : Nat) : Route :=
  if r.customer_ids.length = 0 then r
  else
    let seed : ℚ × Customer :=
      if start = 0 then (r.departure_time, r.depot)
      else
        let pc := r.customers_lookup (r.customer_ids.getD (start - 1) 0)
        (r.arrival_times.getD (start - 1) 0 + pc.service_time, pc)
    let res := recalcAux D r.customers_lookup r.dcache seed.1 seed.2 (r.customer_ids.drop start)
    { r with dcache := res.1,
             arrival_times := r.arrival_times.take start ++ res.2
                              ++ r.arrival_times.drop r.customer_ids.length }

/-- `Route.is_feasible`: empty routes are feasible; otherwise the load
must not exceed capacity and every stored arrival must meet its due
date. -/
def isFeasible (r : Route) : Bool :=
  if r.customer_ids.isEmpty then true
  else if r.vehicle_capacity < r.current_load then false
  else (r.customer_ids.zip r.arrival_times).all
    (fun p => decide (p.2 ≤ (r.customers_lookup p.1).due_date))

/-- The trial-insertion mutation of `Route.insert_inplace`: insert the
id at `position`, a placeholder 0.0 into the arrival array, and add the
demand to the load. -/
def insertTrial (r : Route) (cid : Nat) (pos : Nat) : Route :=
  { r with customer_ids := r.customer_ids.insertIdx pos cid,
           arrival_times := r.arrival_times.insertIdx pos 0,
           current_load := r.current_load + (r.customers_lookup cid).demand }

/-- The rollback mutation of `Route.insert_inplace`: pop the id and the
placeholder arrival at `position` and subtract the demand again. -/
def insertRollback (r2 : Route) (cid : Nat) (pos : Nat) : Route :=
  { r2 with customer_ids := r2.customer_ids.eraseIdx pos,
            arrival_times := r2.arrival_times.eraseIdx pos,
            current_load := r2.current_load - (r2.customers_lookup cid).demand }

/-- `Route.insert_inplace(customer_id, position)`: capacity gate, trial
insertion, schedule recomputation from `position`, feasibility check,
rollback on failure.  The route's `total_cost` field is never touched
(the source leaves the cost update to the caller). -/
def insertInplace (D : DistFn) (r : Route) (cid : Nat) (pos : Nat) : Route × Bool :=
  if r.vehicle_capacity < r.current_load + (r.customers_lookup cid).demand then (r, false)
  else
    let r2 := recalculateFrom D (insertTrial r cid pos) pos
    if isFeasible r2 then (r2, true)
    else (recalculateFrom D (insertRollback r2 cid pos) pos, false)

/-- Loop body of `Route.calculate_cost_inplace`: walk the ids
accumulating cost `travel + 1.1 · wait` per stop, overwrite arrivals as
they are produced, and stop early (leaving the remaining stored
arrivals untouched) at the first due-date violation.  Returns the final
cache, the arrival list for the processed region, and - on success -
the accumulated cost together with the last customer served. -/
def calcAux (D : DistFn) (lookup : Lookup) :
    Cache → ℚ → Customer → ℚ → List Nat → List ℚ → Cache × List ℚ × Option (ℚ × Customer)
  | cache, _, prev, acc, [], _ => (cache, [], some (acc, prev))
  | cache, t, prev, acc, cid :: rest, arrs =>
      let c := lookup cid
      let (cache1, travel) := getDist D cache prev c
      let raw := t + travel
      let wait := max 0 (c.ready_time - raw)
      let arr := raw + wait
      if c.due_date < arr then (cache1, arrs, none)
      else
        let (cache2, arrs2, res) :=
          calcAux D lookup cache1 (arr + c.service_time) c
            (acc + travel + 11/10 * wait) rest (arrs.drop 1)
        (cache2, arr :: arrs2, res)

/-- `Route.calculate_cost_inplace`: recompute schedule and cost fully;
sets `total_cost` to the non-finite sentinel and stops early at the
first time-window violation.  The comment in the source claims the
waiting weight is 1.2 but the code multiplies by 1.1. -/
def calculateCostInplace (D : DistFn) (r : Route) : Route × Cost :=
  if r.customer_ids.isEmpty then
    ({ r with total_cost := some 0, arrival_times := [] }, some 0)
  else
    let n := r.customer_ids.length
    let arrs0 := if r.arrival_times.length ≠ n then List.replicate n (0 : ℚ) else r.arrival_times
    match calcAux D r.customers_lookup r.dcache r.departure_time r.depot 0 r.customer_ids arrs0 with
    | (cache2, arrs2, none) =>
        ({ r with dcache := cache2, arrival_times := arrs2, total_cost := none }, none)
    | (cache2, arrs2, some (acc, last)) =>
        let (cache3, dlast) := getDist D cache2 last r.depot
        ({ r with dcache := cache3, arrival_times := arrs2, total_cost := some (acc + dlast) },
         some (acc + dlast))

/-- The inter-customer legs loop of `Route.get_total_distance`:
consecutive customer pairs through the cache. -/
def midLegs (D : DistFn) (lookup : Lookup) : Cache → List Nat → Cache × ℚ
  | cache, [] => (cache, 0)
  | cache, [_] => (cache, 0)
  | cache, a :: b :: rest =>
      let res1 := getDist D cache (lookup a) (lookup b)
      let res2 := midLegs D lookup res1.1 (b :: rest)
      (res2.1, res1.2 + res2.2)

/-- `Route.get_total_distance`: travel distance of the current route,
depot legs computed directly (bypassing the cache), inter-customer legs
through the cache (`midLegs`). -/
def getTotalDistance (D : DistFn) (r : Route) : Route × ℚ :=
  match r.customer_ids with
  | [] => (r, 0)
  | first :: _ =>
      let d0 := D r.depot (r.customers_lookup first)
      let resm := midLegs D r.customers_lookup r.dcache r.customer_ids
      let dn := D (r.customers_lookup (r.customer_ids.getLastD 0)) r.depot
      ({ r with dcache := resm.1 }, d0 + resm.2 + dn)

/-! ### Consistency of the cache and customer table

`customers_lookup` models the shared dict `{c.id: c}`: the id stored in
a customer record matches its key (`LookupOk`), and for convenience of
statement the table also maps the depot id to the depot record.  Under
these, every cached distance equals the metric applied to the looked-up
endpoints (`CacheOk`), which is exactly the invariant the per-route
`_dist_cache` maintains. -/

def LookupOk (lookup : Lookup) : Prop := ∀ i, (lookup i).id = i

def CacheOk (D : DistFn) (lookup : Lookup) (cache : Cache) : Prop :=
  ∀ e ∈ cache, e.2 = D (lookup e.1.1) (lookup e.1.2)

/-- Per-leg cost accumulated by the `calculate_cost_inplace` loop:
`travel + 1.1 · wait` for each stop. -/
def bodySum (D : DistFn) (lookup : Lookup) : ℚ → Customer → List Nat → ℚ
  | _, _, [] => 0
  | t, prev, cid :: rest =>
      let c := lookup cid
      let travel := D prev c
      let raw := t + travel
      let wait := max 0 (c.ready_time - raw)
      travel + 11/10 * wait + bodySum D lookup (raw + wait + c.service_time) c rest

/-! ### Solution -/

/-- Solution record of `core/data_structures.py` (`class Solution`). -/
structure Solution where
  routes : List Route
  total_cost : Cost
  total_base_cost : Cost
  num_vehicles : Nat

/-- `Solution.__init__`. -/
def Solution.empty : Solution :=
  { routes := [], total_cost := some 0, total_base_cost := some 0, num_vehicles := 0 }

/-- `Solution.add_route`: append the route and accumulate its (possibly
stale) stored cost into `total_base_cost`. -/
def addRoute (s : Solution) (r : Route) : Solution :=
  { s with routes := s.routes ++ [r], num_vehicles := s.num_vehicles + 1,
           total_base_cost := cadd s.total_base_cost r.total_cost }

/-- Run `calculate_cost_inplace` over every route in order, collecting
the updated routes and the float sum of the returned costs. -/
def calcAllRoutes (D : DistFn) : List Route → List Route × Cost
  | [] => ([], some 0)
  | r :: rest =>
      let (r2, c) := calculateCostInplace D r
      let (rest2, cs) := calcAllRoutes D rest
      (r2 :: rest2, cadd c cs)

/-- Run `get_total_distance` over every route in order (the generator
inside `_recalculate_penalized_cost`), collecting updated routes and
the summed distance. -/
def sumTotalDistances (D : DistFn) : List Route → List Route × ℚ
  | [] => ([], 0)
  | r :: rest =>
      let (r2, d) := getTotalDistance D r
      let (rest2, ds) := sumTotalDistances D rest
      (r2 :: rest2, d + ds)

/-- `Solution._recalculate_penalized_cost(alpha_vehicle)`: compute the
vehicle penalty and set `total_cost = total_base_cost + λ ·
num_vehicles`.  When `total_base_cost` is the non-finite sentinel the
whole formula collapses to it (IEEE infinity absorbs the clamp and the
sum), which the match below mirrors. -/
def recalculatePenalizedCost (D : DistFn) (s : Solution) (alpha : Option ℚ) : Solution :=
  let res := sumTotalDistances D s.routes
  let lam : ℚ :=
    match alpha with
    | some a => a
    | none =>
        match s.total_base_cost with
        | none => 2000
        | some b =>
            let nv : ℚ := max (s.num_vehicles : ℚ) 1
            let avgRouteCost := b / nv
            let avgWaiting := (b - res.2) / nv
            max 1000 (min (6/10 * avgRouteCost + 2/10 * avgWaiting + 1000) 2000)
  { s with routes := res.1,
           total_cost := cadd s.total_base_cost (some (lam * s.num_vehicles)) }

/-- `Solution.update_cost(alpha_vehicle)`: recompute every route cost,
refresh `total_base_cost` and `num_vehicles`, then apply the vehicle
penalty. -/
def updateCost (D : DistFn) (s : Solution) (alpha : Option ℚ) : Solution :=
  if s.routes.isEmpty then
    { s with total_cost := some 0, total_base_cost := some 0, num_vehicles := 0 }
  else
    let (routes2, base) := calcAllRoutes D s.routes
    recalculatePenalizedCost D
      { s with routes := routes2, total_base_cost := base, num_vehicles := routes2.length }
      alpha

/-- `Solution.is_feasible`. -/
def solutionFeasible (s : Solution) : Bool :=
  s.routes.all isFeasible

/-! ### Stable sorting

Python's `list.sort` / `sorted` are stable.  `insSortedBy le` is the
stable insertion sort for a total preorder `le`: an element is placed
before the first element `y` with `le x y`, so among key-equal elements
the original order is preserved. -/

/-- Insert into a sorted list, before the first element that `x` may
precede. -/
def insSortedBy (le : α → α → Bool) (x : α) : List α → List α
  | [] => [x]
  | y :: ys => if le x y then x :: y :: ys else y :: insSortedBy le x ys

/-- Stable insertion sort. -/
def stableSortBy (le : α → α → Bool) : List α → List α
  | [] => []
  | x :: xs => insSortedBy le x (stableSortBy le xs)

/-! ### Ejection-chain victim ranking (`operators/ejection_chain.py`) -/

/-- Descending lexicographic comparison on `(score, id)` pairs: this is
what Python's `list.sort(reverse=True)` uses on the score tuples. -/
def pairGe (a b : ℚ × Nat) : Prop :=
  b.1 < a.1 ∨ (a.1 = b.1 ∧ b.2 ≤ a.2)

instance : DecidableRel pairGe := fun a b => by unfold pairGe; infer_instance

instance : IsTotal (ℚ × Nat) pairGe where
  total a b := by
    unfold pairGe
    rcases lt_trichotomy a.1 b.1 with h | h | h
    · exact Or.inr (Or.inl h)
    · rcases Nat.le_total b.2 a.2 with h2 | h2
      · exact Or.inl (Or.inr ⟨h, h2⟩)
      · exact Or.inr (Or.inr ⟨h.symm, h2⟩)
    · exact Or.inl (Or.inl h)

instance : IsTrans (ℚ × Nat) pairGe where
  trans a b c hab hbc := by
    unfold pairGe at *
    rcases hab with h1 | ⟨e1, l1⟩
    · rcases hbc with h2 | ⟨e2, _⟩
      · exact Or.inl (h2.trans h1)
      · exact Or.inl (e2 ▸ h1)
    · rcases hbc with h2 | ⟨e2, l2⟩
      · exact Or.inl (e1 ▸ h2)
      · exact Or.inr ⟨e1.trans e2, l2.trans l1⟩

/-- The `(score, cid)` pairs built by `_rank_victims`: the source
computes `demand_score = demand * 0.5` and then weighs it by `0.35`,
so the effective demand coefficient is `0.175`. -/
def victimScores (r : Route) : List (ℚ × Nat) :=
  let n := r.customer_ids.length
  r.customer_ids.enum.map fun p =>
    let cust := r.customers_lookup p.2
    let demandScore := (cust.demand : ℚ) * (5/10)
    let windowSlack := cust.due_date - cust.ready_time
    let slackScore := min (windowSlack / 80) 2
    let positionScore : ℚ :=
      if p.1 = 0 ∨ p.1 = n - 1 then 3
      else if p.1 = 1 ∨ p.1 = n - 2 then 2
      else 1
    (demandScore * (35/100) + slackScore * (30/100) + positionScore * (35/100), p.2)

/-- `_rank_victims(route)`: empty guard, then the scores sorted in
descending lexicographic order, customer ids extracted. -/
def rankVictims (r : Route) : List Nat :=
  if r.customer_ids.isEmpty then []
  else (List.insertionSort pairGe (victimScores r)).map Prod.snd

/-- The `(score, cid)` pairs that the claim's formula
`0.35·demand + 0.30·min(window_slack/80, 2) + 0.35·position_score`
would produce (demand coefficient `0.35`, not the code's `0.175`). -/
def claimVictimScores (r : Route) : List (ℚ × Nat) :=
  let n := r.customer_ids.length
  r.customer_ids.enum.map fun p =>
    let cust := r.customers_lookup p.2
    let windowSlack := cust.due_date - cust.ready_time
    let slackScore := min (windowSlack / 80) 2
    let positionScore : ℚ :=
      if p.1 = 0 ∨ p.1 = n - 1 then 3
      else if p.1 = 1 ∨ p.1 = n - 2 then 2
      else 1
    ((cust.demand : ℚ) * (35/100) + slackScore * (30/100) + positionScore * (35/100), p.2)

/-- The amended score formula: `0.175·demand + 0.30·min(slack/80, 2) +
0.35·position_score`, as the code effectively computes. -/
def amendedVictimScores (r : Route) : List (ℚ × Nat) :=
  let n := r.customer_ids.length
  r.customer_ids.enum.map fun p =>
    let cust := r.customers_lookup p.2
    let windowSlack := cust.due_date - cust.ready_time
    let slackScore := min (windowSlack / 80) 2
    let positionScore : ℚ :=
      if p.1 = 0 ∨ p.1 = n - 1 then 3
      else if p.1 = 1 ∨ p.1 = n - 2 then 2
      else 1
    ((cust.demand : ℚ) * (175/1000) + slackScore * (30/100) + positionScore * (35/100), p.2)

/-- First score associated with a customer id in a score list. -/
def scoreOfCid (scores : List (ℚ × Nat)) (cid : Nat) : ℚ :=
  match scores.find? (fun p => p.2 = cid) with
  | some p => p.1
  | none => 0

/-- Boolean check that a list of ids is ranked in descending order of a
given score function. -/
def chainDescB (f : Nat → ℚ) : List Nat → Bool
  | [] => true
  | [_] => true
  | a :: b :: rest => decide (f b ≤ f a) && chainDescB f (b :: rest)

/-- Concrete customer table for the victim-ranking counterexample: five
customers on a route, all with window `[0, 80]`; customer 11 has
demand 1 and customer 13 has demand 4. -/
def exCustomer9 : Lookup := fun i =>
  { id := i, x := 0, y := 0,
    demand := if i = 11 then 1 else if i = 13 then 4 else 0,
    ready_time := 0, due_date := 80, service_time := 0 }

/-- Concrete route `[11, 12, 13, 14, 15]` for the victim-ranking
counterexample; customer 13 sits in the middle (position score 1),
customer 11 at the boundary (position score 3). -/
def exRoute9 : Route :=
  { customer_ids := [11, 12, 13, 14, 15], arrival_times := [],
    departure_time := 0, current_load := 0, total_cost := some 0,
    depot := exCustomer9 0, customers_lookup := exCustomer9,
    vehicle_capacity := 100, dcache := [] }

/-- The penalized objective the claim describes:
`total_cost = total_base_cost + λ · num_vehicles` with
`λ = max(3000, min(5000, 1.5 · avg_route_cost + 0.5 · avg_waiting + 3000))`. -/
def claimPenalizedCost (D : DistFn) (s : Solution) : Cost :=
  match s.total_base_cost with
  | none => none
  | some b =>
      let nv : ℚ := max (s.num_vehicles : ℚ) 1
      let avgRouteCost := b / nv
      let avgWaiting := (b - (sumTotalDistances D s.routes).2) / nv
      some (b + max 3000 (min (3/2 * avgRouteCost + 1/2 * avgWaiting + 3000) 5000) *
        s.num_vehicles)

/-! ### LNS destroy/repair (`operators/lns_destroy_repair.py`)

The global RNG is abstracted: `random.choice(all_customers)` inside
`_related_removal` becomes an index parameter `choiceIdx` (taken modulo
the list length), and the unbounded `while improved` 2-opt polish loop
carries a fuel parameter; every theorem below is uniform in both. -/

/-- Float subtraction on costs; a non-finite minuend absorbs
(`inf - x = inf`; the other non-finite cases, which produce `-inf` or
`nan` in Python, are also collapsed to the sentinel - they are only
ever compared with `<`, where all of them compare as "never smaller",
see `cltB`). -/
def csub : Cost → Cost → Cost
  | some a, some b => some (a - b)
  | _, _ => none

/-- Scalar multiplication on costs. -/
def cmul (k : ℚ) : Cost → Cost
  | some a => some (k * a)
  | none => none

/-- `best_improvement > 10.0` where the improvement may be the
non-finite `inf` (then the comparison is true). -/
def cgt10 : Cost → Bool
  | some b => decide (10 < b)
  | none => true

/-- `old_obj - new_obj > thr` computed the way Python floats do, with
the subtraction expanded so that `inf - finite`, `finite - inf` and
`nan` cases are distinguished: only a genuinely larger difference (or
`inf - finite` against a finite threshold) passes. -/
def improveGtB : Cost → Cost → Cost → Bool
  | some o, some n, some t => decide (t < o - n)
  | some _, some _, none => false
  | none, some _, some _ => true
  | none, some _, none => false
  | some _, none, _ => false
  | none, none, _ => false

/-- Ordering of customers by time-window width (`due - ready`),
ascending; the key Python's stable sort uses in the repair phase. -/
def widthLe (lookup : Lookup) (a b : Nat) : Prop :=
  (lookup a).due_date - (lookup a).ready_time ≤ (lookup b).due_date - (lookup b).ready_time

instance (lookup : Lookup) : DecidableRel (widthLe lookup) := fun a b => by
  unfold widthLe; infer_instance

instance (lookup : Lookup) : IsTotal Nat (widthLe lookup) where
  total a b := le_total _ _

instance (lookup : Lookup) : IsTrans Nat (widthLe lookup) where
  trans _ _ _ hab hbc := le_trans hab hbc

/-- In-place reversal of the segment `[i, j]` of a list (the 2-opt
move). -/
def reverseSegment (l : List α) (i j : Nat) : List α :=
  l.take i ++ ((l.drop i).take (j - i + 1)).reverse ++ l.drop (j + 1)

/-- `_calculate_insertion_cost(route, customer_id, position)`: reads the
(possibly stale) stored cost, measures distances through the cache,
trial-inserts, reads the stored cost again (unchanged - the stale-cost
quirk of C10), rolls back and recomputes, and returns
`delta_distance + 2 · delta_waiting`.  Returns the updated route and
the cost (`none` for infeasible). -/
def calculateInsertionCost (D : DistFn) (r : Route) (cid : Nat) (pos : Nat) : Route × Cost :=
  if r.vehicle_capacity < r.current_load + (r.customers_lookup cid).demand then (r, none)
  else
    let old_cost := r.total_cost
    let resOld := getTotalDistance D r
    let old_waiting := csub old_cost (some resOld.2)
    let resIns := insertInplace D resOld.1 cid pos
    if resIns.2 = false then (resIns.1, none)
    else
      let new_cost := resIns.1.total_cost
      let resNew := getTotalDistance D resIns.1
      let new_waiting := csub new_cost (some resNew.2)
      let delta_distance := resNew.2 - resOld.2
      let delta_waiting := csub new_waiting old_waiting
      let rBack := recalculateFrom D (insertRollback resNew.1 cid pos) pos
      let rDone := (calculateCostInplace D rBack).1
      (rDone, cadd (some delta_distance) (cmul 2 delta_waiting))

/-- Position loop of `_try_insert_customer_best_fit`: scan the given
positions, threading the route state and tracking the best (strictly
smaller) finite cost with its position. -/
def bestFitScan (D : DistFn) (cid : Nat) :
    Route → List Nat → Option (Nat × ℚ) → Route × Option (Nat × ℚ)
  | r, [], best => (r, best)
  | r, pos :: rest, best =>
      let res := calculateInsertionCost D r cid pos
      let best2 : Option (Nat × ℚ) :=
        match res.2, best with
        | some c, none => some (pos, c)
        | some c, some pb => if c < pb.2 then some (pos, c) else some pb
        | none, b => b
      bestFitScan D cid res.1 rest best2

/-- `_try_insert_customer_best_fit(route, customer_id)`: best-fit over
positions `0 .. n`, then commit `insert_inplace` at the best position
(or report failure when no position had a finite cost). -/
def tryInsertBestFit (D : DistFn) (r : Route) (cid : Nat) : Route × Bool :=
  let scan := bestFitScan D cid r (List.range (r.customer_ids.length + 1)) none
  match scan.2 with
  | none => (scan.1, false)
  | some pb => insertInplace D scan.1 cid pb.1

/-- Nearest-unremoved-customer scan of `_related_removal`: minimum of
`distance(removed, candidate)` over removed ids (outer) and remaining
candidates (inner), strict improvement, scan order. -/
def nearestCandidate (D : DistFn) (lookup : Lookup)
    (toRemove remaining : List Nat) : Option (ℚ × Nat) :=
  toRemove.foldl (fun acc rid =>
    remaining.foldl (fun acc2 cand =>
      let d := D (lookup rid) (lookup cand)
      match acc2 with
      | none => some (d, cand)
      | some mn => if d < mn.1 then some (d, cand) else some mn) acc) none

/-- Cluster-expansion loop of `_related_removal`: keep adding the
nearest remaining customer until `removeCount` ids are collected or no
candidates remain.  The fuel is initialised to `remaining.length`; each
iteration removes one candidate, so the fuel never runs out on the
loop's own terms. -/
def expandRemoval (D : DistFn) (lookup : Lookup) (removeCount : Nat) :
    Nat → List Nat → List Nat → List Nat
  | 0, toRemove, _ => toRemove
  | fuel + 1, toRemove, remaining =>
      if toRemove.length < removeCount ∧ remaining ≠ [] then
        match nearestCandidate D lookup toRemove remaining with
        | none => toRemove
        | some mn =>
            expandRemoval D lookup removeCount fuel (toRemove ++ [mn.2]) (remaining.erase mn.2)
      else toRemove

/-- `_related_removal(solution, removal_fraction, fixed_remove_count,
random_seed)`: collect all customer ids, pick the removal count, seed
with the `choiceIdx`-th customer (the abstracted `random.choice`), and
expand by nearest neighbours. -/
def relatedRemoval (D : DistFn) (choiceIdx : Nat) (s : Solution)
    (frac : ℚ) (fixed : Option Nat) : List Nat :=
  match s.routes with
  | [] => []
  | r0 :: _ =>
      let all := (s.routes.map Route.customer_ids).flatten
      if all.isEmpty then []
      else
        let removeCount :=
          match fixed with
          | some k => min k all.length
          | none => min (max 5 (((all.length : ℚ) * frac).floor.toNat)) all.length
        if removeCount = 0 then []
        else
          let seed := all.getD (choiceIdx % all.length) 0
          expandRemoval D r0.customers_lookup removeCount all.length
            [seed] (all.filter (fun cid => cid ≠ seed))

/-- Destroy step for one customer id: find the first route containing
it, pop it (ids, arrival, load), recompute the schedule from
`max(0, pos-1)` and the cost. -/
def removeFromFirstRoute (D : DistFn) (cid : Nat) : List Route → List Route
  | [] => []
  | r :: rest =>
      if cid ∈ r.customer_ids then
        let pos := r.customer_ids.indexOf cid
        let r1 := { r with customer_ids := r.customer_ids.eraseIdx pos,
                           arrival_times := r.arrival_times.eraseIdx pos,
                           current_load := r.current_load - (r.customers_lookup cid).demand }
        let r2 := recalculateFrom D r1 (pos - 1)
        (calculateCostInplace D r2).1 :: rest
      else r :: removeFromFirstRoute D cid rest

/-- The destroy loop over all removed ids. -/
def destroyAll (D : DistFn) : List Nat → List Route → List Route
  | [], routes => routes
  | cid :: rest, routes => destroyAll D rest (removeFromFirstRoute D cid routes)

/-- Repair scan for one customer: try the routes in order with
best-fit insertion; the first success wins.  Returns the threaded
route list and the index of the receiving route, if any (failed
attempts still mutate their route's cache and stored cost). -/
def repairOneAux (D : DistFn) (cid : Nat) : List Route → Nat → List Route × Option Nat
  | [], _ => ([], none)
  | r :: restR, i =>
      let res := tryInsertBestFit D r cid
      if res.2 then (res.1 :: restR, some i)
      else
        let res2 := repairOneAux D cid restR (i + 1)
        (res.1 :: res2.1, res2.2)

/-- The repair loop: for each removed customer (already sorted), insert
into the first route that admits a feasible position; otherwise open a
fresh single-customer route; abort (returning `false`) when even that
fails.  `touched` collects indices of modified routes (the model of
the id-based `touched_routes` set). -/
def repairAll (D : DistFn) (depot : Customer) (cap : Int) (lookup : Lookup) :
    List Nat → List Route → List Nat → List Route × List Nat × Bool
  | [], routes, touched => (routes, touched, true)
  | cid :: rest, routes, touched =>
      match repairOneAux D cid routes 0 with
      | (routes2, some i) => repairAll D depot cap lookup rest routes2 (touched ++ [i])
      | (routes2, none) =>
          let nr := Route.init depot cap lookup
          let ins := insertInplace D nr cid 0
          if ins.2 then
            repairAll D depot cap lookup rest (routes2 ++ [ins.1]) (touched ++ [routes2.length])
          else (routes2, touched, false)

/-! ### Intra-route 2-opt (`operators/intra_route_2opt.py`) -/

/-- Inner `j` loop of `intra_route_2opt_inplace`: trial-reverse
`[i, j]`, recompute, roll back, and track the best improvement with the
lookahead bookkeeping; the final component reports the early-exit
break. -/
def twoOptInner (D : DistFn) (old_obj : Cost) (i : Nat) :
    Route → List Nat → Option (Nat × Nat) → Cost → Nat →
      Route × Option (Nat × Nat) × Cost × Nat × Bool
  | r, [], best, bimp, mc => (r, best, bimp, mc, false)
  | r, j :: js, best, bimp, mc =>
      let rTrial := { r with customer_ids := reverseSegment r.customer_ids i j }
      let rc := (calculateCostInplace D rTrial).1
      if isFeasible rc = false then
        let rb := { rc with customer_ids := reverseSegment rc.customer_ids i j }
        twoOptInner D old_obj i ((calculateCostInplace D rb).1) js best bimp mc
      else
        if improveGtB old_obj rc.total_cost (cadd bimp (some (1/1000000))) then
          let bimp2 := csub old_obj rc.total_cost
          let mc2 := mc + 1
          let rb := { rc with customer_ids := reverseSegment rc.customer_ids i j }
          let rbc := (calculateCostInplace D rb).1
          if cgt10 bimp2 || decide (30 ≤ mc2) then
            (rbc, some (i, j), bimp2, mc2, true)
          else
            twoOptInner D old_obj i rbc js (some (i, j)) bimp2 mc2
        else
          let rb := { rc with customer_ids := reverseSegment rc.customer_ids i j }
          twoOptInner D old_obj i ((calculateCostInplace D rb).1) js best bimp mc

/-- Outer `i` loop of `intra_route_2opt_inplace`, with the
post-inner-loop break check on `best_move` and the lookahead limits. -/
def twoOptOuter (D : DistFn) (old_obj : Cost) (n : Nat) :
    Route → List Nat → Option (Nat × Nat) → Cost → Nat →
      Route × Option (Nat × Nat)
  | r, [], best, _, _ => (r, best)
  | r, i :: is2, best, bimp, mc =>
      let res := twoOptInner D old_obj i r (List.range' (i + 1) (n - (i + 1))) best bimp mc
      if res.2.1.isSome ∧ (cgt10 res.2.2.1 || decide (30 ≤ res.2.2.2.1)) then
        (res.1, res.2.1)
      else
        twoOptOuter D old_obj n res.1 is2 res.2.1 res.2.2.1 res.2.2.2.1

/-- `intra_route_2opt_inplace(route)`: best-improvement 2-opt with
lookahead limit 30 and improvement thresholds `1e-6` / `10.0`. -/
def intraRouteTwoOpt (D : DistFn) (r : Route) : Route × Bool :=
  let n := r.customer_ids.length
  if n < 3 then (r, false)
  else
    let rc := (calculateCostInplace D r).1
    let res := twoOptOuter D rc.total_cost n rc (List.range (n - 2)) none (some 0) 0
    match res.2 with
    | some ij =>
        let rb := { res.1 with customer_ids := reverseSegment res.1.customer_ids ij.1 ij.2 }
        ((calculateCostInplace D rb).1, true)
    | none => (res.1, false)

/-- The post-repair polish loop `while improved: improved =
intra_route_2opt_inplace(r)`, bounded by fuel (each accepted move
strictly lowers the route cost by more than `1e-6`, so the source loop
terminates; the theorems are uniform in the fuel). -/
def twoOptLoop (D : DistFn) : Nat → Route → Route
  | 0, r => r
  | fuel + 1, r =>
      let res := intraRouteTwoOpt D r
      if res.2 then twoOptLoop D fuel res.1 else res.1

/-- Apply the 2-opt polish to every touched route (by index). -/
def polishTouched (D : DistFn) (fuel : Nat) (touched : List Nat) (routes : List Route) :
    List Route :=
  routes.enum.map (fun p => if p.1 ∈ touched then twoOptLoop D fuel p.2 else p.2)

/-- `lns_destroy_repair(solution, removal_fraction, fixed_remove_count,
random_seed)`: related removal, destroy, best-fit first-route repair,
2-opt polish of touched routes, and the acceptance test
`total_cost < current_obj - 1e-6`.  No rollback is performed on the
`False` path: the mutated solution is returned as is. -/
def lnsDestroyRepair (D : DistFn) (choiceIdx : Nat) (fuel : Nat) (s : Solution)
    (frac : ℚ) (fixed : Option Nat) : Solution × Bool :=
  if s.routes.isEmpty then (s, false)
  else
    let s1 := updateCost D s none
    let current_obj := s1.total_cost
    let toRemove := relatedRemoval D choiceIdx s1 frac fixed
    if toRemove.isEmpty then (s1, false)
    else
      let routes2 := (destroyAll D toRemove s1.routes).filter
        (fun r => decide (0 < r.customer_ids.length))
      let s2 := { s1 with routes := routes2 }
      match routes2 with
      | [] => (s2, false)
      | r0 :: _ =>
          let lookup := r0.customers_lookup
          let sorted := List.insertionSort (widthLe lookup) toRemove
          let rep := repairAll D r0.depot r0.vehicle_capacity lookup sorted routes2 []
          if rep.2.2 = false then ({ s2 with routes := rep.1 }, false)
          else
            let routes4 := polishTouched D fuel rep.2.1 rep.1
            let s3 := updateCost D { s2 with routes := routes4 } none
            (s3, cltB s3.total_cost (csub current_obj (some (1/1000000))))

/-- The pure per-position insertion-cost measure that
`_calculate_insertion_cost` effectively computes on a consistent route:
`none` when capacity or the recomputed schedule fails, otherwise the
OLD travel distance minus the NEW travel distance (the stale-cost
quirk of C10 makes `delta_distance + 2·delta_waiting` collapse to
`-delta_distance`). -/
def insCostMeasure (D : DistFn) (r : Route) (cid : Nat) (pos : Nat) : Cost :=
  if r.vehicle_capacity < r.current_load + (r.customers_lookup cid).demand then none
  else if schedOk D r.customers_lookup r.departure_time r.depot
      (r.customer_ids.insertIdx pos cid) then
    some (travelSum D r.customers_lookup r.depot r.customer_ids -
      travelSum D r.customers_lookup r.depot (r.customer_ids.insertIdx pos cid))
  else none

/-- The policy the claim describes: the globally best insertion over
ALL current routes and positions - the minimising `(route index,
position, cost)` triple of the insertion-cost measure, scanned in route
order and position order with strict improvement. -/
def claimGlobalBest (D : DistFn) (routes : List Route) (cid : Nat) :
    Option (Nat × Nat × ℚ) :=
  routes.enum.foldl (fun acc p =>
    (List.range (p.2.customer_ids.length + 1)).foldl (fun acc2 pos =>
      match insCostMeasure D p.2 cid pos, acc2 with
      | some c, none => some (p.1, pos, c)
      | some c, some t => if c < t.2.2 then some (p.1, pos, c) else some t
      | none, b => b) acc) none

/-- Observable equality of routes: all fields the repair logic reads
except the distance cache and the (stale) stored cost. -/
def ObsEq (r r' : Route) : Prop :=
  r'.customer_ids = r.customer_ids ∧ r'.arrival_times = r.arrival_times ∧
  r'.current_load = r.current_load ∧ r'.departure_time = r.departure_time ∧
  r'.depot = r.depot ∧ r'.customers_lookup = r.customers_lookup ∧
  r'.vehicle_capacity = r.vehicle_capacity

/-- Route consistency invariant maintained by the repair machinery: a
canonical lookup, a correct depot entry, a correct cache, a stored
schedule equal to the recomputed one, a feasible schedule, and a finite
stored cost. -/
def RInv (D : DistFn) (r : Route) : Prop :=
  LookupOk r.customers_lookup ∧
  r.customers_lookup r.depot.id = r.depot ∧
  CacheOk D r.customers_lookup r.dcache ∧
  r.arrival_times = schedFinals D r.customers_lookup r.departure_time r.depot r.customer_ids ∧
  schedOk D r.customers_lookup r.departure_time r.depot r.customer_ids ∧
  (∃ q, r.total_cost = some q)

/-- Pure shadow of `bestFitScan`: the same best-position accumulator,
driven by the pure measure `insCostMeasure` instead of the stateful
`calculateInsertionCost`. -/
def bestPosFold (D : DistFn) (r : Route) (cid : Nat) :
    List Nat → Option (Nat × ℚ) → Option (Nat × ℚ)
  | [], best => best
  | pos :: rest, best =>
      let best2 : Option (Nat × ℚ) :=
        match insCostMeasure D r cid pos, best with
        | some c, none => some (pos, c)
        | some c, some pb => if c < pb.2 then some (pos, c) else some pb
        | none, b => b
      bestPosFold D r cid rest best2

/-- The per-route best insertion position of a customer: the first
position among `0 .. length` achieving the minimal finite
`insCostMeasure`, with its cost; `none` when no position is feasible. -/
def routeBestPos (D : DistFn) (r : Route) (cid : Nat) : Option (Nat × ℚ) :=
  bestPosFold D r cid (List.range (r.customer_ids.length + 1)) none

/-! ### Constructor (`algorithms/mih.py`) -/

/-- The sort key of `limited_candidate_mih`: ascending lexicographic
`(due_date, distance(depot, c))`, the key of Python's stable `sorted`. -/
def mihLe (D : DistFn) (depot : Customer) (a b : Customer) : Prop :=
  a.due_date < b.due_date ∨ (a.due_date = b.due_date ∧ D depot a ≤ D depot b)

instance (D : DistFn) (depot : Customer) : DecidableRel (mihLe D depot) := fun a b => by
  unfold mihLe; infer_instance

instance (D : DistFn) (depot : Customer) : IsTotal Customer (mihLe D depot) where
  total a b := by
    rcases lt_trichotomy a.due_date b.due_date with h | h | h
    · exact Or.inl (Or.inl h)
    · rcases le_total (D depot a) (D depot b) with h2 | h2
      · exact Or.inl (Or.inr ⟨h, h2⟩)
      · exact Or.inr (Or.inr ⟨h.symm, h2⟩)
    · exact Or.inr (Or.inl h)

instance (D : DistFn) (depot : Customer) : IsTrans Customer (mihLe D depot) where
  trans a b c hab hbc := by
    rcases hab with h1 | ⟨h1, h1d⟩ <;> rcases hbc with h2 | ⟨h2, h2d⟩
    · exact Or.inl (lt_trans h1 h2)
    · exact Or.inl (h2 ▸ h1)
    · exact Or.inl (h1 ▸ h2)
    · exact Or.inr ⟨h1.trans h2, le_trans h1d h2d⟩

/-- `calculate_true_insertion_cost(route, customer, position)`: the
shallow insertion measure of the constructor.  Capacity gate, arrival
estimate at the inserted customer (reading the stored arrival of the
predecessor when available), the inserted customer's own window check,
a window check for the IMMEDIATE next customer only (no deeper
propagation), then the edge-delta cost plus `1.1 ×` the waiting at the
inserted customer.  `none` models `float('inf')`. -/
def trueInsertionCost (D : DistFn) (r : Route) (cust : Customer) (pos : Nat) : Cost :=
  if r.vehicle_capacity < r.current_load + cust.demand then none
  else
    let n := r.customer_ids.length
    let rawArrival :=
      if n = 0 ∨ pos = 0 then r.departure_time + D r.depot cust
      else
        let prev := r.customers_lookup (r.customer_ids.getD (pos - 1) 0)
        let prev_arrival :=
          if pos - 1 < r.arrival_times.length then r.arrival_times.getD (pos - 1) 0
          else max (r.departure_time + D r.depot prev) prev.ready_time
        prev_arrival + prev.service_time + D prev cust
    let arrival := max rawArrival cust.ready_time
    if cust.due_date < arrival then none
    else
      let nextOk : Bool :=
        if pos < n then
          let nxt := r.customers_lookup (r.customer_ids.getD pos 0)
          let next_arrival := max (arrival + cust.service_time + D cust nxt) nxt.ready_time
          decide (next_arrival ≤ nxt.due_date)
        else true
      if nextOk = false then none
      else
        let cost :=
          if n = 0 then D r.depot cust + D cust r.depot
          else if pos = 0 then
            let nxt := r.customers_lookup (r.customer_ids.getD 0 0)
            D r.depot cust + D cust nxt - D r.depot nxt
          else if pos = n then
            let prev := r.customers_lookup (r.customer_ids.getLastD 0)
            D prev cust + D cust r.depot - D prev r.depot
          else
            let prev := r.customers_lookup (r.customer_ids.getD (pos - 1) 0)
            let nxt := r.customers_lookup (r.customer_ids.getD pos 0)
            D prev cust + D cust nxt - D prev nxt
        let raw2 :=
          if pos = 0 then r.departure_time + D r.depot cust
          else
            let prev := r.customers_lookup (r.customer_ids.getD (pos - 1) 0)
            let prev_departure :=
              if pos - 1 < r.arrival_times.length then
                r.arrival_times.getD (pos - 1) 0 + prev.service_time
              else r.departure_time + D r.depot prev + prev.service_time
            prev_departure + D prev cust
        some (cost + 11/10 * max 0 (cust.ready_time - raw2))

/-- Inner position loop of the constructor's best-insertion scan:
strict-improvement minimum of a per-position measure, remembering
`(route index, position, cost)`. -/
def scanPositions (measure : Route → Nat → Cost) (r : Route) (ridx : Nat) :
    List Nat → Option (Nat × Nat × ℚ) → Option (Nat × Nat × ℚ)
  | [], acc => acc
  | pos :: rest, acc =>
      let acc2 : Option (Nat × Nat × ℚ) :=
        match measure r pos, acc with
        | some c, none => some (ridx, pos, c)
        | some c, some t => if c < t.2.2 then some (ridx, pos, c) else some t
        | none, b => b
      scanPositions measure r ridx rest acc2

/-- Outer route loop of the constructor's best-insertion scan. -/
def scanRoutes (measure : Route → Nat → Cost) :
    List Route → Nat → Option (Nat × Nat × ℚ) → Option (Nat × Nat × ℚ)
  | [], _, acc => acc
  | r :: rest, i, acc =>
      scanRoutes measure rest (i + 1)
        (scanPositions measure r i (List.range (r.customer_ids.length + 1)) acc)

/-- The constructor's best insertion over all existing routes and all
positions, under the shallow measure `trueInsertionCost`. -/
def mihBest (D : DistFn) (cust : Customer) (routes : List Route) :
    Option (Nat × Nat × ℚ) :=
  scanRoutes (fun r pos => trueInsertionCost D r cust pos) routes 0 none

/-- The emergency fallback of the constructor: a dedicated route whose
fields are forced (`customer_ids = [c.id]`, load, departure 0) and then
costed with `calculate_cost_inplace`, bypassing every feasibility
check. -/
def mihFallback (D : DistFn) (depot : Customer) (cap : Int) (lookup : Lookup)
    (cust : Customer) : Route :=
  (calculateCostInplace D
    { Route.init depot cap lookup with
        customer_ids := [cust.id], current_load := cust.demand,
        departure_time := 0 }).1

/-- One iteration of the constructor's main loop for one customer:
scan all routes and positions, compare against the penalized
new-route cost `dist(depot,c) + dist(c,depot) + 1000` (a fresh route is
opened for the first customer, when no finite candidate exists, or when
the penalized new-route cost beats the best candidate), then commit
with `insert_inplace`; if the commit fails the emergency fallback
appends a dedicated route. -/
def mihStep (D : DistFn) (depot : Customer) (cap : Int) (lookup : Lookup)
    (routes : List Route) (cust : Customer) : List Route :=
  let best := mihBest D cust routes
  let newPen := D depot cust + D cust depot + 1000
  let openNew : Bool :=
    if routes.isEmpty then true
    else
      match best with
      | none => true
      | some t => decide (newPen < t.2.2)
  if openNew then
    let ins := insertInplace D (Route.init depot cap lookup) cust.id 0
    if ins.2 then routes ++ [ins.1]
    else (routes ++ [ins.1]) ++ [mihFallback D depot cap lookup cust]
  else
    match best with
    | none => routes
    | some t =>
        let ins := insertInplace D (routes.getD t.1 (Route.init depot cap lookup))
          cust.id t.2.1
        if ins.2 then routes.set t.1 ins.1
        else (routes.set t.1 ins.1) ++ [mihFallback D depot cap lookup cust]

/-- `limited_candidate_mih` at the route-list level: sort by
`(due_date, dist(depot, c))`, run the insertion loop, and keep the
non-empty routes. -/
def limitedCandidateMih (D : DistFn) (depot : Customer) (customers : List Customer)
    (cap : Int) (lookup : Lookup) : List Route :=
  ((List.insertionSort (mihLe D depot) customers).foldl
    (mihStep D depot cap lookup) []).filter (fun r => ¬ r.customer_ids.isEmpty)

/-- `limited_candidate_mih` wrapped into a `Solution` exactly as the
source's tail does: `add_route` per non-empty route, then
`update_cost()`. -/
def limitedCandidateMihSol (D : DistFn) (depot : Customer) (customers : List Customer)
    (cap : Int) (lookup : Lookup) : Solution :=
  updateCost D
    ((limitedCandidateMih D depot customers cap lookup).foldl addRoute Solution.empty) none

/-! ### Concrete instances used by witnesses and counterexamples

All witness instances are collinear (every point on the x-axis), so the
source's Euclidean metric coincides with `lineD`. -/

/-- Euclidean distance restricted to the x-axis. -/
def lineD : DistFn := fun a b => |a.x - b.x|

/-- Customer table for the cost/insert witnesses: customer 1 at x = 3
with window `[10, 100]` and service 2, customer 2 at x = 7 with window
`[0, 100]` and service 1; every other id is a zero-demand filler at the
depot location (id 0 is the depot). -/
def exLookup2 : Lookup := fun i =>
  if i = 1 then
    { id := 1, x := 3, y := 0, demand := 2, ready_time := 10, due_date := 100, service_time := 2 }
  else if i = 2 then
    { id := 2, x := 7, y := 0, demand := 3, ready_time := 0, due_date := 100, service_time := 1 }
  else
    { id := i, x := 0, y := 0, demand := 0, ready_time := 0, due_date := 1000, service_time := 0 }

/-- The depot of the witness instances. -/
def exDepot2 : Customer := exLookup2 0

/-- Concrete feasible route `[1, 2]` with a consistent stored schedule:
arrival 10 at customer 1 (raw 3, wait 7) and 16 at customer 2. -/
def exRoute2 : Route :=
  { customer_ids := [1, 2], arrival_times := [10, 16], departure_time := 0,
    current_load := 5, total_cost := some 0, depot := exDepot2,
    customers_lookup := exLookup2, vehicle_capacity := 50, dcache := [] }

/-- Customer table for the penalized-cost counterexample: customer 1 at
x = 5 with a wide window; id 0 is the depot. -/
def exLookup3 : Lookup := fun i =>
  if i = 1 then
    { id := 1, x := 5, y := 0, demand := 1, ready_time := 0, due_date := 100, service_time := 0 }
  else
    { id := i, x := 0, y := 0, demand := 0, ready_time := 0, due_date := 1000, service_time := 0 }

/-- One-customer route for the penalized-cost counterexample: travel
5 + 5 = 10, no waiting, stored cost 10. -/
def exRoute3 : Route :=
  { customer_ids := [1], arrival_times := [5], departure_time := 0,
    current_load := 1, total_cost := some 10, depot := exLookup3 0,
    customers_lookup := exLookup3, vehicle_capacity := 50, dcache := [] }

/-- One-route solution with consistent `total_base_cost = 10` and
`num_vehicles = 1`. -/
def exSolution3 : Solution :=
  { routes := [exRoute3], total_cost := some 0, total_base_cost := some 10, num_vehicles := 1 }

/-- Customer table for the LNS counterexamples: customer 1 at x = 5
(route A), customer 2 at x = 1/2 and customer 3 at x = 5 (route B);
id 0 is the depot.  All windows wide, unit demands. -/
def exLookup6 : Lookup := fun i =>
  if i = 1 then
    { id := 1, x := 5, y := 0, demand := 1, ready_time := 0, due_date := 1000, service_time := 0 }
  else if i = 2 then
    { id := 2, x := 1/2, y := 0, demand := 1, ready_time := 0, due_date := 1000, service_time := 0 }
  else if i = 3 then
    { id := 3, x := 5, y := 0, demand := 1, ready_time := 0, due_date := 1000, service_time := 0 }
  else
    { id := i, x := 0, y := 0, demand := 0, ready_time := 0, due_date := 1000, service_time := 0 }

/-- Route A `[1]` of the LNS instance. -/
def exRoute6a : Route :=
  { customer_ids := [1], arrival_times := [5], departure_time := 0,
    current_load := 1, total_cost := some 10, depot := exLookup6 0,
    customers_lookup := exLookup6, vehicle_capacity := 50, dcache := [] }

/-- Route B `[2, 3]` of the LNS instance. -/
def exRoute6b : Route :=
  { customer_ids := [2, 3], arrival_times := [1/2, 5], departure_time := 0,
    current_load := 2, total_cost := some 10, depot := exLookup6 0,
    customers_lookup := exLookup6, vehicle_capacity := 50, dcache := [] }

/-- Route `[2]` alone with a consistent schedule and stored cost: the
post-destroy state of route B after customer 3 has been removed. -/
def exRoute6c : Route :=
  { customer_ids := [2], arrival_times := [1/2], departure_time := 0,
    current_load := 1, total_cost := some 1, depot := exLookup6 0,
    customers_lookup := exLookup6, vehicle_capacity := 50, dcache := [] }

/-- Two-route solution for the LNS repair counterexample and the
acceptance witness. -/
def exSolution6 : Solution :=
  { routes := [exRoute6a, exRoute6b], total_cost := some 0,
    total_base_cost := some 20, num_vehicles := 2 }

/-- The `[A = [1], B = [2]]` route state after the destroy phase has
removed customer 3 (asserted equal to the pipeline's intermediate state
in the counterexample); used to evaluate the claim's global-best
policy. -/
def exDestroyed6 : List Route :=
  (destroyAll lineD [3] (updateCost lineD exSolution6 none).routes).filter
    (fun r => decide (0 < r.customer_ids.length))

/-- One-customer solution for the LNS no-rollback counterexample. -/
def exRoute4 : Route :=
  { customer_ids := [1], arrival_times := [5], departure_time := 0,
    current_load := 1, total_cost := some 10, depot := exLookup6 0,
    customers_lookup := exLookup6, vehicle_capacity := 50, dcache := [] }

/-- Solution holding the single route `[1]`. -/
def exSolution4 : Solution :=
  { routes := [exRoute4], total_cost := some 0, total_base_cost := some 10, num_vehicles := 1 }

/-- Symmetric rational distance table of five planar points with
pairwise-rational Euclidean distances: depot `0` at (0,0), customer 1
at (5,0), customer 2 at (10,0), customer 3 at (21,0), customer 4 at
(5,12) - so `d(0,4) = 13`, `d(1,4) = 12`, `d(2,4) = 13`,
`d(3,4) = 20`, and the collinear points at plain coordinate
differences. -/
def dist8 : Nat → Nat → ℚ := fun i j =>
  let a := min i j
  let b := max i j
  if a = b then 0
  else if b ≤ 3 then
    let x : Nat → ℚ := fun k => if k = 0 then 0 else if k = 1 then 5
      else if k = 2 then 10 else 21
    |x a - x b|
  else if a = 0 then 13
  else if a = 1 then 12
  else if a = 2 then 13
  else 20

/-- The metric of the constructor counterexample: the table distance of
the ids (Euclidean for the five points listed at `dist8`). -/
def exD8 : DistFn := fun p q => dist8 p.id q.id

/-- Customer table of the constructor counterexample: windows
`[0, 5]`, `[0, 30]`, `[0, 40]`, `[0, 81/2]` for customers 1-4, all
demands 1, all service times 0; id 0 is the depot. -/
def exLookup8 : Lookup := fun i =>
  if i = 1 then
    { id := 1, x := 5, y := 0, demand := 1, ready_time := 0, due_date := 5, service_time := 0 }
  else if i = 2 then
    { id := 2, x := 10, y := 0, demand := 1, ready_time := 0, due_date := 30, service_time := 0 }
  else if i = 3 then
    { id := 3, x := 21, y := 0, demand := 1, ready_time := 0, due_date := 40, service_time := 0 }
  else if i = 4 then
    { id := 4, x := 5, y := 12, demand := 1, ready_time := 0, due_date := 81/2, service_time := 0 }
  else
    { id := i, x := 0, y := 0, demand := 0, ready_time := 0, due_date := 1000, service_time := 0 }

/-- Literal value of the constructor's route state after processing
customers 1, 2, 3 (proved equal to `exRoutes8` in the counterexample):
route `[1, 2, 3]` with arrivals `[5, 10, 21]`; the stored cost is the
initial `0` because the constructor never recomputes route costs after
`insert_inplace` (the stale-cost quirk of C10). -/
def exRoute8lit : Route :=
  { customer_ids := [1, 2, 3], arrival_times := [5, 10, 21], departure_time := 0,
    current_load := 3, total_cost := some 0, depot := exLookup8 0,
    customers_lookup := exLookup8, vehicle_capacity := 50,
    dcache := [((0, 1), 5), ((1, 2), 5), ((2, 3), 11)] }

/-- The constructor's route state after processing customers 1, 2, 3
(in sorted order): the single route `[1, 2, 3]`. -/
def exRoutes8 : List Route :=
  List.foldl (mihStep exD8 (exLookup8 0) 50 exLookup8) []
    [exLookup8 1, exLookup8 2, exLookup8 3]

end VRPTW

/-! ## Theorems -/

namespace VRPTW

theorem cacheFind_mem {cache : Cache} {k : Nat × Nat} {v : ℚ}
    (h : cacheFind cache k = some v) : (k, v) ∈ cache := by
  induction cache with
  | nil => simp [cacheFind] at h
  | cons e rest ih =>
      obtain ⟨ek, ev⟩ := e
      by_cases hk : ek = k
      · subst hk
        simp [cacheFind] at h
        simp [h]
      · simp [cacheFind, hk] at h
        exact List.mem_cons_of_mem _ (ih h)

theorem getDist_snd {D : DistFn} {lookup : Lookup} {K : Cache} {u v : Customer}
    (hC : CacheOk D lookup K) (h1 : lookup u.id = u) (h2 : lookup v.id = v) :
    (getDist D K u v).2 = D u v := by
  unfold getDist
  rcases hf : cacheFind K (u.id, v.id) with _ | v
  · rfl
  · have := hC _ (cacheFind_mem hf)
    simpa [h1, h2] using this

theorem getDist_cacheOk {D : DistFn} {lookup : Lookup} {K : Cache} {u v : Customer}
    (hC : CacheOk D lookup K) (h1 : lookup u.id = u) (h2 : lookup v.id = v) :
    CacheOk D lookup (getDist D K u v).1 := by
  unfold getDist
  rcases hf : cacheFind K (u.id, v.id) with _ | v
  · intro e he
    rcases List.mem_append.mp he with h | h
    · exact hC e h
    · simp at h
      subst h
      simp [h1, h2]
  · exact hC

theorem lookup_canon {lookup : Lookup} (hL : LookupOk lookup) (i : Nat) :
    lookup (lookup i).id = lookup i := by rw [hL i]

theorem add_max_sub_eq (a b : ℚ) : a + max 0 (b - a) = max a b := by
  rcases le_total b a with h | h
  · rw [max_eq_left h, max_eq_left (by linarith), add_zero]
  · rw [max_eq_right h, max_eq_right (by linarith)]
    ring

theorem schedState_canon {D : DistFn} {lookup : Lookup} (hL : LookupOk lookup) :
    ∀ (ids : List Nat) (t : ℚ) (prev : Customer), lookup prev.id = prev →
      lookup (schedState D lookup t prev ids).2.id = (schedState D lookup t prev ids).2 := by
  intro ids
  induction ids with
  | nil => intro t prev hp; exact hp
  | cons cid rest ih => intro t prev _; exact ih _ _ (lookup_canon hL cid)

theorem schedOk_cons {D : DistFn} {lookup : Lookup} {t : ℚ} {prev : Customer}
    {cid : Nat} {rest : List Nat} :
    schedOk D lookup t prev (cid :: rest) ↔
      max (t + D prev (lookup cid)) (lookup cid).ready_time ≤ (lookup cid).due_date ∧
      schedOk D lookup (max (t + D prev (lookup cid)) (lookup cid).ready_time +
        (lookup cid).service_time) (lookup cid) rest := by
  simp [schedOk, schedList]

theorem recalcAux_spec {D : DistFn} {lookup : Lookup} (hL : LookupOk lookup) :
    ∀ (ids : List Nat) (cache : Cache) (t : ℚ) (prev : Customer),
      CacheOk D lookup cache → lookup prev.id = prev →
      (recalcAux D lookup cache t prev ids).2 = schedFinals D lookup t prev ids ∧
      CacheOk D lookup (recalcAux D lookup cache t prev ids).1 := by
  intro ids
  induction ids with
  | nil => intro cache t prev hC _; exact ⟨rfl, hC⟩
  | cons cid rest ih =>
      intro cache t prev hC hp
      have hcanon : lookup (lookup cid).id = lookup cid := lookup_canon hL cid
      have hsnd := getDist_snd (u := prev) (v := lookup cid) hC hp hcanon
      have hok := getDist_cacheOk (u := prev) (v := lookup cid) hC hp hcanon
      rcases hgd : getDist D cache prev (lookup cid) with ⟨cache1, travel⟩
      rw [hgd] at hsnd hok
      simp only at hsnd hok
      subst hsnd
      have hrec := ih cache1 (max (t + D prev (lookup cid)) (lookup cid).ready_time +
        (lookup cid).service_time) (lookup cid) hok hcanon
      rcases hr : recalcAux D lookup cache1 (max (t + D prev (lookup cid)) (lookup cid).ready_time +
        (lookup cid).service_time) (lookup cid) rest with ⟨cache2, arrs⟩
      rw [hr] at hrec
      simp only at hrec
      constructor
      · show (recalcAux D lookup cache t prev (cid :: rest)).2 = _
        simp only [recalcAux, hgd, hr]
        simp [schedFinals, schedList, hrec.1]
      · show CacheOk D lookup (recalcAux D lookup cache t prev (cid :: rest)).1
        simp only [recalcAux, hgd, hr]
        exact hrec.2

theorem calcAux_spec {D : DistFn} {lookup : Lookup} (hL : LookupOk lookup) :
    ∀ (ids : List Nat) (cache : Cache) (t : ℚ) (prev : Customer) (acc : ℚ) (arrs : List ℚ),
      CacheOk D lookup cache → lookup prev.id = prev →
      schedOk D lookup t prev ids →
      (calcAux D lookup cache t prev acc ids arrs).2.1 = schedFinals D lookup t prev ids ∧
      (calcAux D lookup cache t prev acc ids arrs).2.2 =
        some (acc + bodySum D lookup t prev ids, (schedState D lookup t prev ids).2) ∧
      CacheOk D lookup (calcAux D lookup cache t prev acc ids arrs).1 := by
  intro ids
  induction ids with
  | nil =>
      intro cache t prev acc arrs hC _ _
      refine ⟨rfl, ?_, hC⟩
      simp [calcAux, bodySum, schedState]
  | cons cid rest ih =>
      intro cache t prev acc arrs hC hp hfeas
      have hcanon : lookup (lookup cid).id = lookup cid := lookup_canon hL cid
      have hsnd := getDist_snd (u := prev) (v := lookup cid) hC hp hcanon
      have hok := getDist_cacheOk (u := prev) (v := lookup cid) hC hp hcanon
      rcases hgd : getDist D cache prev (lookup cid) with ⟨cache1, travel⟩
      rw [hgd] at hsnd hok
      simp only at hsnd hok
      subst hsnd
      rw [schedOk_cons] at hfeas
      have harr : t + D prev (lookup cid) + max 0 ((lookup cid).ready_time - (t + D prev (lookup cid)))
          = max (t + D prev (lookup cid)) (lookup cid).ready_time :=
        add_max_sub_eq _ _
      have hnotlt : ¬ ((lookup cid).due_date <
          t + D prev (lookup cid) + max 0 ((lookup cid).ready_time - (t + D prev (lookup cid)))) := by
        rw [harr]; exact not_lt.mpr hfeas.1
      have hrec := ih cache1
        (t + D prev (lookup cid) + max 0 ((lookup cid).ready_time - (t + D prev (lookup cid))) +
          (lookup cid).service_time)
        (lookup cid)
        (acc + D prev (lookup cid) + 11/10 * max 0 ((lookup cid).ready_time - (t + D prev (lookup cid))))
        (arrs.drop 1) hok hcanon (by rw [harr]; exact hfeas.2)
      rcases hr : calcAux D lookup cache1
        (t + D prev (lookup cid) + max 0 ((lookup cid).ready_time - (t + D prev (lookup cid))) +
          (lookup cid).service_time)
        (lookup cid)
        (acc + D prev (lookup cid) + 11/10 * max 0 ((lookup cid).ready_time - (t + D prev (lookup cid))))
        rest (arrs.drop 1) with ⟨cache2, arrs2, res⟩
      rw [hr] at hrec
      simp only at hrec
      refine ⟨?_, ?_, ?_⟩
      · show (calcAux D lookup cache t prev acc (cid :: rest) arrs).2.1 = _
        simp only [calcAux, hgd, if_neg hnotlt, hr]
        simp only [schedFinals, schedList, List.map_cons]
        rw [harr]
        simp only [hrec.1, schedFinals]
        rw [harr]
      · show (calcAux D lookup cache t prev acc (cid :: rest) arrs).2.2 = _
        simp only [calcAux, hgd, if_neg hnotlt, hr]
        rw [hrec.2.1]
        simp only [bodySum, schedState]
        rw [harr]
        simp only [Option.some.injEq, Prod.mk.injEq]
        exact ⟨by ring, trivial⟩
      · show CacheOk D lookup (calcAux D lookup cache t prev acc (cid :: rest) arrs).1
        simp only [calcAux, hgd, if_neg hnotlt, hr]
        exact hrec.2.2

theorem bodySum_legs (D : DistFn) (lookup : Lookup) (depot : Customer) :
    ∀ (ids : List Nat) (t : ℚ) (prev : Customer),
      bodySum D lookup t prev ids + D (schedState D lookup t prev ids).2 depot =
        legsSum D lookup depot prev ids + 11/10 * waitSum D lookup t prev ids := by
  intro ids
  induction ids with
  | nil => intro t prev; simp [bodySum, schedState, legsSum, waitSum]
  | cons cid rest ih =>
      intro t prev
      simp only [bodySum, schedState, legsSum, waitSum]
      rw [add_max_sub_eq]
      have := ih (max (t + D prev (lookup cid)) (lookup cid).ready_time +
        (lookup cid).service_time) (lookup cid)
      linarith [this]

theorem travelSum_of_ne_nil (D : DistFn) (lookup : Lookup) (depot : Customer)
    {ids : List Nat} (h : ids ≠ []) :
    travelSum D lookup depot ids = legsSum D lookup depot depot ids := by
  cases ids with
  | nil => exact absurd rfl h
  | cons a l => rfl

theorem recalculateFrom_total_cost (D : DistFn) (r : Route) (k : Nat) :
    (recalculateFrom D r k).total_cost = r.total_cost := by
  unfold recalculateFrom
  split
  · rfl
  · rfl

theorem recalculateFrom_customer_ids (D : DistFn) (r : Route) (k : Nat) :
    (recalculateFrom D r k).customer_ids = r.customer_ids := by
  unfold recalculateFrom
  split
  · rfl
  · rfl

theorem recalculateFrom_fields (D : DistFn) (r : Route) (k : Nat) :
    (recalculateFrom D r k).departure_time = r.departure_time ∧
    (recalculateFrom D r k).current_load = r.current_load ∧
    (recalculateFrom D r k).depot = r.depot ∧
    (recalculateFrom D r k).customers_lookup = r.customers_lookup ∧
    (recalculateFrom D r k).vehicle_capacity = r.vehicle_capacity := by
  unfold recalculateFrom
  split
  · exact ⟨rfl, rfl, rfl, rfl, rfl⟩
  · exact ⟨rfl, rfl, rfl, rfl, rfl⟩

theorem calculateCostInplace_spec (D : DistFn) (r : Route)
    (hL : LookupOk r.customers_lookup)
    (hdep : r.customers_lookup r.depot.id = r.depot)
    (hC : CacheOk D r.customers_lookup r.dcache)
    (hfeas : schedOk D r.customers_lookup r.departure_time r.depot r.customer_ids) :
    (calculateCostInplace D r).2 =
      some (refCost D r.customers_lookup r.depot r.departure_time r.customer_ids) ∧
    (calculateCostInplace D r).1.total_cost =
      some (refCost D r.customers_lookup r.depot r.departure_time r.customer_ids) ∧
    (calculateCostInplace D r).1.arrival_times =
      schedFinals D r.customers_lookup r.departure_time r.depot r.customer_ids ∧
    CacheOk D r.customers_lookup (calculateCostInplace D r).1.dcache ∧
    (calculateCostInplace D r).1.customer_ids = r.customer_ids ∧
    (calculateCostInplace D r).1.departure_time = r.departure_time ∧
    (calculateCostInplace D r).1.current_load = r.current_load ∧
    (calculateCostInplace D r).1.depot = r.depot ∧
    (calculateCostInplace D r).1.customers_lookup = r.customers_lookup ∧
    (calculateCostInplace D r).1.vehicle_capacity = r.vehicle_capacity := by
  by_cases hempty : r.customer_ids.isEmpty
  · have hnil : r.customer_ids = [] := List.isEmpty_iff.mp hempty
    have hG : calculateCostInplace D r =
        ({ r with total_cost := some 0, arrival_times := [] }, some 0) := by
      simp [calculateCostInplace, hempty]
    rw [hG]
    refine ⟨?_, ?_, ?_, hC, rfl, rfl, rfl, rfl, rfl, rfl⟩
    · simp [refCost, hnil, travelSum, waitSum]
    · simp [refCost, hnil, travelSum, waitSum]
    · simp [schedFinals, hnil, schedList]
  · obtain ⟨h1, h2, h3⟩ := calcAux_spec hL r.customer_ids
      r.dcache r.departure_time r.depot 0
      (if r.arrival_times.length ≠ r.customer_ids.length
        then List.replicate r.customer_ids.length (0 : ℚ) else r.arrival_times)
      hC hdep hfeas
    rcases hres : calcAux D r.customers_lookup r.dcache r.departure_time r.depot 0 r.customer_ids
      (if r.arrival_times.length ≠ r.customer_ids.length
        then List.replicate r.customer_ids.length (0 : ℚ) else r.arrival_times)
      with ⟨cache2, arrs2, res⟩
    rw [hres] at h1 h2 h3
    simp only at h1 h2 h3
    have hlast := schedState_canon (D := D) hL r.customer_ids r.departure_time r.depot hdep
    have hdsnd := getDist_snd (K := cache2)
      (u := (schedState D r.customers_lookup r.departure_time r.depot r.customer_ids).2)
      (v := r.depot) h3 hlast hdep
    have hdok := getDist_cacheOk (K := cache2)
      (u := (schedState D r.customers_lookup r.departure_time r.depot r.customer_ids).2)
      (v := r.depot) h3 hlast hdep
    rcases hgd : getDist D cache2
      (schedState D r.customers_lookup r.departure_time r.depot r.customer_ids).2 r.depot
      with ⟨cache3, dlast⟩
    rw [hgd] at hdsnd hdok
    simp only at hdsnd hdok
    subst hdsnd
    have hcost : (0 : ℚ) + bodySum D r.customers_lookup r.departure_time r.depot r.customer_ids +
        D (schedState D r.customers_lookup r.departure_time r.depot r.customer_ids).2 r.depot =
        refCost D r.customers_lookup r.depot r.departure_time r.customer_ids := by
      rw [zero_add, bodySum_legs, refCost,
        travelSum_of_ne_nil D r.customers_lookup r.depot
          (fun hn => hempty (List.isEmpty_iff.mpr hn))]
    refine ⟨?_, ?_, ?_, ?_, ?_, ?_, ?_, ?_, ?_, ?_⟩ <;>
        simp only [calculateCostInplace, hempty, Bool.false_eq_true, if_false, hres, h2, hgd] <;>
      first
        | rfl
        | rw [← hcost]
        | exact h1
        | exact hdok

/-- C2: for every route whose customer sequence is feasible (every
scheduled arrival is at most its customer's due date, and the load is
within capacity), `calculate_cost_inplace` returns - and stores into
`total_cost` - exactly the reference formula of spec section 4.2:
travel distance of all edges (including the depot-to-first and
last-to-depot legs) plus `1.1` times the summed waiting
`max 0 (ready_time − raw_arrival)`.  Equality is exact in the rational
model, hence in particular within the claimed `1e-6` tolerance. -/
theorem c2_route_cost_formula (D : DistFn) (r : Route)
    (hL : LookupOk r.customers_lookup)
    (hdep : r.customers_lookup r.depot.id = r.depot)
    (hC : CacheOk D r.customers_lookup r.dcache)
    (hfeas : schedOk D r.customers_lookup r.departure_time r.depot r.customer_ids)
    (hload : r.current_load ≤ r.vehicle_capacity) :
    (calculateCostInplace D r).2 =
      some (refCost D r.customers_lookup r.depot r.departure_time r.customer_ids) ∧
    (calculateCostInplace D r).1.total_cost =
      some (refCost D r.customers_lookup r.depot r.departure_time r.customer_ids) := by
  obtain ⟨hv, ht, _⟩ := calculateCostInplace_spec D r hL hdep hC hfeas
  exact ⟨hv, ht⟩

theorem enumFrom_map_snd (n : Nat) (l : List α) : (l.enumFrom n).map Prod.snd = l := by
  induction l generalizing n with
  | nil => rfl
  | cons a l ih => simp [List.enumFrom, ih]

theorem enum_map_snd_eq (l : List α) : l.enum.map Prod.snd = l :=
  enumFrom_map_snd 0 l


/-- C9, counterexample: on the concrete route `[11, 12, 13, 14, 15]` of
`exRoute9`, `_rank_victims` returns `[11, 15, 13, 14, 12]`, which is
not in descending order of the claim's score
`0.35·demand + 0.30·min(window_slack/80, 2) + 0.35·position_score`
(customer 13, with the largest claimed score 2.05, is ranked below
customer 15 with claimed score 1.35).  The code weighs
`demand_score = demand * 0.5` by `0.35`, so the effective demand
coefficient is `0.175`, not the claimed `0.35`. -/
theorem c9_victim_ranking_counterexample :
    rankVictims exRoute9 = [11, 15, 13, 14, 12] ∧
    chainDescB (scoreOfCid (claimVictimScores exRoute9)) (rankVictims exRoute9) = false := by
  constructor
  · norm_num [rankVictims, victimScores, exRoute9, exCustomer9, List.enum, List.enumFrom,
      List.insertionSort, List.orderedInsert, pairGe]
  · norm_num [rankVictims, victimScores, claimVictimScores, scoreOfCid, chainDescB,
      exRoute9, exCustomer9, List.enum, List.enumFrom,
      List.insertionSort, List.orderedInsert, pairGe, List.find?]

/-- C9 (amended): victim candidates are ranked in descending order of
the score `0.175·demand + 0.30·min(window_slack/80, 2) +
0.35·position_score` (position score 3 at a route boundary, 2 one
position in, 1 otherwise), ties broken by descending customer id: the
score list the code builds equals the amended formula, the sorted list
is pairwise descending in the score, `_rank_victims` returns exactly
its ids, and the ranking is a permutation of the route's customers. -/
theorem c9_victim_ranking_amended (r : Route) :
    victimScores r = amendedVictimScores r ∧
    List.Pairwise (fun a b : ℚ × Nat => b.1 ≤ a.1)
      (List.insertionSort pairGe (victimScores r)) ∧
    rankVictims r = (List.insertionSort pairGe (victimScores r)).map Prod.snd ∧
    (rankVictims r).Perm r.customer_ids := by
  have hmap : (victimScores r).map Prod.snd = r.customer_ids := by
    unfold victimScores
    rw [List.map_map]
    have : ∀ p ∈ r.customer_ids.enum, (Prod.snd ∘ fun p : Nat × Nat =>
        ((((r.customers_lookup p.2).demand : ℚ) * (5/10) * (35/100) +
          min (((r.customers_lookup p.2).due_date - (r.customers_lookup p.2).ready_time) / 80) 2 * (30/100) +
          (if p.1 = 0 ∨ p.1 = r.customer_ids.length - 1 then (3:ℚ)
           else if p.1 = 1 ∨ p.1 = r.customer_ids.length - 2 then 2 else 1) * (35/100)), p.2)) p
        = Prod.snd p := fun p _ => rfl
    rw [List.map_congr_left this, enum_map_snd_eq]
  refine ⟨?_, ?_, ?_, ?_⟩
  · unfold victimScores amendedVictimScores
    refine List.map_congr_left ?_
    intro p _
    dsimp only
    congr 1
    ring
  · exact (List.sorted_insertionSort pairGe _).imp
      (fun h => h.elim le_of_lt (fun h2 => le_of_eq h2.1.symm))
  · unfold rankVictims
    by_cases h : r.customer_ids.isEmpty
    · rw [if_pos h]
      rw [List.isEmpty_iff] at h
      simp [victimScores, h]
    · rw [if_neg h]
  · have h1 : List.Perm ((List.insertionSort pairGe (victimScores r)).map Prod.snd)
        ((victimScores r).map Prod.snd) := (List.perm_insertionSort pairGe _).map _
    unfold rankVictims
    by_cases h : r.customer_ids.isEmpty
    · rw [if_pos h]
      rw [List.isEmpty_iff] at h
      rw [h]
    · rw [if_neg h]
      exact h1.trans (hmap ▸ List.Perm.refl _)


theorem insertInplace_total_cost (D : DistFn) (r : Route) (cid pos : Nat) :
    (insertInplace D r cid pos).1.total_cost = r.total_cost := by
  simp only [insertInplace]
  split
  · rfl
  · split
    · simp only [recalculateFrom_total_cost, insertTrial]
    · simp only [recalculateFrom_total_cost, insertRollback, insertTrial]

/-- C2, witness: on the concrete feasible route `[1, 2]` of `exRoute2`
(travel 3 + 4 + 7 = 14, waiting 7 at customer 1), the recomputed cost
equals the reference formula, `14 + 1.1 · 7 = 21.7`. -/
theorem c2_route_cost_formula_witness :
    (calculateCostInplace lineD exRoute2).2 = some (217/10) ∧
    refCost lineD exRoute2.customers_lookup exRoute2.depot
      exRoute2.departure_time exRoute2.customer_ids = 217/10 := by
  have hval : refCost lineD exRoute2.customers_lookup exRoute2.depot
      exRoute2.departure_time exRoute2.customer_ids = 217/10 := by
    norm_num [refCost, travelSum, legsSum, waitSum, exRoute2, exLookup2, exDepot2, lineD]
  have h := (c2_route_cost_formula lineD exRoute2
    (by intro i
        unfold exRoute2
        dsimp only
        unfold exLookup2
        split
        · next h1 => rw [h1]
        · split
          · next h2 => rw [h2]
          · rfl)
    (by rfl)
    (by intro e he; cases he)
    (by norm_num [schedOk, schedList, exRoute2, exLookup2, exDepot2, lineD])
    (by norm_num [exRoute2])).1
  exact ⟨h.trans (by rw [hval]), hval⟩

/-- C10: after a call to `Route.insert_inplace` that returns `True`,
the route's `total_cost` field still holds its value from before the
call: a committed insertion updates `customer_ids`, `arrival_times` and
`current_load` but never writes `total_cost` (the source comments
"Cost is updated by caller - NOT HERE"), so the stored cost is stale
until the caller invokes `calculate_cost_inplace`, and a caller reading
`total_cost` right after a successful insert (as the LNS
insertion-cost helper does) observes the pre-insertion value. -/
theorem c10_successful_insert_stale_cost (D : DistFn) (r : Route) (cid pos : Nat)
    (h : (insertInplace D r cid pos).2 = true) :
    (insertInplace D r cid pos).1.total_cost = r.total_cost :=
  insertInplace_total_cost D r cid pos

/-- C10, witness: inserting filler customer 3 at the end of `exRoute2`
succeeds, and the stored total cost is unchanged (still the stale 0). -/
theorem c10_successful_insert_stale_cost_witness :
    (insertInplace lineD exRoute2 3 2).2 = true ∧
    (insertInplace lineD exRoute2 3 2).1.total_cost = exRoute2.total_cost := by
  have htrue : (insertInplace lineD exRoute2 3 2).2 = true := by
    norm_num [insertInplace, insertTrial, insertRollback, exRoute2, exLookup2, exDepot2,
      lineD, recalculateFrom, recalcAux, getDist, cacheFind, isFeasible, List.insertIdx]
  exact ⟨htrue, c10_successful_insert_stale_cost lineD exRoute2 3 2 htrue⟩


/-- C3, counterexample: on the concrete one-route solution
`exSolution3` (base cost 10, one vehicle, no waiting), the code's
penalized recomputation yields `10 + 1006 = 1016` - its λ formula is
`max(1000, min(2000, 0.6·avg_route_cost + 0.2·avg_waiting + 1000))` -
while the claimed formula
`max(3000, min(5000, 1.5·avg_route_cost + 0.5·avg_waiting + 3000))`
would yield `10 + 3015 = 3025`. -/
theorem c3_penalized_cost_counterexample :
    (recalculatePenalizedCost lineD exSolution3 none).total_cost = some 1016 ∧
    claimPenalizedCost lineD exSolution3 = some 3025 ∧
    (recalculatePenalizedCost lineD exSolution3 none).total_cost ≠
      claimPenalizedCost lineD exSolution3 := by
  have h1 : (recalculatePenalizedCost lineD exSolution3 none).total_cost = some 1016 := by
    norm_num [recalculatePenalizedCost, sumTotalDistances, getTotalDistance,
      midLegs, exSolution3, exRoute3, exLookup3, lineD, cadd]
  have h2 : claimPenalizedCost lineD exSolution3 = some 3025 := by
    norm_num [claimPenalizedCost, sumTotalDistances, getTotalDistance,
      midLegs, exSolution3, exRoute3, exLookup3, lineD]
  refine ⟨h1, h2, ?_⟩
  rw [h1, h2]
  norm_num

/-- C3 (amended): for a solution with at least one route and a finite
`total_base_cost`, recomputing the penalized objective with no explicit
vehicle-penalty parameter sets
`total_cost = total_base_cost + λ · num_vehicles` with
`λ = max(1000, min(2000, 0.6 · avg_route_cost + 0.2 · avg_waiting +
1000))`, where `avg_route_cost = total_base_cost / num_vehicles` and
`avg_waiting = (total_base_cost − Σ route distances) / num_vehicles`.
The spec's constants (floor 3000, cap 5000, weights 1.5 and 0.5) do not
match the code. -/
theorem c3_penalized_cost_amended (D : DistFn) (s : Solution) (b : ℚ)
    (hbase : s.total_base_cost = some b) (hroutes : s.routes ≠ []) :
    (recalculatePenalizedCost D s none).total_cost =
      some (b + max 1000 (min (6/10 * (b / max (s.num_vehicles : ℚ) 1) +
        2/10 * ((b - (sumTotalDistances D s.routes).2) / max (s.num_vehicles : ℚ) 1) + 1000) 2000)
        * s.num_vehicles) := by
  simp only [recalculatePenalizedCost, hbase, cadd]

/-- C3, witness: the amended formula instantiated at `exSolution3`
evaluates to `10 + 1006 · 1 = 1016`. -/
theorem c3_penalized_cost_amended_witness :
    (recalculatePenalizedCost lineD exSolution3 none).total_cost = some 1016 := by
  have h := c3_penalized_cost_amended lineD exSolution3 10 rfl (by simp [exSolution3])
  rw [h]
  norm_num [sumTotalDistances, getTotalDistance, midLegs,
    exSolution3, exRoute3, exLookup3, lineD]


theorem exLookup2_ok : LookupOk exLookup2 := by
  intro i
  unfold exLookup2
  split
  · next h1 => rw [h1]
  · split
    · next h2 => rw [h2]
    · rfl

theorem exLookup3_ok : LookupOk exLookup3 := by
  intro i
  unfold exLookup3
  split
  · next h1 => rw [h1]
  · rfl

theorem getDist_mem {D : DistFn} {cache : Cache} {c1 c2 : Customer} :
    ∀ e ∈ (getDist D cache c1 c2).1, e ∈ cache ∨ e.1 = (c1.id, c2.id) := by
  unfold getDist
  rcases hf : cacheFind cache (c1.id, c2.id) with _ | v
  · intro e he
    rcases List.mem_append.mp he with h | h
    · exact Or.inl h
    · right
      simp at h
      rw [h]
  · intro e he
    exact Or.inl he

theorem midLegs_mem {D : DistFn} {lookup : Lookup} (hL : LookupOk lookup) :
    ∀ (l : List Nat) (cache : Cache) (dep : Nat), dep ∉ l →
      ∀ e ∈ (midLegs D lookup cache l).1, e ∈ cache ∨ (e.1.1 ≠ dep ∧ e.1.2 ≠ dep) := by
  intro l
  induction l with
  | nil => intro cache dep _ e he; exact Or.inl he
  | cons a rest ih =>
      intro cache dep hdep e he
      cases rest with
      | nil => exact Or.inl he
      | cons b rest2 =>
          simp only [midLegs] at he
          rcases ih (getDist D cache (lookup a) (lookup b)).1 dep
            (fun hmem => hdep (List.mem_cons_of_mem _ hmem)) e he with h | h
          · rcases getDist_mem e h with h2 | h2
            · exact Or.inl h2
            · right
              rw [h2]
              have ha : a ≠ dep := fun he => hdep (he ▸ List.mem_cons_self a _)
              have hb : b ≠ dep := fun he =>
                hdep (List.mem_cons_of_mem _ (he ▸ List.mem_cons_self b _))
              simp [hL a, hL b]
              exact ⟨ha, hb⟩
          · exact Or.inr h

/-- C7, counterexample: running `calculate_cost_inplace` on the
one-customer route `exRoute3` (depot id 0, customer id 1, empty cache)
leaves the cache holding the keys `(0, 1)` and `(1, 0)` - both involve
the depot id.  `_recalculate_from` and `calculate_cost_inplace` route
depot legs through `_get_distance`, so depot-involving keys do enter
the per-route cache, contrary to the claim. -/
theorem c7_cache_depot_counterexample :
    exRoute3.depot.id = 0 ∧
    (calculateCostInplace lineD exRoute3).1.dcache = [((0, 1), 5), ((1, 0), 5)] := by
  constructor
  · rfl
  · norm_num [calculateCostInplace, calcAux, getDist, cacheFind, exRoute3, exLookup3, lineD]

/-- C7 (amended): `get_total_distance` (and the delta helpers, which
carry explicit "Depot not in cache" branches) compute depot legs
directly and add only customer-customer keys to the cache: every cache
entry after `get_total_distance` is either a pre-existing entry or a
key not involving the depot id.  By contrast `_recalculate_from` and
`calculate_cost_inplace` do cache depot-adjacent legs (see the
counterexample), so the claim fails for those operations. -/
theorem c7_cache_keys_amended (D : DistFn) (r : Route)
    (hL : LookupOk r.customers_lookup)
    (hdep : r.depot.id ∉ r.customer_ids) :
    ∀ e ∈ (getTotalDistance D r).1.dcache,
      e ∈ r.dcache ∨ (e.1.1 ≠ r.depot.id ∧ e.1.2 ≠ r.depot.id) := by
  intro e he
  rcases hids : r.customer_ids with _ | ⟨first, rest⟩
  · refine Or.inl ?_
    unfold getTotalDistance at he
    rw [hids] at he
    exact he
  · unfold getTotalDistance at he
    rw [hids] at he
    simp only at he
    have := midLegs_mem (D := D) hL (first :: rest) r.dcache r.depot.id (hids ▸ hdep) e
    exact this he

/-- C7, witness: on the two-customer route `exRoute2`,
`get_total_distance` adds exactly the customer-customer key `(1, 2)`;
the depot legs `0↔1` and `2↔0` are computed directly and never cached. -/
theorem c7_cache_keys_amended_witness :
    (getTotalDistance lineD exRoute2).1.dcache = [((1, 2), 4)] ∧
    (∀ e ∈ (getTotalDistance lineD exRoute2).1.dcache,
      e ∈ exRoute2.dcache ∨ (e.1.1 ≠ exRoute2.depot.id ∧ e.1.2 ≠ exRoute2.depot.id)) := by
  constructor
  · norm_num [getTotalDistance, midLegs, getDist, cacheFind, exRoute2, exLookup2, lineD]
  · exact c7_cache_keys_amended lineD exRoute2 exLookup2_ok (by decide)


theorem take_insertIdx_eq (x : α) :
    ∀ (pos : Nat) (l : List α), pos ≤ l.length → (l.insertIdx pos x).take pos = l.take pos := by
  intro pos
  induction pos with
  | zero => intro l _; rfl
  | succ k ih =>
      intro l hl
      cases l with
      | nil => simp at hl
      | cons a rest =>
          simp only [List.insertIdx_succ_cons, List.take_succ_cons]
          rw [ih rest (Nat.le_of_succ_le_succ hl)]

theorem take_eraseIdx_eq : ∀ (pos : Nat) (l : List α), (l.eraseIdx pos).take pos = l.take pos := by
  intro pos
  induction pos with
  | zero => intro l; rfl
  | succ k ih =>
      intro l
      cases l with
      | nil => rfl
      | cons a rest =>
          simp only [List.eraseIdx_cons_succ, List.take_succ_cons]
          rw [ih rest]

theorem getD_take_eq (d : α) :
    ∀ (l : List α) (pos j : Nat), j < pos → (l.take pos).getD j d = l.getD j d := by
  intro l
  induction l with
  | nil => intro pos j _; simp
  | cons a rest ih =>
      intro pos j hj
      cases pos with
      | zero => exact absurd hj (Nat.not_lt_zero j)
      | succ k =>
          cases j with
          | zero => rfl
          | succ m =>
              simp only [List.take_succ_cons, List.getD_cons_succ]
              exact ih k m (Nat.lt_of_succ_lt_succ hj)

theorem schedList_append (D : DistFn) (lookup : Lookup) :
    ∀ (l1 l2 : List Nat) (t : ℚ) (prev : Customer),
      schedList D lookup t prev (l1 ++ l2) =
        schedList D lookup t prev l1 ++
          schedList D lookup (schedState D lookup t prev l1).1
            (schedState D lookup t prev l1).2 l2 := by
  intro l1
  induction l1 with
  | nil => intro l2 t prev; simp [schedList, schedState]
  | cons a rest ih =>
      intro l2 t prev
      simp only [List.cons_append, schedList, schedState, List.cons.injEq, true_and]
      exact ih l2 _ _

theorem length_schedList (D : DistFn) (lookup : Lookup) :
    ∀ (ids : List Nat) (t : ℚ) (prev : Customer),
      (schedList D lookup t prev ids).length = ids.length := by
  intro ids
  induction ids with
  | nil => intro t prev; rfl
  | cons a rest ih => intro t prev; simp [schedList, ih]

theorem length_schedFinals (D : DistFn) (lookup : Lookup) (ids : List Nat)
    (t : ℚ) (prev : Customer) :
    (schedFinals D lookup t prev ids).length = ids.length := by
  simp [schedFinals, length_schedList]

theorem schedFinals_take (D : DistFn) (lookup : Lookup) :
    ∀ (ids : List Nat) (pos : Nat) (t : ℚ) (prev : Customer),
      schedFinals D lookup t prev (ids.take pos) =
        (schedFinals D lookup t prev ids).take pos := by
  intro ids
  induction ids with
  | nil => intro pos t prev; simp [schedFinals, schedList]
  | cons a rest ih =>
      intro pos t prev
      cases pos with
      | zero => simp [schedFinals, schedList]
      | succ k =>
          simp only [List.take_succ_cons, schedFinals, schedList, List.map_cons,
            List.take_succ_cons, List.cons.injEq, true_and]
          exact ih k _ _

theorem schedState_take (D : DistFn) (lookup : Lookup) :
    ∀ (ids : List Nat) (pos : Nat) (t : ℚ) (prev : Customer),
      0 < pos → pos ≤ ids.length →
      schedState D lookup t prev (ids.take pos) =
        ((schedFinals D lookup t prev ids).getD (pos - 1) 0 +
          (lookup (ids.getD (pos - 1) 0)).service_time,
         lookup (ids.getD (pos - 1) 0)) := by
  intro ids
  induction ids with
  | nil => intro pos t prev hpos hle; simp at hle; omega
  | cons a rest ih =>
      intro pos t prev hpos hle
      cases pos with
      | zero => exact absurd hpos (Nat.lt_irrefl 0)
      | succ k =>
          cases k with
          | zero =>
              simp [schedState, schedFinals, schedList]
          | succ m =>
              simp only [List.take_succ_cons, schedState, schedFinals, schedList,
                List.map_cons, Nat.add_sub_cancel, List.getD_cons_succ]
              have := ih (m + 1) (max (t + D prev (lookup a)) (lookup a).ready_time +
                (lookup a).service_time) (lookup a) (Nat.succ_pos m)
                (by simpa using Nat.le_of_succ_le_succ hle)
              simp only [Nat.add_sub_cancel] at this
              exact this

theorem schedOk_iff_zipFinals (D : DistFn) (lookup : Lookup) :
    ∀ (ids : List Nat) (t : ℚ) (prev : Customer),
      schedOk D lookup t prev ids ↔
        ∀ p ∈ ids.zip (schedFinals D lookup t prev ids), p.2 ≤ (lookup p.1).due_date := by
  intro ids
  induction ids with
  | nil => intro t prev; simp [schedOk, schedList, schedFinals]
  | cons a rest ih =>
      intro t prev
      rw [schedOk_cons]
      simp only [schedFinals, schedList, List.map_cons, List.zip_cons_cons, List.mem_cons]
      constructor
      · rintro ⟨h1, h2⟩ p hp
        rcases hp with hp | hp
        · rw [hp]; exact h1
        · exact ((ih _ _).mp h2) p (by simpa [schedFinals] using hp)
      · intro h
        refine ⟨h _ (Or.inl rfl), (ih _ _).mpr ?_⟩
        intro p hp
        exact h p (Or.inr (by simpa [schedFinals] using hp))


theorem schedFinals_append (D : DistFn) (lookup : Lookup) (l1 l2 : List Nat)
    (t : ℚ) (prev : Customer) :
    schedFinals D lookup t prev (l1 ++ l2) =
      schedFinals D lookup t prev l1 ++
        schedFinals D lookup (schedState D lookup t prev l1).1
          (schedState D lookup t prev l1).2 l2 := by
  simp [schedFinals, schedList_append]

theorem recalculateFrom_eq (D : DistFn) (r : Route) (pos : Nat)
    (hL : LookupOk r.customers_lookup)
    (hdep : r.customers_lookup r.depot.id = r.depot)
    (hC : CacheOk D r.customers_lookup r.dcache)
    (hlen : r.arrival_times.length = r.customer_ids.length)
    (hpos : pos ≤ r.customer_ids.length)
    (hpre : r.arrival_times.take pos =
      (schedFinals D r.customers_lookup r.departure_time r.depot r.customer_ids).take pos) :
    (recalculateFrom D r pos).arrival_times =
      schedFinals D r.customers_lookup r.departure_time r.depot r.customer_ids ∧
    CacheOk D r.customers_lookup (recalculateFrom D r pos).dcache := by
  by_cases hn : r.customer_ids.length = 0
  · have hids : r.customer_ids = [] := List.length_eq_zero.mp hn
    have harr : r.arrival_times = [] := List.length_eq_zero.mp (by rw [hlen, hn])
    constructor
    · simp only [recalculateFrom, if_pos hn]
      rw [harr, hids]
      simp [schedFinals, schedList]
    · simp only [recalculateFrom, if_pos hn]
      exact hC
  · have hdrop : r.arrival_times.drop r.customer_ids.length = [] :=
      List.drop_eq_nil_of_le (le_of_eq hlen)
    have hne : r.customer_ids ≠ [] := fun h => hn (by rw [h]; rfl)
    by_cases hp0 : pos = 0
    · subst hp0
      obtain ⟨ha, hc⟩ := recalcAux_spec hL r.customer_ids r.dcache
        r.departure_time r.depot hC hdep
      have hre : recalculateFrom D r 0 = { r with
          dcache := (recalcAux D r.customers_lookup r.dcache
            r.departure_time r.depot r.customer_ids).1,
          arrival_times := r.arrival_times.take 0 ++ (recalcAux D r.customers_lookup r.dcache
            r.departure_time r.depot r.customer_ids).2
            ++ r.arrival_times.drop r.customer_ids.length } := by
        simp [recalculateFrom, if_neg hn, hne]
      rw [hre]
      refine ⟨?_, hc⟩
      simp [ha, hdrop]
    · have hposgt : 0 < pos := Nat.pos_of_ne_zero hp0
      have hj : pos - 1 < r.customer_ids.length := by omega
      set lookup := r.customers_lookup with hlk
      set ids := r.customer_ids with hids
      set finals := schedFinals D lookup r.departure_time r.depot ids with hfin
      have hflen : finals.length = ids.length := length_schedFinals D lookup ids _ _
      have hgetD : r.arrival_times.getD (pos - 1) 0 = finals.getD (pos - 1) 0 := by
        have h1 := getD_take_eq (0 : ℚ) r.arrival_times pos (pos - 1) (by omega)
        have h2 := getD_take_eq (0 : ℚ) finals pos (pos - 1) (by omega)
        rw [← h1, hpre, h2]
      have hcanon : lookup (lookup (ids.getD (pos - 1) 0)).id = lookup (ids.getD (pos - 1) 0) :=
        lookup_canon hL _
      obtain ⟨ha, hc⟩ := recalcAux_spec hL (ids.drop pos) r.dcache
        (r.arrival_times.getD (pos - 1) 0 + (lookup (ids.getD (pos - 1) 0)).service_time)
        (lookup (ids.getD (pos - 1) 0)) hC hcanon
      have hstate := schedState_take D lookup ids pos r.departure_time r.depot hposgt hpos
      have hre : recalculateFrom D r pos = { r with
          dcache := (recalcAux D lookup r.dcache
            (r.arrival_times.getD (pos - 1) 0 + (lookup (ids.getD (pos - 1) 0)).service_time)
            (lookup (ids.getD (pos - 1) 0)) (ids.drop pos)).1,
          arrival_times := r.arrival_times.take pos ++ (recalcAux D lookup r.dcache
            (r.arrival_times.getD (pos - 1) 0 + (lookup (ids.getD (pos - 1) 0)).service_time)
            (lookup (ids.getD (pos - 1) 0)) (ids.drop pos)).2
            ++ r.arrival_times.drop ids.length } := by
        simp [recalculateFrom, if_neg hn, if_neg hp0, hne]
      rw [hre]
      refine ⟨?_, hc⟩
      show r.arrival_times.take pos ++ _ ++ r.arrival_times.drop ids.length = finals
      rw [ha, hdrop, List.append_nil, hpre]
      have hsplit : finals = finals.take pos ++
          schedFinals D lookup
            (finals.getD (pos - 1) 0 + (lookup (ids.getD (pos - 1) 0)).service_time)
            (lookup (ids.getD (pos - 1) 0)) (ids.drop pos) := by
        conv_lhs => rw [hfin, ← List.take_append_drop pos ids]
        rw [schedFinals_append, hstate]
        rw [← List.take_append_drop pos ids] at hfin
        simp only [schedFinals_take]
      rw [hgetD]
      exact hsplit.symm
  

/-- C5: for every route whose stored arrival times are consistent with
its customer sequence and departure time, and every valid position, if
`insert_inplace(customer_id, position)` returns `False` then
`customer_ids`, `arrival_times`, `current_load`, `departure_time` and
`total_cost` are all unchanged; if it returns `True` then
`customer_ids` is the old sequence with the customer inserted at
`position`, the load respects the capacity, and the recomputed schedule
of the new sequence meets every time window. -/
theorem c5_insert_inplace_contract (D : DistFn) (r : Route) (cid pos : Nat)
    (hL : LookupOk r.customers_lookup)
    (hdep : r.customers_lookup r.depot.id = r.depot)
    (hC : CacheOk D r.customers_lookup r.dcache)
    (hcons : r.arrival_times =
      schedFinals D r.customers_lookup r.departure_time r.depot r.customer_ids)
    (hpos : pos ≤ r.customer_ids.length) :
    ((insertInplace D r cid pos).2 = false →
      (insertInplace D r cid pos).1.customer_ids = r.customer_ids ∧
      (insertInplace D r cid pos).1.arrival_times = r.arrival_times ∧
      (insertInplace D r cid pos).1.current_load = r.current_load ∧
      (insertInplace D r cid pos).1.departure_time = r.departure_time ∧
      (insertInplace D r cid pos).1.total_cost = r.total_cost) ∧
    ((insertInplace D r cid pos).2 = true →
      (insertInplace D r cid pos).1.customer_ids = r.customer_ids.insertIdx pos cid ∧
      (insertInplace D r cid pos).1.current_load ≤ r.vehicle_capacity ∧
      schedOk D r.customers_lookup r.departure_time r.depot
        (r.customer_ids.insertIdx pos cid)) := by
  have hlen : r.arrival_times.length = r.customer_ids.length := by
    rw [hcons]; exact length_schedFinals D _ _ _ _
  have hlenpos : pos ≤ r.arrival_times.length := hlen ▸ hpos
  by_cases hcap : r.vehicle_capacity < r.current_load + (r.customers_lookup cid).demand
  · have hres : insertInplace D r cid pos = (r, false) := by
      simp [insertInplace, if_pos hcap]
    rw [hres]
    exact ⟨fun _ => ⟨rfl, rfl, rfl, rfl, rfl⟩, fun h => by cases h⟩
  · have hlen1 : (insertTrial r cid pos).arrival_times.length =
        (insertTrial r cid pos).customer_ids.length := by
      simp only [insertTrial]
      rw [List.length_insertIdx pos r.arrival_times hlenpos,
          List.length_insertIdx pos r.customer_ids hpos, hlen]
    have hpos1 : pos ≤ (insertTrial r cid pos).customer_ids.length := by
      simp only [insertTrial]
      rw [List.length_insertIdx pos r.customer_ids hpos]
      omega
    have hpre1 : (insertTrial r cid pos).arrival_times.take pos =
        (schedFinals D (insertTrial r cid pos).customers_lookup
          (insertTrial r cid pos).departure_time (insertTrial r cid pos).depot
          (insertTrial r cid pos).customer_ids).take pos := by
      simp only [insertTrial]
      rw [take_insertIdx_eq (0 : ℚ) pos r.arrival_times hlenpos]
      rw [← schedFinals_take D r.customers_lookup]
      rw [take_insertIdx_eq cid pos r.customer_ids hpos]
      rw [hcons, ← schedFinals_take D r.customers_lookup]
    obtain ⟨ha2, hc2⟩ :=
      recalculateFrom_eq D (insertTrial r cid pos) pos hL hdep hC hlen1 hpos1 hpre1
    set r2 := recalculateFrom D (insertTrial r cid pos) pos with hr2
    have hflds2 := recalculateFrom_fields D (insertTrial r cid pos) pos
    have hids2 : r2.customer_ids = r.customer_ids.insertIdx pos cid := by
      rw [hr2, recalculateFrom_customer_ids]; rfl
    have hlk2 : r2.customers_lookup = r.customers_lookup := by
      rw [hr2, (recalculateFrom_fields D _ pos).2.2.2.1]; rfl
    have hdepot2 : r2.depot = r.depot := by
      rw [hr2, (recalculateFrom_fields D _ pos).2.2.1]; rfl
    have hdt2 : r2.departure_time = r.departure_time := by
      rw [hr2, (recalculateFrom_fields D _ pos).1]; rfl
    have hload2 : r2.current_load = r.current_load + (r.customers_lookup cid).demand := by
      rw [hr2, (recalculateFrom_fields D _ pos).2.1]; rfl
    have hcap2 : r2.vehicle_capacity = r.vehicle_capacity := by
      rw [hr2, (recalculateFrom_fields D _ pos).2.2.2.2]; rfl
    have htc2 : r2.total_cost = r.total_cost := by
      rw [hr2, recalculateFrom_total_cost]; rfl
    have harr2 : r2.arrival_times = schedFinals D r.customers_lookup
        r.departure_time r.depot (r.customer_ids.insertIdx pos cid) := by
      rw [hr2]
      exact ha2
    by_cases hfeas : isFeasible r2 = true
    · have hres : insertInplace D r cid pos = (r2, true) := by
        simp [insertInplace, if_neg hcap, ← hr2, hfeas]
      rw [hres]
      refine ⟨fun h => absurd h (by simp), fun _ => ⟨hids2, ?_, ?_⟩⟩
      · rw [hload2]
        exact le_of_not_lt hcap
      · have hne2 : r2.customer_ids ≠ [] := by
          rw [hids2]
          intro h
          have := congrArg List.length h
          rw [List.length_insertIdx pos r.customer_ids hpos] at this
          simp at this
        rw [isFeasible] at hfeas
        rw [if_neg (by simpa [List.isEmpty_iff] using hne2)] at hfeas
        split_ifs at hfeas
        rw [schedOk_iff_zipFinals]
        intro p hp
        have := List.all_eq_true.mp hfeas p (by
          rw [hids2, harr2]
          exact hp)
        rw [← hlk2]
        exact of_decide_eq_true this
    · have hres : insertInplace D r cid pos =
          (recalculateFrom D (insertRollback r2 cid pos) pos, false) := by
        simp [insertInplace, if_neg hcap, ← hr2, hfeas]
      have hids3 : (insertRollback r2 cid pos).customer_ids = r.customer_ids := by
        simp only [insertRollback]
        rw [hids2]
        exact List.eraseIdx_insertIdx pos r.customer_ids
      have hposlt : pos < r2.arrival_times.length := by
        rw [harr2, length_schedFinals, List.length_insertIdx pos r.customer_ids hpos]
        omega
      have hlen3 : (insertRollback r2 cid pos).arrival_times.length =
          (insertRollback r2 cid pos).customer_ids.length := by
        show (r2.arrival_times.eraseIdx pos).length = (r2.customer_ids.eraseIdx pos).length
        rw [List.length_eraseIdx_of_lt hposlt, hids2, List.eraseIdx_insertIdx pos r.customer_ids,
            harr2, length_schedFinals, List.length_insertIdx pos r.customer_ids hpos]
        omega
      have hpos3 : pos ≤ (insertRollback r2 cid pos).customer_ids.length := by
        rw [hids3]
        exact hpos
      have hpre3 : (insertRollback r2 cid pos).arrival_times.take pos =
          (schedFinals D (insertRollback r2 cid pos).customers_lookup
            (insertRollback r2 cid pos).departure_time (insertRollback r2 cid pos).depot
            (insertRollback r2 cid pos).customer_ids).take pos := by
        have hstep : (insertRollback r2 cid pos).arrival_times.take pos =
            r.arrival_times.take pos := by
          show (r2.arrival_times.eraseIdx pos).take pos = r.arrival_times.take pos
          rw [take_eraseIdx_eq, harr2, hcons]
          rw [← schedFinals_take D r.customers_lookup, ← schedFinals_take D r.customers_lookup]
          rw [take_insertIdx_eq cid pos r.customer_ids hpos]
        rw [hstep]
        have : (schedFinals D (insertRollback r2 cid pos).customers_lookup
            (insertRollback r2 cid pos).departure_time (insertRollback r2 cid pos).depot
            (insertRollback r2 cid pos).customer_ids) =
            schedFinals D r.customers_lookup r.departure_time r.depot r.customer_ids := by
          show schedFinals D r2.customers_lookup r2.departure_time r2.depot
              (insertRollback r2 cid pos).customer_ids = _
          rw [hlk2, hdt2, hdepot2, hids3]
        rw [this, ← hcons]
      have hLr3 : LookupOk (insertRollback r2 cid pos).customers_lookup := by
        show LookupOk r2.customers_lookup
        rw [hlk2]; exact hL
      have hdepr3 : (insertRollback r2 cid pos).customers_lookup
          (insertRollback r2 cid pos).depot.id = (insertRollback r2 cid pos).depot := by
        show r2.customers_lookup r2.depot.id = r2.depot
        rw [hlk2, hdepot2]; exact hdep
      have hCr3 : CacheOk D (insertRollback r2 cid pos).customers_lookup
          (insertRollback r2 cid pos).dcache := by
        show CacheOk D r2.customers_lookup r2.dcache
        rw [hlk2]
        exact hc2
      obtain ⟨ha4, _⟩ :=
        recalculateFrom_eq D (insertRollback r2 cid pos) pos hLr3 hdepr3 hCr3 hlen3 hpos3 hpre3
      rw [hres]
      refine ⟨fun _ => ⟨?_, ?_, ?_, ?_, ?_⟩, fun h => by cases h⟩
      · show (recalculateFrom D (insertRollback r2 cid pos) pos).customer_ids = r.customer_ids
        rw [recalculateFrom_customer_ids, hids3]
      · show (recalculateFrom D (insertRollback r2 cid pos) pos).arrival_times = r.arrival_times
        rw [ha4]
        have : (schedFinals D (insertRollback r2 cid pos).customers_lookup
            (insertRollback r2 cid pos).departure_time (insertRollback r2 cid pos).depot
            (insertRollback r2 cid pos).customer_ids) =
            schedFinals D r.customers_lookup r.departure_time r.depot r.customer_ids := by
          show schedFinals D r2.customers_lookup r2.departure_time r2.depot
              (insertRollback r2 cid pos).customer_ids = _
          rw [hlk2, hdt2, hdepot2, hids3]
        rw [this, ← hcons]
      · show (recalculateFrom D (insertRollback r2 cid pos) pos).current_load = r.current_load
        rw [(recalculateFrom_fields D _ pos).2.1]
        show r2.current_load - (r2.customers_lookup cid).demand = r.current_load
        rw [hlk2, hload2]
        ring
      · show (recalculateFrom D (insertRollback r2 cid pos) pos).departure_time =
            r.departure_time
        rw [(recalculateFrom_fields D _ pos).1]
        show r2.departure_time = r.departure_time
        exact hdt2
      · show (recalculateFrom D (insertRollback r2 cid pos) pos).total_cost = r.total_cost
        rw [recalculateFrom_total_cost]
        show r2.total_cost = r.total_cost
        exact htc2


/-- C5, witness: inserting filler customer 3 at position 0 of the
consistent route `exRoute2` returns `True`; the id sequence gains the
customer at position 0 and capacity and all time windows hold. -/
theorem c5_insert_inplace_contract_witness :
    (insertInplace lineD exRoute2 3 0).2 = true ∧
    (insertInplace lineD exRoute2 3 0).1.customer_ids = [3, 1, 2] ∧
    (insertInplace lineD exRoute2 3 0).1.current_load ≤ exRoute2.vehicle_capacity ∧
    schedOk lineD exRoute2.customers_lookup exRoute2.departure_time exRoute2.depot
      (exRoute2.customer_ids.insertIdx 0 3) := by
  have htrue : (insertInplace lineD exRoute2 3 0).2 = true := by
    norm_num [insertInplace, insertTrial, insertRollback, exRoute2, exLookup2, exDepot2,
      lineD, recalculateFrom, recalcAux, getDist, cacheFind, isFeasible, List.insertIdx]
  have h := (c5_insert_inplace_contract lineD exRoute2 3 0
      exLookup2_ok rfl (by intro e he; cases he)
      (by norm_num [exRoute2, schedFinals, schedList, exLookup2, exDepot2, lineD])
      (by norm_num [exRoute2])).2 htrue
  exact ⟨htrue, by rw [h.1]; rfl, h.2.1, h.2.2⟩


theorem midLegs_spec {D : DistFn} {lookup : Lookup} (hL : LookupOk lookup) :
    ∀ (l : List Nat) (cache : Cache), CacheOk D lookup cache →
      CacheOk D lookup (midLegs D lookup cache l).1 ∧
      ∀ (prev : Customer) (depot : Customer),
        D prev (lookup (l.headD 0)) + (midLegs D lookup cache l).2 +
          D (lookup (l.getLastD 0)) depot = legsSum D lookup depot prev l ∨ l = [] := by
  intro l
  induction l with
  | nil => intro cache hC; exact ⟨hC, fun _ _ => Or.inr rfl⟩
  | cons a rest ih =>
      intro cache hC
      cases rest with
      | nil =>
          refine ⟨hC, fun prev depot => Or.inl ?_⟩
          simp [midLegs, legsSum]
      | cons b rest2 =>
          have hca : lookup (lookup a).id = lookup a := lookup_canon hL a
          have hcb : lookup (lookup b).id = lookup b := lookup_canon hL b
          have hsnd := getDist_snd (u := lookup a) (v := lookup b) hC hca hcb
          have hok := getDist_cacheOk (u := lookup a) (v := lookup b) hC hca hcb
          obtain ⟨ih1, ih2⟩ := ih (getDist D cache (lookup a) (lookup b)).1 hok
          refine ⟨?_, ?_⟩
          · show CacheOk D lookup (midLegs D lookup cache (a :: b :: rest2)).1
            simp only [midLegs]
            exact ih1
          · intro prev depot
            refine Or.inl ?_
            rcases ih2 (lookup a) depot with h | h
            · have e : legsSum D lookup depot prev (a :: b :: rest2) =
                  D prev (lookup a) + legsSum D lookup depot (lookup a) (b :: rest2) := rfl
              have e2 : midLegs D lookup cache (a :: b :: rest2) =
                  ((midLegs D lookup (getDist D cache (lookup a) (lookup b)).1 (b :: rest2)).1,
                   (getDist D cache (lookup a) (lookup b)).2 +
                     (midLegs D lookup (getDist D cache (lookup a) (lookup b)).1
                       (b :: rest2)).2) := rfl
              simp only [List.headD_cons, List.getLastD_cons] at h
              show D prev (lookup ((a :: b :: rest2).headD 0)) +
                  (midLegs D lookup cache (a :: b :: rest2)).2 +
                  D (lookup ((a :: b :: rest2).getLastD 0)) depot = _
              simp only [List.headD_cons, List.getLastD_cons]
              rw [e2, e, ← h, hsnd]
              ring
            · exact absurd h (by simp)

theorem getTotalDistance_spec (D : DistFn) (r : Route)
    (hL : LookupOk r.customers_lookup)
    (hC : CacheOk D r.customers_lookup r.dcache) :
    (getTotalDistance D r).2 = travelSum D r.customers_lookup r.depot r.customer_ids ∧
    CacheOk D r.customers_lookup (getTotalDistance D r).1.dcache ∧
    (getTotalDistance D r).1.customer_ids = r.customer_ids ∧
    (getTotalDistance D r).1.arrival_times = r.arrival_times ∧
    (getTotalDistance D r).1.current_load = r.current_load ∧
    (getTotalDistance D r).1.departure_time = r.departure_time ∧
    (getTotalDistance D r).1.total_cost = r.total_cost ∧
    (getTotalDistance D r).1.depot = r.depot ∧
    (getTotalDistance D r).1.customers_lookup = r.customers_lookup ∧
    (getTotalDistance D r).1.vehicle_capacity = r.vehicle_capacity := by
  rcases hids : r.customer_ids with _ | ⟨first, rest⟩
  · have hG : getTotalDistance D r = (r, 0) := by
      unfold getTotalDistance
      rw [hids]
    rw [hG]
    exact ⟨rfl, hC, hids, rfl, rfl, rfl, rfl, rfl, rfl, rfl⟩
  · have hG : getTotalDistance D r =
        ({ customer_ids := first :: rest, arrival_times := r.arrival_times,
           departure_time := r.departure_time, current_load := r.current_load,
           total_cost := r.total_cost, depot := r.depot,
           customers_lookup := r.customers_lookup, vehicle_capacity := r.vehicle_capacity,
           dcache := (midLegs D r.customers_lookup r.dcache (first :: rest)).1 },
         D r.depot (r.customers_lookup first) +
           (midLegs D r.customers_lookup r.dcache (first :: rest)).2 +
           D (r.customers_lookup ((first :: rest).getLastD 0)) r.depot) := by
      unfold getTotalDistance
      rw [hids]
    obtain ⟨h1, h2⟩ := midLegs_spec (D := D) hL (first :: rest) r.dcache hC
    rcases h2 r.depot r.depot with h3 | h3
    · simp only [List.headD_cons] at h3
      rw [hG]
      refine ⟨?_, h1, rfl, rfl, rfl, rfl, rfl, rfl, rfl, rfl⟩
      rw [travelSum_of_ne_nil D r.customers_lookup r.depot (List.cons_ne_nil first rest)]
      exact h3
    · exact absurd h3 (by simp)


theorem isFeasible_iff_schedOk (D : DistFn) (r : Route)
    (harr : r.arrival_times =
      schedFinals D r.customers_lookup r.departure_time r.depot r.customer_ids)
    (hloadOk : r.current_load ≤ r.vehicle_capacity) :
    isFeasible r = true ↔
      schedOk D r.customers_lookup r.departure_time r.depot r.customer_ids := by
  unfold isFeasible
  by_cases hne : r.customer_ids.isEmpty
  · have hnil := List.isEmpty_iff.mp hne
    simp [hne, schedOk, hnil, schedList]
  · rw [if_neg hne, if_neg (not_lt.mpr hloadOk)]
    rw [schedOk_iff_zipFinals, ← harr, List.all_eq_true]
    constructor
    · intro h p hp
      exact of_decide_eq_true (h p hp)
    · intro h p hp
      exact decide_eq_true (h p hp)

theorem insertInplace_spec (D : DistFn) (r : Route) (cid pos : Nat)
    (hL : LookupOk r.customers_lookup)
    (hdep : r.customers_lookup r.depot.id = r.depot)
    (hC : CacheOk D r.customers_lookup r.dcache)
    (hcons : r.arrival_times =
      schedFinals D r.customers_lookup r.departure_time r.depot r.customer_ids)
    (hpos : pos ≤ r.customer_ids.length) :
    ((insertInplace D r cid pos).2 = true ↔
      ¬ (r.vehicle_capacity < r.current_load + (r.customers_lookup cid).demand) ∧
      schedOk D r.customers_lookup r.departure_time r.depot
        (r.customer_ids.insertIdx pos cid)) ∧
    ((insertInplace D r cid pos).2 = false →
      (insertInplace D r cid pos).1.customer_ids = r.customer_ids ∧
      (insertInplace D r cid pos).1.arrival_times = r.arrival_times ∧
      (insertInplace D r cid pos).1.current_load = r.current_load) ∧
    ((insertInplace D r cid pos).2 = true →
      (insertInplace D r cid pos).1.customer_ids = r.customer_ids.insertIdx pos cid ∧
      (insertInplace D r cid pos).1.arrival_times = schedFinals D r.customers_lookup
        r.departure_time r.depot (r.customer_ids.insertIdx pos cid) ∧
      (insertInplace D r cid pos).1.current_load =
        r.current_load + (r.customers_lookup cid).demand) ∧
    CacheOk D r.customers_lookup (insertInplace D r cid pos).1.dcache ∧
    (insertInplace D r cid pos).1.departure_time = r.departure_time ∧
    (insertInplace D r cid pos).1.depot = r.depot ∧
    (insertInplace D r cid pos).1.customers_lookup = r.customers_lookup ∧
    (insertInplace D r cid pos).1.vehicle_capacity = r.vehicle_capacity ∧
    (insertInplace D r cid pos).1.total_cost = r.total_cost := by
  have hlen : r.arrival_times.length = r.customer_ids.length := by
    rw [hcons]; exact length_schedFinals D _ _ _ _
  have hlenpos : pos ≤ r.arrival_times.length := hlen ▸ hpos
  by_cases hcap : r.vehicle_capacity < r.current_load + (r.customers_lookup cid).demand
  · have hres : insertInplace D r cid pos = (r, false) := by
      simp [insertInplace, if_pos hcap]
    rw [hres]
    refine ⟨?_, fun _ => ⟨rfl, rfl, rfl⟩, fun h => absurd h (by simp), hC,
      rfl, rfl, rfl, rfl, rfl⟩
    simp only [Bool.false_eq_true, false_iff]
    intro hcon
    exact hcon.1 hcap
  · have hlen1 : (insertTrial r cid pos).arrival_times.length =
        (insertTrial r cid pos).customer_ids.length := by
      simp only [insertTrial]
      rw [List.length_insertIdx pos r.arrival_times hlenpos,
          List.length_insertIdx pos r.customer_ids hpos, hlen]
    have hpos1 : pos ≤ (insertTrial r cid pos).customer_ids.length := by
      simp only [insertTrial]
      rw [List.length_insertIdx pos r.customer_ids hpos]
      omega
    have hpre1 : (insertTrial r cid pos).arrival_times.take pos =
        (schedFinals D (insertTrial r cid pos).customers_lookup
          (insertTrial r cid pos).departure_time (insertTrial r cid pos).depot
          (insertTrial r cid pos).customer_ids).take pos := by
      simp only [insertTrial]
      rw [take_insertIdx_eq (0 : ℚ) pos r.arrival_times hlenpos]
      rw [← schedFinals_take D r.customers_lookup]
      rw [take_insertIdx_eq cid pos r.customer_ids hpos]
      rw [hcons, ← schedFinals_take D r.customers_lookup]
    obtain ⟨ha2, hc2⟩ :=
      recalculateFrom_eq D (insertTrial r cid pos) pos hL hdep hC hlen1 hpos1 hpre1
    set r2 := recalculateFrom D (insertTrial r cid pos) pos with hr2
    have hids2 : r2.customer_ids = r.customer_ids.insertIdx pos cid := by
      rw [hr2, recalculateFrom_customer_ids]; rfl
    have hlk2 : r2.customers_lookup = r.customers_lookup := by
      rw [hr2, (recalculateFrom_fields D _ pos).2.2.2.1]; rfl
    have hdepot2 : r2.depot = r.depot := by
      rw [hr2, (recalculateFrom_fields D _ pos).2.2.1]; rfl
    have hdt2 : r2.departure_time = r.departure_time := by
      rw [hr2, (recalculateFrom_fields D _ pos).1]; rfl
    have hload2 : r2.current_load = r.current_load + (r.customers_lookup cid).demand := by
      rw [hr2, (recalculateFrom_fields D _ pos).2.1]; rfl
    have hcap2 : r2.vehicle_capacity = r.vehicle_capacity := by
      rw [hr2, (recalculateFrom_fields D _ pos).2.2.2.2]; rfl
    have htc2 : r2.total_cost = r.total_cost := by
      rw [hr2, recalculateFrom_total_cost]; rfl
    have harr2 : r2.arrival_times = schedFinals D r.customers_lookup
        r.departure_time r.depot (r.customer_ids.insertIdx pos cid) := by
      rw [hr2]
      exact ha2
    have hfiff : isFeasible r2 = true ↔ schedOk D r.customers_lookup
        r.departure_time r.depot (r.customer_ids.insertIdx pos cid) := by
      have := isFeasible_iff_schedOk D r2
        (by rw [harr2, hlk2, hdt2, hdepot2, hids2])
        (by rw [hload2, hcap2]; exact not_lt.mp hcap)
      rw [hlk2, hdt2, hdepot2, hids2] at this
      exact this
    by_cases hfeas : isFeasible r2 = true
    · have hres : insertInplace D r cid pos = (r2, true) := by
        simp [insertInplace, if_neg hcap, ← hr2, hfeas]
      rw [hres]
      refine ⟨?_, fun h => absurd h (by simp), fun _ => ⟨hids2, harr2, hload2⟩, ?_,
        hdt2, hdepot2, hlk2, hcap2, htc2⟩
      · simp only [true_iff]
        exact ⟨hcap, hfiff.mp hfeas⟩
      · show CacheOk D r.customers_lookup r2.dcache
        exact hc2
    · have hres : insertInplace D r cid pos =
          (recalculateFrom D (insertRollback r2 cid pos) pos, false) := by
        simp [insertInplace, if_neg hcap, ← hr2, hfeas]
      have hids3 : (insertRollback r2 cid pos).customer_ids = r.customer_ids := by
        simp only [insertRollback]
        rw [hids2]
        exact List.eraseIdx_insertIdx pos r.customer_ids
      have hposlt : pos < r2.arrival_times.length := by
        rw [harr2, length_schedFinals, List.length_insertIdx pos r.customer_ids hpos]
        omega
      have hlen3 : (insertRollback r2 cid pos).arrival_times.length =
          (insertRollback r2 cid pos).customer_ids.length := by
        show (r2.arrival_times.eraseIdx pos).length = (r2.customer_ids.eraseIdx pos).length
        rw [List.length_eraseIdx_of_lt hposlt, hids2, List.eraseIdx_insertIdx pos r.customer_ids,
            harr2, length_schedFinals, List.length_insertIdx pos r.customer_ids hpos]
        omega
      have hpos3 : pos ≤ (insertRollback r2 cid pos).customer_ids.length := by
        rw [hids3]
        exact hpos
      have heqfin : (schedFinals D (insertRollback r2 cid pos).customers_lookup
          (insertRollback r2 cid pos).departure_time (insertRollback r2 cid pos).depot
          (insertRollback r2 cid pos).customer_ids) =
          schedFinals D r.customers_lookup r.departure_time r.depot r.customer_ids := by
        show schedFinals D r2.customers_lookup r2.departure_time r2.depot
            (insertRollback r2 cid pos).customer_ids = _
        rw [hlk2, hdt2, hdepot2, hids3]
      have hpre3 : (insertRollback r2 cid pos).arrival_times.take pos =
          (schedFinals D (insertRollback r2 cid pos).customers_lookup
            (insertRollback r2 cid pos).departure_time (insertRollback r2 cid pos).depot
            (insertRollback r2 cid pos).customer_ids).take pos := by
        have hstep : (insertRollback r2 cid pos).arrival_times.take pos =
            r.arrival_times.take pos := by
          show (r2.arrival_times.eraseIdx pos).take pos = r.arrival_times.take pos
          rw [take_eraseIdx_eq, harr2, hcons]
          rw [← schedFinals_take D r.customers_lookup, ← schedFinals_take D r.customers_lookup]
          rw [take_insertIdx_eq cid pos r.customer_ids hpos]
        rw [hstep, heqfin, ← hcons]
      have hLr3 : LookupOk (insertRollback r2 cid pos).customers_lookup := by
        show LookupOk r2.customers_lookup
        rw [hlk2]; exact hL
      have hdepr3 : (insertRollback r2 cid pos).customers_lookup
          (insertRollback r2 cid pos).depot.id = (insertRollback r2 cid pos).depot := by
        show r2.customers_lookup r2.depot.id = r2.depot
        rw [hlk2, hdepot2]; exact hdep
      have hCr3 : CacheOk D (insertRollback r2 cid pos).customers_lookup
          (insertRollback r2 cid pos).dcache := by
        show CacheOk D r2.customers_lookup r2.dcache
        rw [hlk2]
        exact hc2
      obtain ⟨ha4, hc4⟩ :=
        recalculateFrom_eq D (insertRollback r2 cid pos) pos hLr3 hdepr3 hCr3 hlen3 hpos3 hpre3
      rw [hres]
      refine ⟨?_, fun _ => ⟨?_, ?_, ?_⟩, fun h => absurd h (by simp), ?_, ?_, ?_, ?_, ?_, ?_⟩
      · simp only [Bool.false_eq_true, false_iff]
        intro hcon
        exact hfeas (hfiff.mpr hcon.2)
      · show (recalculateFrom D (insertRollback r2 cid pos) pos).customer_ids = r.customer_ids
        rw [recalculateFrom_customer_ids, hids3]
      · show (recalculateFrom D (insertRollback r2 cid pos) pos).arrival_times = r.arrival_times
        rw [ha4, heqfin, ← hcons]
      · show (recalculateFrom D (insertRollback r2 cid pos) pos).current_load = r.current_load
        rw [(recalculateFrom_fields D _ pos).2.1]
        show r2.current_load - (r2.customers_lookup cid).demand = r.current_load
        rw [hlk2, hload2]
        ring
      · show CacheOk D r.customers_lookup
            (recalculateFrom D (insertRollback r2 cid pos) pos).dcache
        have : (insertRollback r2 cid pos).customers_lookup = r.customers_lookup := by
          show r2.customers_lookup = r.customers_lookup
          exact hlk2
        rw [← this]
        exact hc4
      · show (recalculateFrom D (insertRollback r2 cid pos) pos).departure_time =
            r.departure_time
        rw [(recalculateFrom_fields D _ pos).1]
        exact hdt2
      · show (recalculateFrom D (insertRollback r2 cid pos) pos).depot = r.depot
        rw [(recalculateFrom_fields D _ pos).2.2.1]
        exact hdepot2
      · show (recalculateFrom D (insertRollback r2 cid pos) pos).customers_lookup =
            r.customers_lookup
        rw [(recalculateFrom_fields D _ pos).2.2.2.1]
        exact hlk2
      · show (recalculateFrom D (insertRollback r2 cid pos) pos).vehicle_capacity =
            r.vehicle_capacity
        rw [(recalculateFrom_fields D _ pos).2.2.2.2]
        exact hcap2
      · show (recalculateFrom D (insertRollback r2 cid pos) pos).total_cost = r.total_cost
        rw [recalculateFrom_total_cost]
        exact htc2


theorem obsEq_refl (r : Route) : ObsEq r r :=
  ⟨rfl, rfl, rfl, rfl, rfl, rfl, rfl⟩

theorem obsEq_trans {a b c : Route} (h1 : ObsEq a b) (h2 : ObsEq b c) : ObsEq a c := by
  obtain ⟨x1, x2, x3, x4, x5, x6, x7⟩ := h1
  obtain ⟨y1, y2, y3, y4, y5, y6, y7⟩ := h2
  exact ⟨y1.trans x1, y2.trans x2, y3.trans x3, y4.trans x4,
    y5.trans x5, y6.trans x6, y7.trans x7⟩

theorem insCostMeasure_congr (D : DistFn) {r r' : Route} (h : ObsEq r r')
    (cid pos : Nat) : insCostMeasure D r' cid pos = insCostMeasure D r cid pos := by
  obtain ⟨h1, h2, h3, h4, h5, h6, h7⟩ := h
  unfold insCostMeasure
  rw [h1, h3, h4, h5, h6, h7]

theorem rInv_of_obsEq {D : DistFn} {r r' : Route} (h : RInv D r) (ho : ObsEq r r')
    (hc : CacheOk D r.customers_lookup r'.dcache)
    (ht : ∃ q, r'.total_cost = some q) : RInv D r' := by
  obtain ⟨hL, hdep, _, harr, hok, _⟩ := h
  obtain ⟨h1, h2, h3, h4, h5, h6, h7⟩ := ho
  refine ⟨?_, ?_, ?_, ?_, ?_, ht⟩
  · rw [h6]; exact hL
  · rw [h6, h5]; exact hdep
  · rw [h6]; exact hc
  · rw [h2, h6, h4, h5, h1]; exact harr
  · rw [h6, h4, h5, h1]; exact hok


theorem calculateInsertionCost_spec (D : DistFn) (r : Route) (cid pos : Nat)
    (h : RInv D r) (hpos : pos ≤ r.customer_ids.length) :
    (calculateInsertionCost D r cid pos).2 = insCostMeasure D r cid pos ∧
    ObsEq r (calculateInsertionCost D r cid pos).1 ∧
    RInv D (calculateInsertionCost D r cid pos).1 := by
  have hL := h.1
  have hdep := h.2.1
  have hC := h.2.2.1
  have harr := h.2.2.2.1
  have hok := h.2.2.2.2.1
  obtain ⟨q, htc⟩ := h.2.2.2.2.2
  by_cases hcap : r.vehicle_capacity < r.current_load + (r.customers_lookup cid).demand
  · have hres : calculateInsertionCost D r cid pos = (r, none) := by
      simp [calculateInsertionCost, if_pos hcap]
    have hm : insCostMeasure D r cid pos = none := by
      simp [insCostMeasure, if_pos hcap]
    rw [hres, hm]
    exact ⟨rfl, obsEq_refl r, h⟩
  · obtain ⟨gv, gc, gi, ga, gl, gd, gt, gdep, glk, gcap⟩ := getTotalDistance_spec D r hL hC
    have hObsO : ObsEq r (getTotalDistance D r).1 := ⟨gi, ga, gl, gd, gdep, glk, gcap⟩
    obtain ⟨iiff, ifalse, itrue, ic, idp, idep, ilk, icap, itc⟩ :=
      insertInplace_spec D (getTotalDistance D r).1 cid pos
        (by rw [glk]; exact hL)
        (by rw [glk, gdep]; exact hdep)
        (by rw [glk]; exact gc)
        (by rw [ga, glk, gd, gdep, gi]; exact harr)
        (by rw [gi]; exact hpos)
    rw [gcap, gl, glk, gd, gdep, gi] at iiff
    have icr : CacheOk D r.customers_lookup
        (insertInplace D (getTotalDistance D r).1 cid pos).1.dcache := by
      rw [← glk]; exact ic
    have rIdp := idp.trans gd
    have rIdep := idep.trans gdep
    have rIlk := ilk.trans glk
    have rIcap := icap.trans gcap
    have rItc : (insertInplace D (getTotalDistance D r).1 cid pos).1.total_cost = some q :=
      itc.trans (gt.trans htc)
    by_cases hins : (insertInplace D (getTotalDistance D r).1 cid pos).2 = false
    · have hnotsched : ¬ schedOk D r.customers_lookup r.departure_time r.depot
          (r.customer_ids.insertIdx pos cid) := by
        intro hs
        exact absurd (iiff.mpr ⟨hcap, hs⟩) (by rw [hins]; exact Bool.false_ne_true)
      obtain ⟨f1, f2, f3⟩ := ifalse hins
      rw [gi] at f1
      rw [ga] at f2
      rw [gl] at f3
      have hm : insCostMeasure D r cid pos = none := by
        unfold insCostMeasure
        rw [if_neg hcap, if_neg hnotsched]
      have hObs : ObsEq r (insertInplace D (getTotalDistance D r).1 cid pos).1 :=
        ⟨f1, f2, f3, rIdp, rIdep, rIlk, rIcap⟩
      simp only [calculateInsertionCost, if_neg hcap, if_pos hins]
      exact ⟨hm.symm, hObs, rInv_of_obsEq h hObs icr ⟨q, rItc⟩⟩
    · have htrue : (insertInplace D (getTotalDistance D r).1 cid pos).2 = true := by
        simpa using hins
      obtain ⟨-, hsched⟩ := iiff.mp htrue
      obtain ⟨tri1, tri2, tri3⟩ := itrue htrue
      rw [gi] at tri1
      rw [glk, gd, gdep, gi] at tri2
      rw [gl, glk] at tri3
      obtain ⟨nv, nc, ni, na, nl, nd, nt, ndep, nlk, ncap⟩ :=
        getTotalDistance_spec D (insertInplace D (getTotalDistance D r).1 cid pos).1
          (by rw [rIlk]; exact hL) (by rw [rIlk]; exact icr)
      rw [rIlk] at nc
      rw [rIlk, rIdep, tri1] at nv
      have nni := ni.trans tri1
      have nna := na.trans tri2
      have nnl := nl.trans tri3
      have nnd := nd.trans rIdp
      have nndep := ndep.trans rIdep
      have nnlk := nlk.trans rIlk
      have nncap := ncap.trans rIcap
      have nnt : (getTotalDistance D (insertInplace D
          (getTotalDistance D r).1 cid pos).1).1.total_cost = some q := nt.trans rItc
      have hval : cadd (some ((getTotalDistance D (insertInplace D
              (getTotalDistance D r).1 cid pos).1).2 - (getTotalDistance D r).2))
          (cmul 2 (csub (csub (insertInplace D (getTotalDistance D r).1 cid pos).1.total_cost
              (some (getTotalDistance D (insertInplace D
                (getTotalDistance D r).1 cid pos).1).2))
            (csub r.total_cost (some (getTotalDistance D r).2)))) =
          some (travelSum D r.customers_lookup r.depot r.customer_ids -
            travelSum D r.customers_lookup r.depot (r.customer_ids.insertIdx pos cid)) := by
        rw [rItc, htc, nv, gv]
        simp only [csub, cmul, cadd]
        congr 1
        ring
      have hm : insCostMeasure D r cid pos =
          some (travelSum D r.customers_lookup r.depot r.customer_ids -
            travelSum D r.customers_lookup r.depot (r.customer_ids.insertIdx pos cid)) := by
        unfold insCostMeasure
        rw [if_neg hcap, if_pos hsched]
      set rN := (getTotalDistance D (insertInplace D (getTotalDistance D r).1 cid pos).1).1
        with hrN
      have rBids : (insertRollback rN cid pos).customer_ids = r.customer_ids := by
        show rN.customer_ids.eraseIdx pos = r.customer_ids
        rw [nni]
        exact List.eraseIdx_insertIdx pos r.customer_ids
      have hposlt : pos < rN.arrival_times.length := by
        rw [nna, length_schedFinals, List.length_insertIdx pos r.customer_ids hpos]
        omega
      have rBload : (insertRollback rN cid pos).current_load = r.current_load := by
        show rN.current_load - (rN.customers_lookup cid).demand = r.current_load
        rw [nnl, nnlk]
        ring
      have hlen3 : (insertRollback rN cid pos).arrival_times.length =
          (insertRollback rN cid pos).customer_ids.length := by
        show (rN.arrival_times.eraseIdx pos).length = (rN.customer_ids.eraseIdx pos).length
        rw [List.length_eraseIdx_of_lt hposlt, nni, List.eraseIdx_insertIdx pos r.customer_ids,
          nna, length_schedFinals, List.length_insertIdx pos r.customer_ids hpos]
        omega
      have hpos3 : pos ≤ (insertRollback rN cid pos).customer_ids.length := by
        rw [rBids]
        exact hpos
      have heqfin : (schedFinals D (insertRollback rN cid pos).customers_lookup
          (insertRollback rN cid pos).departure_time (insertRollback rN cid pos).depot
          (insertRollback rN cid pos).customer_ids) =
          schedFinals D r.customers_lookup r.departure_time r.depot r.customer_ids := by
        show schedFinals D rN.customers_lookup rN.departure_time rN.depot
            (insertRollback rN cid pos).customer_ids = _
        rw [nnlk, nnd, nndep, rBids]
      have hpre3 : (insertRollback rN cid pos).arrival_times.take pos =
          (schedFinals D (insertRollback rN cid pos).customers_lookup
            (insertRollback rN cid pos).departure_time (insertRollback rN cid pos).depot
            (insertRollback rN cid pos).customer_ids).take pos := by
        have hstep : (insertRollback rN cid pos).arrival_times.take pos =
            r.arrival_times.take pos := by
          show (rN.arrival_times.eraseIdx pos).take pos = r.arrival_times.take pos
          rw [take_eraseIdx_eq, nna, harr]
          rw [← schedFinals_take D r.customers_lookup, ← schedFinals_take D r.customers_lookup]
          rw [take_insertIdx_eq cid pos r.customer_ids hpos]
        rw [hstep, heqfin, ← harr]
      have hLr3 : LookupOk (insertRollback rN cid pos).customers_lookup := by
        show LookupOk rN.customers_lookup
        rw [nnlk]; exact hL
      have hdepr3 : (insertRollback rN cid pos).customers_lookup
          (insertRollback rN cid pos).depot.id = (insertRollback rN cid pos).depot := by
        show rN.customers_lookup rN.depot.id = rN.depot
        rw [nnlk, nndep]; exact hdep
      have hCr3 : CacheOk D (insertRollback rN cid pos).customers_lookup
          (insertRollback rN cid pos).dcache := by
        show CacheOk D rN.customers_lookup rN.dcache
        rw [nnlk]
        exact nc
      obtain ⟨ha4, hc4⟩ :=
        recalculateFrom_eq D (insertRollback rN cid pos) pos hLr3 hdepr3 hCr3 hlen3 hpos3 hpre3
      set rB2 := recalculateFrom D (insertRollback rN cid pos) pos with hrB2
      have b2ids : rB2.customer_ids = r.customer_ids := by
        rw [hrB2, recalculateFrom_customer_ids]
        exact rBids
      have b2arr : rB2.arrival_times = r.arrival_times := by
        rw [hrB2] at ha4 ⊢
        rw [ha4, heqfin, ← harr]
      have b2dp : rB2.departure_time = r.departure_time := by
        rw [hrB2, (recalculateFrom_fields D _ pos).1]
        show rN.departure_time = r.departure_time
        exact nnd
      have b2load : rB2.current_load = r.current_load := by
        rw [hrB2, (recalculateFrom_fields D _ pos).2.1]
        exact rBload
      have b2dep : rB2.depot = r.depot := by
        rw [hrB2, (recalculateFrom_fields D _ pos).2.2.1]
        show rN.depot = r.depot
        exact nndep
      have b2lk : rB2.customers_lookup = r.customers_lookup := by
        rw [hrB2, (recalculateFrom_fields D _ pos).2.2.2.1]
        show rN.customers_lookup = r.customers_lookup
        exact nnlk
      have b2cap : rB2.vehicle_capacity = r.vehicle_capacity := by
        rw [hrB2, (recalculateFrom_fields D _ pos).2.2.2.2]
        show rN.vehicle_capacity = r.vehicle_capacity
        exact nncap
      have b2tc : rB2.total_cost = some q := by
        rw [hrB2, recalculateFrom_total_cost]
        show rN.total_cost = some q
        exact nnt
      have b2c : CacheOk D r.customers_lookup rB2.dcache := by
        have hlkr : (insertRollback rN cid pos).customers_lookup = r.customers_lookup := by
          show rN.customers_lookup = r.customers_lookup
          exact nnlk
        rw [← hlkr]
        rw [hrB2]
        exact hc4
      obtain ⟨cv, ct, carr, cc, cids, cdp, cload, cdep, clk, ccap⟩ :=
        calculateCostInplace_spec D rB2
          (by rw [b2lk]; exact hL)
          (by rw [b2lk, b2dep]; exact hdep)
          (by rw [b2lk]; exact b2c)
          (by rw [b2lk, b2dp, b2dep, b2ids]; exact hok)
      have hObs : ObsEq r (calculateCostInplace D rB2).1 := by
        refine ⟨cids.trans b2ids, ?_, cload.trans b2load, cdp.trans b2dp,
          cdep.trans b2dep, clk.trans b2lk, ccap.trans b2cap⟩
        rw [carr, b2lk, b2dp, b2dep, b2ids, ← harr]
      have hRInv : RInv D (calculateCostInplace D rB2).1 := by
        refine rInv_of_obsEq h hObs ?_ ?_
        · rw [← b2lk]
          exact cc
        · exact ⟨_, ct⟩
      have hcond : ¬ ((insertInplace D (getTotalDistance D r).1 cid pos).2 = false) := by
        rw [htrue]
        simp
      simp only [calculateInsertionCost, if_neg hcap, if_neg hcond]
      rw [← hrN, ← hrB2]
      exact ⟨(hval.trans hm.symm : _), hObs, hRInv⟩


theorem bestPosFold_congr (D : DistFn) {r r' : Route} (h : ObsEq r r') (cid : Nat) :
    ∀ (L : List Nat) (b : Option (Nat × ℚ)),
      bestPosFold D r' cid L b = bestPosFold D r cid L b := by
  intro L
  induction L with
  | nil => intro b; rfl
  | cons pos rest ih =>
      intro b
      simp only [bestPosFold]
      rw [insCostMeasure_congr D h cid pos]
      exact ih _

theorem bestFitScan_spec (D : DistFn) (cid : Nat) :
    ∀ (posList : List Nat) (r : Route) (best : Option (Nat × ℚ)),
      RInv D r → (∀ p ∈ posList, p ≤ r.customer_ids.length) →
      (bestFitScan D cid r posList best).2 = bestPosFold D r cid posList best ∧
      ObsEq r (bestFitScan D cid r posList best).1 ∧
      RInv D (bestFitScan D cid r posList best).1 := by
  intro posList
  induction posList with
  | nil => intro r best h _; exact ⟨rfl, obsEq_refl r, h⟩
  | cons pos rest ih =>
      intro r best h hp
      obtain ⟨cicv, cico, cicr⟩ := calculateInsertionCost_spec D r cid pos h
        (hp pos (List.mem_cons_self pos rest))
      simp only [bestFitScan, bestPosFold]
      rw [cicv]
      obtain ⟨ihv, iho, ihr⟩ := ih (calculateInsertionCost D r cid pos).1 _ cicr
        (fun p hpmem => by rw [cico.1]; exact hp p (List.mem_cons_of_mem pos hpmem))
      exact ⟨ihv.trans (bestPosFold_congr D cico cid rest _), obsEq_trans cico iho, ihr⟩


theorem bestPosFold_some (D : DistFn) (r : Route) (cid : Nat) :
    ∀ (L : List Nat) (b : Option (Nat × ℚ)) (pb : Nat × ℚ),
      bestPosFold D r cid L b = some pb →
      b = some pb ∨ (pb.1 ∈ L ∧ insCostMeasure D r cid pb.1 = some pb.2) := by
  intro L
  induction L with
  | nil => intro b pb hf; exact Or.inl hf
  | cons pos rest ih =>
      intro b pb hf
      simp only [bestPosFold] at hf
      rcases hm : insCostMeasure D r cid pos with _ | c <;> rw [hm] at hf
      · change bestPosFold D r cid rest b = some pb at hf
        rcases ih _ pb hf with hb | ⟨hmem, hmeas⟩
        · exact Or.inl hb
        · exact Or.inr ⟨List.mem_cons_of_mem pos hmem, hmeas⟩
      · have hstep : ∀ b2, bestPosFold D r cid rest b2 = some pb → b2 = some (pos, c) →
            b = some pb ∨
              (pb.1 ∈ pos :: rest ∧ insCostMeasure D r cid pb.1 = some pb.2) := by
          intro b2 hf2 hb2
          rcases ih _ pb hf2 with heq | ⟨hmem, hmeas⟩
          · rw [hb2] at heq
            have hpc : (pos, c) = pb := Option.some.inj heq
            refine Or.inr ⟨?_, ?_⟩
            · rw [← hpc]; exact List.mem_cons_self pos rest
            · rw [← hpc]; exact hm
          · exact Or.inr ⟨List.mem_cons_of_mem pos hmem, hmeas⟩
        rcases b with _ | pb0
        · exact hstep _ hf rfl
        · change bestPosFold D r cid rest
            (if c < pb0.2 then some (pos, c) else some pb0) = some pb at hf
          by_cases hlt : c < pb0.2
          · rw [if_pos hlt] at hf
            exact hstep _ hf rfl
          · rw [if_neg hlt] at hf
            rcases ih _ pb hf with heq | ⟨hmem, hmeas⟩
            · exact Or.inl heq
            · exact Or.inr ⟨List.mem_cons_of_mem pos hmem, hmeas⟩

theorem bestPosFold_min (D : DistFn) (r : Route) (cid : Nat) :
    ∀ (L : List Nat) (b : Option (Nat × ℚ)) (pb : Nat × ℚ),
      bestPosFold D r cid L b = some pb →
      (∀ p c, p ∈ L → insCostMeasure D r cid p = some c → pb.2 ≤ c) ∧
      (∀ pb0, b = some pb0 → pb.2 ≤ pb0.2) := by
  intro L
  induction L with
  | nil =>
      intro b pb hf
      have hfb : b = some pb := hf
      refine ⟨fun p c hp _ => absurd hp (List.not_mem_nil p), fun pb0 hb => ?_⟩
      rw [hfb] at hb
      rw [(Option.some.inj hb : pb = pb0)]
  | cons pos rest ih =>
      intro b pb hf
      simp only [bestPosFold] at hf
      rcases hm : insCostMeasure D r cid pos with _ | c <;> rw [hm] at hf
      · change bestPosFold D r cid rest b = some pb at hf
        obtain ⟨ih1, ih2⟩ := ih _ pb hf
        refine ⟨fun p c hp hmeas => ?_, ih2⟩
        rcases List.mem_cons.mp hp with hpe | hpm
        · rw [hpe, hm] at hmeas
          exact absurd hmeas (by simp)
        · exact ih1 p c hpm hmeas
      · have hhead : ∀ (b2 : Option (Nat × ℚ)), bestPosFold D r cid rest b2 = some pb →
            pb.2 ≤ c →
            (∀ p c1, p ∈ pos :: rest → insCostMeasure D r cid p = some c1 → pb.2 ≤ c1) := by
          intro b2 hf2 hc p c1 hp hmeas
          rcases List.mem_cons.mp hp with hpe | hpm
          · rw [hpe, hm] at hmeas
            rw [← (Option.some.inj hmeas : c = c1)]
            exact hc
          · exact (ih _ pb hf2).1 p c1 hpm hmeas
        rcases b with _ | pb0
        · change bestPosFold D r cid rest (some (pos, c)) = some pb at hf
          obtain ⟨ih1, ih2⟩ := ih _ pb hf
          have hc : pb.2 ≤ c := ih2 (pos, c) rfl
          exact ⟨hhead _ hf hc, fun pb0 hb0 => absurd hb0 (by simp)⟩
        · change bestPosFold D r cid rest
            (if c < pb0.2 then some (pos, c) else some pb0) = some pb at hf
          by_cases hlt : c < pb0.2
          · rw [if_pos hlt] at hf
            obtain ⟨ih1, ih2⟩ := ih _ pb hf
            have hc : pb.2 ≤ c := ih2 (pos, c) rfl
            refine ⟨hhead _ hf hc, fun pb1 hb1 => ?_⟩
            rw [← (Option.some.inj hb1 : pb0 = pb1)]
            exact le_of_lt (lt_of_le_of_lt hc hlt)
          · rw [if_neg hlt] at hf
            obtain ⟨ih1, ih2⟩ := ih _ pb hf
            have hc : pb.2 ≤ c := le_trans (ih2 pb0 rfl) (not_lt.mp hlt)
            refine ⟨hhead _ hf hc, fun pb1 hb1 => ?_⟩
            rw [← (Option.some.inj hb1 : pb0 = pb1)]
            exact ih2 pb0 rfl

theorem bestPosFold_none (D : DistFn) (r : Route) (cid : Nat) :
    ∀ (L : List Nat) (b : Option (Nat × ℚ)),
      bestPosFold D r cid L b = none ↔
      (b = none ∧ ∀ p ∈ L, insCostMeasure D r cid p = none) := by
  intro L
  induction L with
  | nil =>
      intro b
      constructor
      · intro hf; exact ⟨hf, fun p hp => absurd hp (List.not_mem_nil p)⟩
      · intro hc; exact hc.1
  | cons pos rest ih =>
      intro b
      simp only [bestPosFold]
      rcases hm : insCostMeasure D r cid pos with _ | c
      · constructor
        · intro hf
          change bestPosFold D r cid rest b = none at hf
          have hc := (ih b).mp hf
          refine ⟨hc.1, fun p hp => ?_⟩
          rcases List.mem_cons.mp hp with hpe | hpm
          · rw [hpe]; exact hm
          · exact hc.2 p hpm
        · intro hc
          show bestPosFold D r cid rest b = none
          exact (ih b).mpr ⟨hc.1, fun p hp => hc.2 p (List.mem_cons_of_mem pos hp)⟩
      · constructor
        · intro hf
          rcases b with _ | pb0
          · change bestPosFold D r cid rest (some (pos, c)) = none at hf
            exact absurd ((ih _).mp hf).1 (by simp)
          · change bestPosFold D r cid rest
              (if c < pb0.2 then some (pos, c) else some pb0) = none at hf
            by_cases hlt : c < pb0.2
            · rw [if_pos hlt] at hf
              exact absurd ((ih _).mp hf).1 (by simp)
            · rw [if_neg hlt] at hf
              exact absurd ((ih _).mp hf).1 (by simp)
        · intro hc
          have := hc.2 pos (List.mem_cons_self pos rest)
          rw [hm] at this
          exact absurd this (by simp)

theorem routeBestPos_some {D : DistFn} {r : Route} {cid : Nat} {pb : Nat × ℚ}
    (h : routeBestPos D r cid = some pb) :
    pb.1 ≤ r.customer_ids.length ∧ insCostMeasure D r cid pb.1 = some pb.2 := by
  rcases bestPosFold_some D r cid _ none pb h with hb | ⟨hmem, hmeas⟩
  · exact absurd hb (by simp)
  · exact ⟨Nat.lt_succ_iff.mp (List.mem_range.mp hmem), hmeas⟩

theorem routeBestPos_min {D : DistFn} {r : Route} {cid : Nat} {pb : Nat × ℚ}
    (h : routeBestPos D r cid = some pb) :
    ∀ p c, p ≤ r.customer_ids.length → insCostMeasure D r cid p = some c → pb.2 ≤ c := by
  intro p c hp hmeas
  exact (bestPosFold_min D r cid _ none pb h).1 p c
    (List.mem_range.mpr (Nat.lt_succ_iff.mpr hp)) hmeas

theorem routeBestPos_none_iff (D : DistFn) (r : Route) (cid : Nat) :
    routeBestPos D r cid = none ↔
      ∀ p, p ≤ r.customer_ids.length → insCostMeasure D r cid p = none := by
  rw [routeBestPos, bestPosFold_none]
  constructor
  · intro hc p hp
    exact hc.2 p (List.mem_range.mpr (Nat.lt_succ_iff.mpr hp))
  · intro hc
    exact ⟨rfl, fun p hp => hc p (Nat.lt_succ_iff.mp (List.mem_range.mp hp))⟩

theorem insCostMeasure_some {D : DistFn} {r : Route} {cid pos : Nat} {c : ℚ}
    (h : insCostMeasure D r cid pos = some c) :
    ¬ (r.vehicle_capacity < r.current_load + (r.customers_lookup cid).demand) ∧
    schedOk D r.customers_lookup r.departure_time r.depot
      (r.customer_ids.insertIdx pos cid) := by
  unfold insCostMeasure at h
  by_cases h1 : r.vehicle_capacity < r.current_load + (r.customers_lookup cid).demand
  · rw [if_pos h1] at h
    exact absurd h (by simp)
  · rw [if_neg h1] at h
    by_cases h2 : schedOk D r.customers_lookup r.departure_time r.depot
        (r.customer_ids.insertIdx pos cid)
    · exact ⟨h1, h2⟩
    · rw [if_neg h2] at h
      exact absurd h (by simp)


theorem tryInsertBestFit_spec (D : DistFn) (r : Route) (cid : Nat) (h : RInv D r) :
    ((tryInsertBestFit D r cid).2 = true ↔ (routeBestPos D r cid).isSome = true) ∧
    (∀ pb, routeBestPos D r cid = some pb →
      (tryInsertBestFit D r cid).1.customer_ids = r.customer_ids.insertIdx pb.1 cid ∧
      (tryInsertBestFit D r cid).1.current_load =
        r.current_load + (r.customers_lookup cid).demand ∧
      RInv D (tryInsertBestFit D r cid).1) ∧
    (routeBestPos D r cid = none →
      ObsEq r (tryInsertBestFit D r cid).1 ∧ RInv D (tryInsertBestFit D r cid).1) := by
  obtain ⟨sv, so, sr⟩ := bestFitScan_spec D cid (List.range (r.customer_ids.length + 1)) r
    none h (fun p hp => Nat.lt_succ_iff.mp (List.mem_range.mp hp))
  have sv' : (bestFitScan D cid r (List.range (r.customer_ids.length + 1)) none).2 =
      routeBestPos D r cid := sv
  obtain ⟨oids, oarr, oload, odp, odep, olk, ocap⟩ := so
  have so' : ObsEq r (bestFitScan D cid r (List.range (r.customer_ids.length + 1)) none).1 :=
    ⟨oids, oarr, oload, odp, odep, olk, ocap⟩
  rcases hbp : routeBestPos D r cid with _ | pb
  · have hres : tryInsertBestFit D r cid =
        ((bestFitScan D cid r (List.range (r.customer_ids.length + 1)) none).1, false) := by
      simp only [tryInsertBestFit]
      rw [sv', hbp]
    rw [hres]
    refine ⟨by simp, ?_, fun _ => ⟨so', sr⟩⟩
    intro pb hpb
    exact absurd hpb (by simp)
  · obtain ⟨hple, hmeas⟩ := routeBestPos_some hbp
    obtain ⟨hcapok, hsched⟩ := insCostMeasure_some hmeas
    have sr' := sr
    obtain ⟨sL, sdep, sC, sarr, sok, q, stc⟩ := sr'
    obtain ⟨iiff, ifalse, itrue, ic, idp, idep, ilk, icap, itc⟩ :=
      insertInplace_spec D (bestFitScan D cid r (List.range (r.customer_ids.length + 1)) none).1
        cid pb.1 sL sdep sC sarr (by rw [oids]; exact hple)
    have hsucc : (insertInplace D
        (bestFitScan D cid r (List.range (r.customer_ids.length + 1)) none).1 cid pb.1).2 =
        true := by
      apply iiff.mpr
      constructor
      · rw [ocap, oload, olk]; exact hcapok
      · rw [olk, odp, odep, oids]; exact hsched
    obtain ⟨rids, rarr, rload⟩ := itrue hsucc
    have hres : tryInsertBestFit D r cid = insertInplace D
        (bestFitScan D cid r (List.range (r.customer_ids.length + 1)) none).1 cid pb.1 := by
      simp only [tryInsertBestFit]
      rw [sv', hbp]
    rw [hres]
    refine ⟨by simp [hsucc], ?_, ?_⟩
    · intro pb' hpb'
      rw [← Option.some.inj hpb']
      refine ⟨?_, ?_, ?_⟩
      · rw [rids, oids]
      · rw [rload, oload, olk]
      · refine ⟨?_, ?_, ?_, ?_, ?_, ?_⟩
        · rw [ilk]; exact sL
        · rw [ilk, idep]; exact sdep
        · rw [ilk]; exact ic
        · rw [rarr, ilk, idp, idep, rids]
        · rw [ilk, idp, idep, rids, oids, olk, odp, odep]
          exact hsched
        · exact ⟨q, itc.trans stc⟩
    · intro hnone
      exact absurd hnone (by simp)


theorem repairOneAux_spec (D : DistFn) (cid : Nat) :
    ∀ (routes : List Route) (n : Nat), (∀ r ∈ routes, RInv D r) →
      (repairOneAux D cid routes n).2 =
        (List.findIdx? (fun r => (routeBestPos D r cid).isSome) routes).map
          (fun i => i + n) := by
  intro routes
  induction routes with
  | nil => intro n _; rfl
  | cons r rest ih =>
      intro n hall
      obtain ⟨tiff, tsome, tnone⟩ :=
        tryInsertBestFit_spec D r cid (hall r (List.mem_cons_self r rest))
      by_cases hs : (routeBestPos D r cid).isSome = true
      · have htr : (tryInsertBestFit D r cid).2 = true := tiff.mpr hs
        have hres : repairOneAux D cid (r :: rest) n =
            ((tryInsertBestFit D r cid).1 :: rest, some n) := by
          simp only [repairOneAux]
          rw [htr]
          simp
        rw [hres, List.findIdx?_cons]
        simp [hs]
      · have hfr : (tryInsertBestFit D r cid).2 = false := by
          cases h2 : (tryInsertBestFit D r cid).2
          · rfl
          · exact absurd (tiff.mp h2) hs
        have hres : repairOneAux D cid (r :: rest) n =
            ((tryInsertBestFit D r cid).1 :: (repairOneAux D cid rest (n + 1)).1,
             (repairOneAux D cid rest (n + 1)).2) := by
          simp only [repairOneAux]
          rw [hfr]
          simp
        rw [hres]
        show (repairOneAux D cid rest (n + 1)).2 = _
        rw [ih (n + 1) (fun r' hr' => hall r' (List.mem_cons_of_mem r hr')),
          List.findIdx?_cons]
        rcases hfi : List.findIdx? (fun r' => (routeBestPos D r' cid).isSome) rest with _ | j <;>
          simp [hs, hfi]
        omega

theorem findIdx_eq_none_iff (p : α → Bool) :
    ∀ (l : List α), List.findIdx? p l = none ↔ ∀ x ∈ l, p x = false := by
  intro l
  induction l with
  | nil => simp
  | cons a t ih =>
      rw [List.findIdx?_cons]
      by_cases hp : p a <;> simp [hp, ih]


/-- C6 (amended): during LNS repair the removed customers are processed
in ascending time-window-width order (`widthLe`, a stable insertion
sort of the removed ids), and each customer is inserted by FIRST-FIT
over the current routes: within one route `_try_insert_customer_best_fit`
commits to the position minimising the insertion measure over positions
`0 .. length`, but the receiving route is the first route in list order
admitting any feasible position - not the route achieving the globally
best insertion cost - and the repair scan reports no route exactly when
no route admits any feasible position (only then is a new route
opened). -/
theorem c6_lns_repair_amended (D : DistFn) (lookup : Lookup) (toRemove : List Nat)
    (r : Route) (cid : Nat) (routes : List Route)
    (h : RInv D r) (hall : ∀ r' ∈ routes, RInv D r') :
    List.Sorted (widthLe lookup) (List.insertionSort (widthLe lookup) toRemove) ∧
    List.Perm (List.insertionSort (widthLe lookup) toRemove) toRemove ∧
    ((tryInsertBestFit D r cid).2 = true ↔
      ∃ p, p ≤ r.customer_ids.length ∧ (insCostMeasure D r cid p).isSome = true) ∧
    (∀ pb, routeBestPos D r cid = some pb →
      (tryInsertBestFit D r cid).1.customer_ids = r.customer_ids.insertIdx pb.1 cid ∧
      insCostMeasure D r cid pb.1 = some pb.2 ∧
      ∀ p c, p ≤ r.customer_ids.length → insCostMeasure D r cid p = some c → pb.2 ≤ c) ∧
    (repairOneAux D cid routes 0).2 =
      List.findIdx? (fun r' => (routeBestPos D r' cid).isSome) routes ∧
    ((repairOneAux D cid routes 0).2 = none ↔
      ∀ r' ∈ routes, routeBestPos D r' cid = none) := by
  obtain ⟨tiff, tsome, tnone⟩ := tryInsertBestFit_spec D r cid h
  have hrep := repairOneAux_spec D cid routes 0 hall
  have hrep0 : (repairOneAux D cid routes 0).2 =
      List.findIdx? (fun r' => (routeBestPos D r' cid).isSome) routes := by
    rw [hrep]
    rcases List.findIdx? (fun r' => (routeBestPos D r' cid).isSome) routes with _ | j <;> simp
  refine ⟨List.sorted_insertionSort _ _, List.perm_insertionSort _ _, ?_, ?_, hrep0, ?_⟩
  · constructor
    · intro htr
      obtain ⟨pb, hpb⟩ := Option.isSome_iff_exists.mp (tiff.mp htr)
      obtain ⟨hple, hmeas⟩ := routeBestPos_some hpb
      exact ⟨pb.1, hple, by rw [hmeas]; rfl⟩
    · rintro ⟨p, hple, hisSome⟩
      apply tiff.mpr
      by_contra hns
      have hnone : routeBestPos D r cid = none := by
        rcases hx : routeBestPos D r cid with _ | pb
        · rfl
        · exact absurd (by rw [hx]; rfl) hns
      have hmn := (routeBestPos_none_iff D r cid).mp hnone p hple
      rw [hmn] at hisSome
      exact absurd hisSome (by simp)
  · intro pb hpb
    obtain ⟨hids, _, _⟩ := tsome pb hpb
    obtain ⟨hple, hmeas⟩ := routeBestPos_some hpb
    exact ⟨hids, hmeas, routeBestPos_min hpb⟩
  · rw [hrep0, findIdx_eq_none_iff]
    constructor
    · intro hn r' hr'
      have h1 := hn r' hr'
      rcases hx : routeBestPos D r' cid with _ | pb
      · rfl
      · rw [hx] at h1
        exact absurd h1 (by simp)
    · intro hn r' hr'
      rw [hn r' hr']
      rfl


/-- C6 counterexample: reinserting customer 3 into the two consistent
routes `[1]` and `[2]` (the post-destroy state of the two-route LNS
instance), the globally best insertion - the claim's policy, evaluated
with the code's own per-position insertion measure - is in route
index 1 at position 0 with cost −9 (versus 0 anywhere in route 0), yet
the code's first-fit repair scan inserts customer 3 into route index 0,
leaving routes `[[3, 1], [2]]`. -/
theorem c6_lns_repair_counterexample :
    claimGlobalBest lineD [exRoute6a, exRoute6c] 3 = some (1, 0, -9) ∧
    (repairOneAux lineD 3 [exRoute6a, exRoute6c] 0).2 = some 0 ∧
    ((repairOneAux lineD 3 [exRoute6a, exRoute6c] 0).1.map Route.customer_ids) =
      [[3, 1], [2]] := by
  refine ⟨?_, ?_, ?_⟩
  · norm_num [List.enum, List.enumFrom, List.range_succ, List.range_zero, List.foldl_append,
      List.foldl_cons, List.foldl_nil, List.insertIdx_zero, List.insertIdx_succ_cons,
      List.eraseIdx, claimGlobalBest, insCostMeasure, schedOk, schedList, travelSum, legsSum,
      exRoute6a, exRoute6c, exLookup6, lineD, abs]
  · norm_num [List.enum, List.enumFrom, List.range_succ, List.range_zero, List.foldl_append,
      List.foldl_cons, List.foldl_nil, List.insertIdx_zero, List.insertIdx_succ_cons,
      List.eraseIdx, repairOneAux, tryInsertBestFit, bestFitScan, calculateInsertionCost,
      insertInplace, insertTrial, insertRollback, isFeasible, recalculateFrom, recalcAux,
      calculateCostInplace, calcAux, getTotalDistance, midLegs, getDist, cacheFind,
      cadd, csub, cmul, exRoute6a, exRoute6c, exLookup6, lineD, abs]
  · norm_num [List.enum, List.enumFrom, List.range_succ, List.range_zero, List.foldl_append,
      List.foldl_cons, List.foldl_nil, List.insertIdx_zero, List.insertIdx_succ_cons,
      List.eraseIdx, repairOneAux, tryInsertBestFit, bestFitScan, calculateInsertionCost,
      insertInplace, insertTrial, insertRollback, isFeasible, recalculateFrom, recalcAux,
      calculateCostInplace, calcAux, getTotalDistance, midLegs, getDist, cacheFind,
      cadd, csub, cmul, exRoute6a, exRoute6c, exLookup6, lineD, abs]


theorem exRoute3_rinv : RInv lineD exRoute3 := by
  refine ⟨exLookup3_ok, rfl, ?_, ?_, ?_, ⟨10, rfl⟩⟩
  · intro e he
    cases he
  · norm_num [exRoute3, schedFinals, schedList, exLookup3, lineD, abs]
  · norm_num [schedOk, exRoute3, schedList, exLookup3, lineD, abs]

theorem c6_lns_repair_amended_witness :
    (repairOneAux lineD 2 [exRoute3] 0).2 =
      List.findIdx? (fun r' => (routeBestPos lineD r' 2).isSome) [exRoute3] :=
  (c6_lns_repair_amended lineD exLookup3 [1] exRoute3 2 [exRoute3] exRoute3_rinv
    (fun r' hr' => by rw [List.mem_singleton.mp hr']; exact exRoute3_rinv)).2.2.2.2.1


/-- C4 counterexample: on the one-route solution `[[1]]` with
`fixed_remove_count = 1`, the operator removes customer 1, drops the
emptied route, and returns `False` from the `routes2 = []` branch
without restoring anything: the observable route list has changed from
`[[1]]` to `[]`. -/
theorem c4_lns_rollback_counterexample :
    (lnsDestroyRepair lineD 0 1 exSolution4 (3/20) (some 1)).2 = false ∧
    exSolution4.routes.map Route.customer_ids = [[1]] ∧
    (lnsDestroyRepair lineD 0 1 exSolution4 (3/20) (some 1)).1.routes.map
      Route.customer_ids = [] := by
  refine ⟨?_, rfl, ?_⟩ <;>
    norm_num [List.enum, List.enumFrom, List.range_succ, List.range_zero,
      List.foldl_append, List.foldl_cons, List.foldl_nil, List.insertIdx_zero,
      List.insertIdx_succ_cons, List.eraseIdx, lnsDestroyRepair, updateCost,
      recalculatePenalizedCost, calcAllRoutes, sumTotalDistances, calculateCostInplace,
      calcAux, getDist, cacheFind, getTotalDistance, midLegs, relatedRemoval,
      expandRemoval, nearestCandidate, destroyAll, removeFromFirstRoute, recalculateFrom,
      recalcAux, cadd, csub, cmul, cltB, List.indexOf, List.findIdx_cons,
      List.findIdx_nil, List.flatten, exSolution4, exRoute4, exLookup6, lineD, abs]

/-- C4 (amended): the operator performs no rollback - when it returns
`False` the solution keeps whatever mutations the destroy/repair phases
made (see the counterexample) - but the acceptance direction of the
claim does hold: whenever `lns_destroy_repair` returns `True`, the
stored penalized objective of the returned solution is strictly below
the pre-call penalized objective minus `1e-6` (in particular, for
finite costs, `new < old - 1e-6`). -/
theorem c4_lns_acceptance (D : DistFn) (choiceIdx fuel : Nat) (s : Solution)
    (frac : ℚ) (fixed : Option Nat)
    (h : (lnsDestroyRepair D choiceIdx fuel s frac fixed).2 = true) :
    cltB (lnsDestroyRepair D choiceIdx fuel s frac fixed).1.total_cost
      (csub (updateCost D s none).total_cost (some (1/1000000))) = true ∧
    ∀ a b, (lnsDestroyRepair D choiceIdx fuel s frac fixed).1.total_cost = some a →
      (updateCost D s none).total_cost = some b → a < b - 1/1000000 := by
  have hmain : cltB (lnsDestroyRepair D choiceIdx fuel s frac fixed).1.total_cost
      (csub (updateCost D s none).total_cost (some (1/1000000))) = true := by
    simp only [lnsDestroyRepair] at h ⊢
    by_cases h1 : s.routes.isEmpty = true
    · rw [if_pos h1] at h
      exact absurd h (by simp)
    · rw [if_neg h1] at h ⊢
      by_cases h2 : (relatedRemoval D choiceIdx (updateCost D s none) frac fixed).isEmpty =
          true
      · rw [if_pos h2] at h
        exact absurd h (by simp)
      · rw [if_neg h2] at h ⊢
        rcases hm : (destroyAll D (relatedRemoval D choiceIdx (updateCost D s none)
            frac fixed) (updateCost D s none).routes).filter
            (fun r => decide (0 < r.customer_ids.length)) with _ | ⟨r0, rest⟩
        · simp only [hm] at h
          exact absurd h (by simp)
        · simp only [hm] at h ⊢
          by_cases h3 : (repairAll D r0.depot r0.vehicle_capacity r0.customers_lookup
              (List.insertionSort (widthLe r0.customers_lookup)
                (relatedRemoval D choiceIdx (updateCost D s none) frac fixed))
              (r0 :: rest) []).2.2 = false
          · rw [if_pos h3] at h
            exact absurd h (by simp)
          · rw [if_neg h3] at h ⊢
            exact h
  refine ⟨hmain, ?_⟩
  intro a b ha hb
  rw [ha, hb] at hmain
  simp only [csub] at hmain
  simp only [cltB] at hmain
  exact of_decide_eq_true hmain


theorem c4_lns_acceptance_witness :
    cltB (lnsDestroyRepair lineD 2 0 exSolution6 (3/20) (some 1)).1.total_cost
      (csub (updateCost lineD exSolution6 none).total_cost (some (1/1000000))) = true :=
  (c4_lns_acceptance lineD 2 0 exSolution6 (3/20) (some 1) (by
    norm_num [List.enum, List.enumFrom, List.range_succ, List.range_zero,
      List.foldl_append, List.foldl_cons, List.foldl_nil, List.insertIdx_zero,
      List.insertIdx_succ_cons, List.eraseIdx, lnsDestroyRepair, updateCost,
      recalculatePenalizedCost, calcAllRoutes, sumTotalDistances, calculateCostInplace,
      calcAux, getDist, cacheFind, getTotalDistance, midLegs, relatedRemoval,
      expandRemoval, nearestCandidate, destroyAll, removeFromFirstRoute, recalculateFrom,
      recalcAux, repairAll, repairOneAux, tryInsertBestFit, bestFitScan,
      calculateInsertionCost, insertInplace, insertTrial, insertRollback, isFeasible,
      polishTouched, twoOptLoop, widthLe, List.insertionSort, List.orderedInsert,
      cadd, csub, cmul, cltB, cgt10, improveGtB, List.indexOf, List.findIdx_cons,
      List.findIdx_nil, List.flatten, exSolution6, exRoute6a, exRoute6b, exLookup6,
      lineD, abs])).1


theorem scanPositions_some (measure : Route → Nat → Cost) (r : Route) (ridx : Nat) :
    ∀ (L : List Nat) (acc : Option (Nat × Nat × ℚ)) (t : Nat × Nat × ℚ),
      scanPositions measure r ridx L acc = some t →
      acc = some t ∨ (t.1 = ridx ∧ t.2.1 ∈ L ∧ measure r t.2.1 = some t.2.2) := by
  intro L
  induction L with
  | nil => intro acc t hf; exact Or.inl hf
  | cons pos rest ih =>
      intro acc t hf
      simp only [scanPositions] at hf
      rcases hm : measure r pos with _ | c <;> rw [hm] at hf
      · change scanPositions measure r ridx rest acc = some t at hf
        rcases ih _ t hf with hb | hrest
        · exact Or.inl hb
        · exact Or.inr ⟨hrest.1, List.mem_cons_of_mem pos hrest.2.1, hrest.2.2⟩
      · have hstep : ∀ a2, scanPositions measure r ridx rest a2 = some t →
            a2 = some (ridx, pos, c) →
            acc = some t ∨ (t.1 = ridx ∧ t.2.1 ∈ pos :: rest ∧ measure r t.2.1 = some t.2.2) := by
          intro a2 hf2 ha2
          rcases ih _ t hf2 with heq | hrest
          · rw [ha2] at heq
            have hpc : (ridx, pos, c) = t := Option.some.inj heq
            refine Or.inr ⟨?_, ?_, ?_⟩
            · rw [← hpc]
            · rw [← hpc]; exact List.mem_cons_self pos rest
            · rw [← hpc]; exact hm
          · exact Or.inr ⟨hrest.1, List.mem_cons_of_mem pos hrest.2.1, hrest.2.2⟩
        rcases acc with _ | t0
        · exact hstep _ hf rfl
        · change scanPositions measure r ridx rest
            (if c < t0.2.2 then some (ridx, pos, c) else some t0) = some t at hf
          by_cases hlt : c < t0.2.2
          · rw [if_pos hlt] at hf
            exact hstep _ hf rfl
          · rw [if_neg hlt] at hf
            rcases ih _ t hf with heq | hrest
            · exact Or.inl heq
            · exact Or.inr ⟨hrest.1, List.mem_cons_of_mem pos hrest.2.1, hrest.2.2⟩

theorem scanPositions_min (measure : Route → Nat → Cost) (r : Route) (ridx : Nat) :
    ∀ (L : List Nat) (acc : Option (Nat × Nat × ℚ)) (t : Nat × Nat × ℚ),
      scanPositions measure r ridx L acc = some t →
      (∀ pos c, pos ∈ L → measure r pos = some c → t.2.2 ≤ c) ∧
      (∀ t0, acc = some t0 → t.2.2 ≤ t0.2.2) := by
  intro L
  induction L with
  | nil =>
      intro acc t hf
      have hfb : acc = some t := hf
      refine ⟨fun pos c hp _ => absurd hp (List.not_mem_nil pos), fun t0 hb => ?_⟩
      rw [hfb] at hb
      rw [(Option.some.inj hb : t = t0)]
  | cons pos rest ih =>
      intro acc t hf
      simp only [scanPositions] at hf
      rcases hm : measure r pos with _ | c <;> rw [hm] at hf
      · change scanPositions measure r ridx rest acc = some t at hf
        obtain ⟨ih1, ih2⟩ := ih _ t hf
        refine ⟨fun p c hp hmeas => ?_, ih2⟩
        rcases List.mem_cons.mp hp with hpe | hpm
        · rw [hpe, hm] at hmeas
          exact absurd hmeas (by simp)
        · exact ih1 p c hpm hmeas
      · have hhead : ∀ a2, scanPositions measure r ridx rest a2 = some t →
            t.2.2 ≤ c →
            (∀ p c1, p ∈ pos :: rest → measure r p = some c1 → t.2.2 ≤ c1) := by
          intro a2 hf2 hc p c1 hp hmeas
          rcases List.mem_cons.mp hp with hpe | hpm
          · rw [hpe, hm] at hmeas
            rw [← (Option.some.inj hmeas : c = c1)]
            exact hc
          · exact (ih _ t hf2).1 p c1 hpm hmeas
        rcases acc with _ | t0
        · change scanPositions measure r ridx rest (some (ridx, pos, c)) = some t at hf
          obtain ⟨ih1, ih2⟩ := ih _ t hf
          have hc : t.2.2 ≤ c := ih2 (ridx, pos, c) rfl
          exact ⟨hhead _ hf hc, fun t0 hb0 => absurd hb0 (by simp)⟩
        · change scanPositions measure r ridx rest
            (if c < t0.2.2 then some (ridx, pos, c) else some t0) = some t at hf
          by_cases hlt : c < t0.2.2
          · rw [if_pos hlt] at hf
            obtain ⟨ih1, ih2⟩ := ih _ t hf
            have hc : t.2.2 ≤ c := ih2 (ridx, pos, c) rfl
            refine ⟨hhead _ hf hc, fun t1 hb1 => ?_⟩
            rw [← (Option.some.inj hb1 : t0 = t1)]
            exact le_of_lt (lt_of_le_of_lt hc hlt)
          · rw [if_neg hlt] at hf
            obtain ⟨ih1, ih2⟩ := ih _ t hf
            have hc : t.2.2 ≤ c := le_trans (ih2 t0 rfl) (not_lt.mp hlt)
            refine ⟨hhead _ hf hc, fun t1 hb1 => ?_⟩
            rw [← (Option.some.inj hb1 : t0 = t1)]
            exact ih2 t0 rfl

theorem scanPositions_none (measure : Route → Nat → Cost) (r : Route) (ridx : Nat) :
    ∀ (L : List Nat) (acc : Option (Nat × Nat × ℚ)),
      scanPositions measure r ridx L acc = none ↔
      (acc = none ∧ ∀ pos ∈ L, measure r pos = none) := by
  intro L
  induction L with
  | nil =>
      intro acc
      constructor
      · intro hf; exact ⟨hf, fun pos hp => absurd hp (List.not_mem_nil pos)⟩
      · intro hc; exact hc.1
  | cons pos rest ih =>
      intro acc
      simp only [scanPositions]
      rcases hm : measure r pos with _ | c
      · constructor
        · intro hf
          change scanPositions measure r ridx rest acc = none at hf
          have hc := (ih acc).mp hf
          refine ⟨hc.1, fun p hp => ?_⟩
          rcases List.mem_cons.mp hp with hpe | hpm
          · rw [hpe]; exact hm
          · exact hc.2 p hpm
        · intro hc
          show scanPositions measure r ridx rest acc = none
          exact (ih acc).mpr ⟨hc.1, fun p hp => hc.2 p (List.mem_cons_of_mem pos hp)⟩
      · constructor
        · intro hf
          rcases acc with _ | t0
          · change scanPositions measure r ridx rest (some (ridx, pos, c)) = none at hf
            exact absurd ((ih _).mp hf).1 (by simp)
          · change scanPositions measure r ridx rest
              (if c < t0.2.2 then some (ridx, pos, c) else some t0) = none at hf
            by_cases hlt : c < t0.2.2
            · rw [if_pos hlt] at hf
              exact absurd ((ih _).mp hf).1 (by simp)
            · rw [if_neg hlt] at hf
              exact absurd ((ih _).mp hf).1 (by simp)
        · intro hc
          have := hc.2 pos (List.mem_cons_self pos rest)
          rw [hm] at this
          exact absurd this (by simp)


theorem scanRoutes_some (measure : Route → Nat → Cost) (dummy : Route) :
    ∀ (routes : List Route) (i : Nat) (acc : Option (Nat × Nat × ℚ)) (t : Nat × Nat × ℚ),
      scanRoutes measure routes i acc = some t →
      acc = some t ∨ (∃ k, k < routes.length ∧ t.1 = i + k ∧
        t.2.1 ≤ (routes.getD k dummy).customer_ids.length ∧
        measure (routes.getD k dummy) t.2.1 = some t.2.2) := by
  intro routes
  induction routes with
  | nil => intro i acc t hf; exact Or.inl hf
  | cons r rest ih =>
      intro i acc t hf
      have hf1 : scanRoutes measure rest (i + 1)
          (scanPositions measure r i (List.range (r.customer_ids.length + 1)) acc) =
          some t := hf
      rcases ih (i + 1) _ t hf1 with h1 | ⟨k, hk, hik, hple, hmeas⟩
      · rcases scanPositions_some measure r i _ acc t h1 with h2 | ⟨hr, hmem, hmeas⟩
        · exact Or.inl h2
        · refine Or.inr ⟨0, Nat.succ_pos _, by omega, ?_, ?_⟩
          · show t.2.1 ≤ r.customer_ids.length
            exact Nat.lt_succ_iff.mp (List.mem_range.mp hmem)
          · show measure r t.2.1 = some t.2.2
            exact hmeas
      · refine Or.inr ⟨k + 1, Nat.succ_lt_succ hk, by omega, ?_, ?_⟩
        · show t.2.1 ≤ (rest.getD k dummy).customer_ids.length
          exact hple
        · show measure (rest.getD k dummy) t.2.1 = some t.2.2
          exact hmeas

theorem scanRoutes_none (measure : Route → Nat → Cost) (dummy : Route) :
    ∀ (routes : List Route) (i : Nat) (acc : Option (Nat × Nat × ℚ)),
      scanRoutes measure routes i acc = none ↔
      (acc = none ∧ ∀ k, k < routes.length →
        ∀ pos, pos ≤ (routes.getD k dummy).customer_ids.length →
          measure (routes.getD k dummy) pos = none) := by
  intro routes
  induction routes with
  | nil =>
      intro i acc
      constructor
      · intro hf; exact ⟨hf, fun k hk => absurd hk (Nat.not_lt_zero k)⟩
      · intro hc; exact hc.1
  | cons r rest ih =>
      intro i acc
      constructor
      · intro hf
        have hf1 : scanRoutes measure rest (i + 1)
            (scanPositions measure r i (List.range (r.customer_ids.length + 1)) acc) =
            none := hf
        obtain ⟨h1, h2⟩ := (ih (i + 1) _).mp hf1
        obtain ⟨h3, h4⟩ := (scanPositions_none measure r i _ acc).mp h1
        refine ⟨h3, fun k hk pos hpos => ?_⟩
        cases k with
        | zero =>
            exact h4 pos (List.mem_range.mpr (Nat.lt_succ_iff.mpr hpos))
        | succ k2 =>
            exact h2 k2 (Nat.lt_of_succ_lt_succ hk) pos hpos
      · intro hc
        show scanRoutes measure rest (i + 1)
          (scanPositions measure r i (List.range (r.customer_ids.length + 1)) acc) = none
        refine (ih (i + 1) _).mpr ⟨?_, ?_⟩
        · refine (scanPositions_none measure r i _ acc).mpr ⟨hc.1, fun pos hp => ?_⟩
          have := hc.2 0 (Nat.succ_pos _) pos (Nat.lt_succ_iff.mp (List.mem_range.mp hp))
          exact this
        · intro k hk pos hpos
          exact hc.2 (k + 1) (Nat.succ_lt_succ hk) pos hpos

theorem scanRoutes_min (measure : Route → Nat → Cost) (dummy : Route) :
    ∀ (routes : List Route) (i : Nat) (acc : Option (Nat × Nat × ℚ)) (t : Nat × Nat × ℚ),
      scanRoutes measure routes i acc = some t →
      (∀ k pos c, k < routes.length → pos ≤ (routes.getD k dummy).customer_ids.length →
        measure (routes.getD k dummy) pos = some c → t.2.2 ≤ c) ∧
      (∀ t0, acc = some t0 → t.2.2 ≤ t0.2.2) := by
  intro routes
  induction routes with
  | nil =>
      intro i acc t hf
      have hfb : acc = some t := hf
      refine ⟨fun k pos c hk _ _ => absurd hk (Nat.not_lt_zero k), fun t0 hb => ?_⟩
      rw [hfb] at hb
      rw [(Option.some.inj hb : t = t0)]
  | cons r rest ih =>
      intro i acc t hf
      have hf1 : scanRoutes measure rest (i + 1)
          (scanPositions measure r i (List.range (r.customer_ids.length + 1)) acc) =
          some t := hf
      obtain ⟨ih1, ih2⟩ := ih (i + 1) _ t hf1
      have hpropagate : ∀ c1, (∃ pos, pos ∈ List.range (r.customer_ids.length + 1) ∧
          measure r pos = some c1) → t.2.2 ≤ c1 := by
        intro c1 ⟨pos, hmem, hmeas⟩
        rcases hsp : scanPositions measure r i (List.range (r.customer_ids.length + 1)) acc
          with _ | t1
        · obtain ⟨-, hall⟩ := (scanPositions_none measure r i _ acc).mp hsp
          have := hall pos hmem
          rw [hmeas] at this
          exact absurd this (by simp)
        · have h1 := (scanPositions_min measure r i _ acc t1 hsp).1 pos c1 hmem hmeas
          have h2 := ih2 t1 (by rw [hsp])
          exact le_trans h2 h1
      refine ⟨fun k pos c hk hpos hmeas => ?_, fun t0 hb => ?_⟩
      · cases k with
        | zero =>
            exact hpropagate c ⟨pos, List.mem_range.mpr (Nat.lt_succ_iff.mpr hpos), hmeas⟩
        | succ k2 =>
            exact ih1 k2 pos c (Nat.lt_of_succ_lt_succ hk) hpos hmeas
      · rcases hsp : scanPositions measure r i (List.range (r.customer_ids.length + 1)) acc
          with _ | t1
        · obtain ⟨haccn, -⟩ := (scanPositions_none measure r i _ acc).mp hsp
          rw [haccn] at hb
          exact absurd hb (by simp)
        · have h1 := (scanPositions_min measure r i _ acc t1 hsp).2 t0 hb
          have h2 := ih2 t1 (by rw [hsp])
          exact le_trans h2 h1


theorem insertInplace_ids (D : DistFn) (r : Route) (cid pos : Nat) :
    ((insertInplace D r cid pos).2 = true →
      (insertInplace D r cid pos).1.customer_ids = r.customer_ids.insertIdx pos cid) ∧
    ((insertInplace D r cid pos).2 = false →
      (insertInplace D r cid pos).1.customer_ids = r.customer_ids) := by
  by_cases hcap : r.vehicle_capacity < r.current_load + (r.customers_lookup cid).demand
  · have hres : insertInplace D r cid pos = (r, false) := by
      simp [insertInplace, if_pos hcap]
    rw [hres]
    exact ⟨fun h => absurd h (by simp), fun _ => rfl⟩
  · by_cases hfeas : isFeasible (recalculateFrom D (insertTrial r cid pos) pos) = true
    · have hres : insertInplace D r cid pos =
          (recalculateFrom D (insertTrial r cid pos) pos, true) := by
        simp [insertInplace, if_neg hcap, hfeas]
      rw [hres]
      refine ⟨fun _ => ?_, fun h => absurd h (by simp)⟩
      rw [recalculateFrom_customer_ids]
      rfl
    · have hres : insertInplace D r cid pos =
          (recalculateFrom D (insertRollback (recalculateFrom D (insertTrial r cid pos) pos)
            cid pos) pos, false) := by
        simp [insertInplace, if_neg hcap, hfeas]
      rw [hres]
      refine ⟨fun h => absurd h (by simp), fun _ => ?_⟩
      rw [recalculateFrom_customer_ids]
      show (recalculateFrom D (insertTrial r cid pos) pos).customer_ids.eraseIdx pos =
        r.customer_ids
      rw [recalculateFrom_customer_ids]
      show (r.customer_ids.insertIdx pos cid).eraseIdx pos = r.customer_ids
      exact List.eraseIdx_insertIdx pos r.customer_ids

theorem calculateCostInplace_ids (D : DistFn) (r : Route) :
    (calculateCostInplace D r).1.customer_ids = r.customer_ids := by
  by_cases h : r.customer_ids.isEmpty
  · simp only [calculateCostInplace, if_pos h]
  · simp only [calculateCostInplace, if_neg h]
    rcases hx : calcAux D r.customers_lookup r.dcache r.departure_time r.depot 0 r.customer_ids
      (if r.arrival_times.length ≠ r.customer_ids.length
        then List.replicate r.customer_ids.length (0 : ℚ) else r.arrival_times)
      with ⟨c2, a2, res⟩
    rcases res with _ | ⟨acc, last⟩ <;> rfl

theorem mihFallback_ids (D : DistFn) (depot : Customer) (cap : Int) (lookup : Lookup)
    (cust : Customer) :
    (mihFallback D depot cap lookup cust).customer_ids = [cust.id] := by
  unfold mihFallback
  rw [calculateCostInplace_ids]

theorem set_getD_eq (d : α) : ∀ (l : List α) (i : Nat), i < l.length →
    l.set i (l.getD i d) = l := by
  intro l
  induction l with
  | nil => intro i hi; exact absurd hi (by simp)
  | cons a rest ih =>
      intro i hi
      cases i with
      | zero => rfl
      | succ j =>
          simp only [List.set_cons_succ, List.getD_cons_succ]
          rw [ih j (Nat.lt_of_succ_lt_succ hi)]

theorem map_getD_eq (f : α → β) (d : α) (d2 : β) : ∀ (l : List α) (i : Nat), i < l.length →
    (l.map f).getD i d2 = f (l.getD i d) := by
  intro l
  induction l with
  | nil => intro i hi; exact absurd hi (by simp)
  | cons a rest ih =>
      intro i hi
      cases i with
      | zero => rfl
      | succ j => exact ih j (Nat.lt_of_succ_lt_succ hi)


/-- C8 (amended): the constructor processes customers in ascending
order of `(due_date, dist(depot, c))` (a stable insertion sort); the
best-insertion scan returns a minimiser of the SHALLOW measure
`calculate_true_insertion_cost` - which checks only the inserted
customer's window and the immediate next customer's, not deeper
propagation - over all routes and positions (first hit on ties), and it
returns `none` exactly when no position is shallow-feasible; when the
scan's best cost does not exceed `dist(depot,c) + dist(c,depot) + 1000`
the customer is committed to the scan's best position if
`insert_inplace` accepts it, but when the commit FAILS (the shallow
measure having missed a downstream violation) an emergency fallback
appends a dedicated new route even though the threshold rule forbade
one; when the threshold is exceeded (or no position is
shallow-feasible, or there are no routes yet) a new route holding the
customer alone is appended. -/
theorem c8_mih_construction_amended (D : DistFn) (depot : Customer) (cap : Int)
    (lookup : Lookup) (customers : List Customer) (routes : List Route) (cust : Customer) :
    List.Sorted (mihLe D depot) (List.insertionSort (mihLe D depot) customers) ∧
    List.Perm (List.insertionSort (mihLe D depot) customers) customers ∧
    (∀ t, mihBest D cust routes = some t →
      t.1 < routes.length ∧
      t.2.1 ≤ (routes.getD t.1 (Route.init depot cap lookup)).customer_ids.length ∧
      trueInsertionCost D (routes.getD t.1 (Route.init depot cap lookup)) cust t.2.1 =
        some t.2.2 ∧
      ∀ k pos c, k < routes.length →
        pos ≤ (routes.getD k (Route.init depot cap lookup)).customer_ids.length →
        trueInsertionCost D (routes.getD k (Route.init depot cap lookup)) cust pos =
          some c → t.2.2 ≤ c) ∧
    (mihBest D cust routes = none ↔
      ∀ k, k < routes.length →
        ∀ pos, pos ≤ (routes.getD k (Route.init depot cap lookup)).customer_ids.length →
          trueInsertionCost D (routes.getD k (Route.init depot cap lookup)) cust pos =
            none) ∧
    (∀ t, routes ≠ [] → mihBest D cust routes = some t →
      ¬ (D depot cust + D cust depot + 1000 < t.2.2) →
      ((insertInplace D (routes.getD t.1 (Route.init depot cap lookup)) cust.id
          t.2.1).2 = true →
        (mihStep D depot cap lookup routes cust).map Route.customer_ids =
          (routes.map Route.customer_ids).set t.1
            ((routes.getD t.1 (Route.init depot cap lookup)).customer_ids.insertIdx
              t.2.1 cust.id)) ∧
      ((insertInplace D (routes.getD t.1 (Route.init depot cap lookup)) cust.id
          t.2.1).2 = false →
        (mihStep D depot cap lookup routes cust).map Route.customer_ids =
          routes.map Route.customer_ids ++ [[cust.id]])) ∧
    (∀ t, routes ≠ [] → mihBest D cust routes = some t →
      D depot cust + D cust depot + 1000 < t.2.2 →
      (insertInplace D (Route.init depot cap lookup) cust.id 0).2 = true →
      (mihStep D depot cap lookup routes cust).map Route.customer_ids =
        routes.map Route.customer_ids ++ [[cust.id]]) ∧
    (routes = [] →
      (insertInplace D (Route.init depot cap lookup) cust.id 0).2 = true →
      (mihStep D depot cap lookup routes cust).map Route.customer_ids = [[cust.id]]) := by
  have hbestprop : ∀ t, mihBest D cust routes = some t →
      t.1 < routes.length ∧
      t.2.1 ≤ (routes.getD t.1 (Route.init depot cap lookup)).customer_ids.length ∧
      trueInsertionCost D (routes.getD t.1 (Route.init depot cap lookup)) cust t.2.1 =
        some t.2.2 ∧
      ∀ k pos c, k < routes.length →
        pos ≤ (routes.getD k (Route.init depot cap lookup)).customer_ids.length →
        trueInsertionCost D (routes.getD k (Route.init depot cap lookup)) cust pos =
          some c → t.2.2 ≤ c := by
    intro t ht
    rcases scanRoutes_some (fun r pos => trueInsertionCost D r cust pos)
        (Route.init depot cap lookup) routes 0 none t ht with habs | ⟨k, hk, hik, hple, hmeas⟩
    · exact absurd habs (by simp)
    · have hk0 : t.1 = k := by omega
      refine ⟨by rw [hk0]; exact hk, by rw [hk0]; exact hple, by rw [hk0]; exact hmeas, ?_⟩
      exact (scanRoutes_min (fun r pos => trueInsertionCost D r cust pos)
        (Route.init depot cap lookup) routes 0 none t ht).1
  refine ⟨List.sorted_insertionSort _ _, List.perm_insertionSort _ _, hbestprop, ?_, ?_, ?_, ?_⟩
  · constructor
    · intro hn
      have := (scanRoutes_none (fun r pos => trueInsertionCost D r cust pos)
        (Route.init depot cap lookup) routes 0 none).mp hn
      exact this.2
    · intro hall
      exact (scanRoutes_none (fun r pos => trueInsertionCost D r cust pos)
        (Route.init depot cap lookup) routes 0 none).mpr ⟨rfl, hall⟩
  · intro t hne ht hnlt
    have hemp : routes.isEmpty = false := by
      rcases routes with _ | ⟨a, b⟩
      · exact absurd rfl hne
      · rfl
    have hstep : mihStep D depot cap lookup routes cust =
        (let ins := insertInplace D (routes.getD t.1 (Route.init depot cap lookup))
          cust.id t.2.1
         if ins.2 then routes.set t.1 ins.1
         else (routes.set t.1 ins.1) ++ [mihFallback D depot cap lookup cust]) := by
      simp only [mihStep, hemp, ht, Bool.false_eq_true, if_false, decide_eq_false hnlt]
    constructor
    · intro htr
      rw [hstep]
      simp only [htr, if_true]
      rw [List.map_set]
      rw [(insertInplace_ids D (routes.getD t.1 (Route.init depot cap lookup))
        cust.id t.2.1).1 htr]
    · intro hfa
      rw [hstep]
      simp only [hfa, Bool.false_eq_true, if_false]
      rw [List.map_append, List.map_set]
      rw [(insertInplace_ids D (routes.getD t.1 (Route.init depot cap lookup))
        cust.id t.2.1).2 hfa]
      have hlt := (hbestprop t ht).1
      have hgd : (routes.map Route.customer_ids).set t.1
          ((routes.getD t.1 (Route.init depot cap lookup)).customer_ids) =
          routes.map Route.customer_ids := by
        have h1 : (routes.getD t.1 (Route.init depot cap lookup)).customer_ids =
            (routes.map Route.customer_ids).getD t.1 [] := by
          rw [map_getD_eq Route.customer_ids (Route.init depot cap lookup) [] routes t.1 hlt]
        rw [h1]
        exact set_getD_eq [] (routes.map Route.customer_ids) t.1 (by simpa using hlt)
      rw [hgd]
      simp [mihFallback_ids]
  · intro t hne ht hlt htr
    have hemp : routes.isEmpty = false := by
      rcases routes with _ | ⟨a, b⟩
      · exact absurd rfl hne
      · rfl
    have hstep : mihStep D depot cap lookup routes cust =
        (let ins := insertInplace D (Route.init depot cap lookup) cust.id 0
         if ins.2 then routes ++ [ins.1]
         else (routes ++ [ins.1]) ++ [mihFallback D depot cap lookup cust]) := by
      simp only [mihStep, hemp, ht, Bool.false_eq_true, if_false, decide_eq_true hlt,
        if_true]
    rw [hstep]
    simp only [htr, if_true]
    rw [List.map_append]
    simp only [List.map_cons, List.map_nil]
    rw [(insertInplace_ids D (Route.init depot cap lookup) cust.id 0).1 htr]
    rfl
  · intro hnil htr
    subst hnil
    have hstep : mihStep D depot cap lookup [] cust =
        (let ins := insertInplace D (Route.init depot cap lookup) cust.id 0
         if ins.2 then [] ++ [ins.1]
         else ([] ++ [ins.1]) ++ [mihFallback D depot cap lookup cust]) := by
      simp only [mihStep, List.isEmpty_nil, if_true]
    rw [hstep]
    simp only [htr, if_true]
    simp only [List.nil_append, List.map_cons, List.map_nil]
    rw [(insertInplace_ids D (Route.init depot cap lookup) cust.id 0).1 htr]
    rfl


set_option maxHeartbeats 8000000 in
/-- C8 counterexample: with the five-point instance of `dist8` the
processing order is customer 1, 2, 3, 4; after the first three steps
the constructor holds the single route `[1, 2, 3]`; the best-insertion
scan for customer 4 returns position 1 of route 0 at shallow cost 20,
which does NOT exceed `dist(depot,4) + dist(4,depot) + 1000 = 1026` -
so the claim mandates insertion there and no new route - yet the
insertion step ends with TWO routes `[[1, 2, 3], [4]]`: the commit
fails (the shallow measure missed the downstream violation of customer
3's window) and the emergency fallback opens a dedicated route. -/
theorem c8_mih_threshold_counterexample :
    (List.insertionSort (mihLe exD8 (exLookup8 0))
      [exLookup8 1, exLookup8 2, exLookup8 3, exLookup8 4]).map Customer.id =
      [1, 2, 3, 4] ∧
    exRoutes8 = [exRoute8lit] ∧
    mihBest exD8 (exLookup8 4) [exRoute8lit] = some (0, 1, 20) ∧
    ¬ (exD8 (exLookup8 0) (exLookup8 4) + exD8 (exLookup8 4) (exLookup8 0) + 1000 < 20) ∧
    (mihStep exD8 (exLookup8 0) 50 exLookup8 [exRoute8lit] (exLookup8 4)).map
      Route.customer_ids = [[1, 2, 3], [4]] := by
  refine ⟨?_, ?_, ?_, ?_, ?_⟩
  · norm_num [List.insertionSort, List.orderedInsert, mihLe, exD8, dist8, exLookup8, abs]
  · norm_num [List.enum, List.enumFrom, List.range_succ, List.range_zero,
      List.foldl_append, List.foldl_cons, List.foldl_nil, List.insertIdx_zero,
      List.insertIdx_succ_cons, List.eraseIdx, exRoutes8, exRoute8lit, mihStep, mihBest,
      scanRoutes, scanPositions, trueInsertionCost, mihFallback, Route.init,
      insertInplace, insertTrial, insertRollback, isFeasible, recalculateFrom, recalcAux,
      calculateCostInplace, calcAux, getDist, cacheFind, dist8, exD8, exLookup8, abs]
  · norm_num [List.range_succ, List.range_zero, List.foldl_append, List.foldl_cons,
      List.foldl_nil, List.insertIdx_zero, List.insertIdx_succ_cons, mihBest, scanRoutes,
      scanPositions, trueInsertionCost, exRoute8lit, dist8, exD8, exLookup8, abs]
  · norm_num [exD8, dist8, exLookup8]
  · norm_num [List.enum, List.enumFrom, List.range_succ, List.range_zero,
      List.foldl_append, List.foldl_cons, List.foldl_nil, List.insertIdx_zero,
      List.insertIdx_succ_cons, List.eraseIdx, exRoute8lit, mihStep, mihBest,
      scanRoutes, scanPositions, trueInsertionCost, mihFallback, Route.init,
      insertInplace, insertTrial, insertRollback, isFeasible, recalculateFrom, recalcAux,
      calculateCostInplace, calcAux, getDist, cacheFind, dist8, exD8, exLookup8, abs]

set_option maxHeartbeats 4000000 in
theorem c8_mih_construction_amended_witness :
    (mihStep exD8 (exLookup8 0) 50 exLookup8 [exRoute8lit] (exLookup8 4)).map
      Route.customer_ids = [exRoute8lit].map Route.customer_ids ++ [[(exLookup8 4).id]] :=
  ((c8_mih_construction_amended exD8 (exLookup8 0) 50 exLookup8 [] [exRoute8lit]
      (exLookup8 4)).2.2.2.2.1 (0, 1, 20) (by simp)
    (by norm_num [List.range_succ, List.range_zero, List.insertIdx_zero,
      List.insertIdx_succ_cons, mihBest, scanRoutes, scanPositions, trueInsertionCost,
      exRoute8lit, dist8, exD8, exLookup8, abs])
    (by norm_num [exD8, dist8, exLookup8])).2
    (by norm_num [List.insertIdx_zero, List.insertIdx_succ_cons, List.eraseIdx,
      Route.init, insertInplace, insertTrial, insertRollback, isFeasible,
      recalculateFrom, recalcAux, getDist, cacheFind, exRoute8lit, dist8, exD8,
      exLookup8, abs])

end VRPTW
